import Mathlib

/-!
Evergreen: cloud cost model, host lifecycle and scheduler.

A shallow embedding of `cloud/ec2_price.go`, `model/host/host.go` and
`scheduler/scheduler.go`.

Conventions of the embedding:

* an instant (`time.Time`) is an integer number of nanoseconds, a
  `time.Duration` likewise; `Duration.Hours()` is the exact quotient by the
  number of nanoseconds in an hour;
* a price (`float64`) is a rational number: arithmetic is exact;
* a Go function that returns `(value, error)` returns an `Except String`;
* a method with a pointer receiver returns the receiver after the call next
  to its result;
* a Go map is the list of its assignments, the latest first, and a run-time
  panic is the value `none`.
-/

namespace Evergreen

/-! ## Time -/

/-- The constant `time.Hour`, in nanoseconds. -/
def Hour : Int := 3600000000000

/-- The method `Duration.Hours`, exact. -/
def Hours (d : Int) : ℚ := (d : ℚ) / (Hour : ℚ)

/-! ## Spot billing calculator (`cloud/ec2_price.go`) -/

/-- The struct `spotRate`: one hourly billing bucket. -/
structure spotRate where
  Time : Int
  Price : ℚ
deriving DecidableEq, Repr

/-- The body of the `for i := range rates` loop of `spotCostForRange`, the
list being `rates[i:]`, with the loop variables `cur` and `cost`.
`rates[i+1]` is the second element of the list, when there is one. -/
def spotCostLoop (end_ : Int) : List spotRate → Int → ℚ → ℚ
  | [], _, cost => cost
  | [r], cur, cost =>
    -- `i+1 == len(rates)`: the last rate bucket
    cost + Hours (end_ - cur) * r.Price
  | r :: r' :: rest, cur, cost =>
    if cur > r'.Time then
      -- `continue`
      spotCostLoop end_ (r' :: rest) cur cost
    else if end_ < r'.Time then
      -- `break`
      cost + Hours (end_ - cur) * r.Price
    else
      spotCostLoop end_ (r' :: rest) r'.Time (cost + Hours (r'.Time - cur) * r.Price)

/-- The function `spotCostForRange`. -/
def spotCostForRange (start end_ : Int) (rates : List spotRate) : ℚ :=
  spotCostLoop end_ rates start 0

/-- The times of a rate sequence are strictly increasing. -/
def StrictlyIncreasing (rates : List spotRate) : Prop :=
  List.Pairwise (fun a b : spotRate => a.Time < b.Time) rates

instance (rates : List spotRate) : Decidable (StrictlyIncreasing rates) := by
  unfold StrictlyIncreasing; infer_instance

/-- The length, in nanoseconds, of the overlap of `[start, end_)` with the
bucket `[lo, hi)`. -/
def overlap (start end_ lo hi : Int) : Int :=
  max 0 (min end_ hi - max start lo)

/-- The length, in nanoseconds, of the overlap of `[start, end_)` with the
unbounded bucket `[lo, ∞)`. -/
def overlapLast (start end_ lo : Int) : Int :=
  max 0 (end_ - max start lo)

/-- The cost of `[start, end_)` as the claim words it: the sum over the
buckets of the bucket's price times the hours of overlap, bucket `i` running
from `rates[i].Time` to `rates[i+1].Time` and the last one having no upper
bound. -/
def bucketCost (start end_ : Int) : List spotRate → ℚ
  | [] => 0
  | [r] => Hours (overlapLast start end_ r.Time) * r.Price
  | r :: r' :: rest =>
    Hours (overlap start end_ r.Time r'.Time) * r.Price + bucketCost start end_ (r' :: rest)

set_option linter.dupNamespace false in
/-- A sample of the price history (`ec2.SpotPrice`): its `Timestamp`, its
`SpotPrice` string as `strconv.ParseFloat` reads it (`none` when the string
does not parse) and its `AvailabilityZone`. -/
structure SpotPrice where
  Timestamp : Int
  SpotPrice : Option ℚ
  AvailabilityZone : String
deriving DecidableEq, Repr

/-- The sampling loop `for i >= 0` of `describeHourlySpotPriceHistory`, with
`k = i + 1` (so that `i >= 0` reads `0 < k`), the loop variable `input.start`
as `start` and the slice `prices`. `history[i-1]` is read only when `i ≠ 0`. -/
def hourlyLoop (history : List SpotPrice) (end_ : Int) (k : Nat) (start : Int)
    (prices : List spotRate) : Except String (List spotRate) :=
  match k with
  | 0 => .ok prices
  | i + 1 =>
    match history[i]? with
    | none => .error "index out of range"
    | some h =>
      if i = 0 ∨ start = h.Timestamp ∨
          (start > h.Timestamp ∧ start < (history.getD (i - 1) h).Timestamp) then
        match h.SpotPrice with
        | none => .error "parsing spot price"
        | some price =>
          if start + Hour > end_ then
            .ok (prices ++ [⟨start, price⟩])
          else
            hourlyLoop history end_ (i + 1) (start + Hour) (prices ++ [⟨start, price⟩])
      else
        hourlyLoop history end_ i start prices
termination_by k + (end_ - start).toNat
decreasing_by
  all_goals simp_wf
  all_goals first | omega | (unfold Hour at *; omega)

/-- The function `describeHourlySpotPriceHistory` after its paging loop:
`fetched` is what the paging loop leaves, the error of the client or the
concatenation of the pages, in the order the client returns them. -/
def describeHourlySpotPriceHistory (fetched : Except String (List SpotPrice))
    (start end_ : Int) : Except String (List spotRate) :=
  match fetched with
  | .error e => .error e
  | .ok history => hourlyLoop history end_ history.length start []

/-- The timestamps of a price history are strictly decreasing, the order in
which the provider returns it. -/
def StrictlyDecreasing (history : List SpotPrice) : Prop :=
  List.Pairwise (fun a b : SpotPrice => a.Timestamp > b.Timestamp) history

instance (history : List SpotPrice) : Decidable (StrictlyDecreasing history) := by
  unfold StrictlyDecreasing; infer_instance

/-- The sample `h` of `history` is the most recent one at or before `b`. -/
def MostRecentAtOrBefore (history : List SpotPrice) (b : Int) (h : SpotPrice) : Prop :=
  h ∈ history ∧ h.Timestamp ≤ b ∧
    ∀ h' ∈ history, h'.Timestamp ≤ b → h'.Timestamp ≤ h.Timestamp

/-- The hour boundaries `start + k * 1h`, `k = 0, 1, ...`, up to `end_`. -/
def hourBoundaries (start end_ : Int) : List Int :=
  (List.range (((end_ - start) / Hour).toNat + 1)).map (fun j : Nat => start + j * Hour)

/-- The rate `r` carries the price of the most recent sample at or before its time. -/
def RateOfMostRecent (history : List SpotPrice) (r : spotRate) : Prop :=
  ∃ h, MostRecentAtOrBefore history r.Time h ∧ h.SpotPrice = some r.Price

/-- The rate `r` carries the price of the latest sample, `history[0]`. -/
def RateOfLatest (history : List SpotPrice) (r : spotRate) : Prop :=
  ∃ h, history.head? = some h ∧ h.SpotPrice = some r.Price

/-- The rate `r` carries the price of the earliest sample, the last element of
`history`. -/
def RateOfEarliest (history : List SpotPrice) (r : spotRate) : Prop :=
  ∃ h, history.getLast? = some h ∧ h.SpotPrice = some r.Price

/-! ## Price cache (`cloud/ec2_price.go`) -/

/-- The struct `odInfo`, key of the on-demand price cache. The field
`instance` is spelt `instance_`. -/
structure odInfo where
  os : String
  instance_ : String
  region : String
deriving DecidableEq, Repr

/-- A Go `map[K]float64` that is not nil: the list of its assignments, the
latest first. -/
abbrev PriceMap (K : Type) := List (K × ℚ)

/-- The read `m[k]` of a Go map: the zero value when `k` has no entry. -/
def PriceMap.get {K : Type} [BEq K] (m : PriceMap K) (k : K) : ℚ :=
  (m.lookup k).getD 0

/-- The read `v, ok := m[k]` of a Go map. -/
def PriceMap.get? {K : Type} [BEq K] (m : PriceMap K) (k : K) : Option ℚ :=
  m.lookup k

/-- The assignment `m[k] = v` of a Go map. -/
def PriceMap.set {K : Type} (m : PriceMap K) (k : K) (v : ℚ) : PriceMap K :=
  (k, v) :: m

/-- The struct `cachingPriceFetcher` without its mutex; `none` is the nil map. -/
structure cachingPriceFetcher where
  ec2Prices : Option (PriceMap odInfo) := none
  ebsPrices : Option (PriceMap String) := none
deriving DecidableEq, Repr

/-- A product of the on-demand price catalog, with the fields that
`cacheEc2Prices` decodes. -/
structure Product where
  SKU : String
  ProductFamily : String
  Location : String
  InstanceType : String
  PreInstalledSW : String
  OperatingSystem : String
  Tenancy : String
  LicenseModel : String
deriving DecidableEq, Repr

/-- The decoded catalog `details`: `skuPrice` stands for `details.Terms.skuPrice`,
whose declaration is not in `ec2_price.go`, and `Products` is the catalog's
product map in the order the `range` loop visits it. -/
structure Details where
  skuPrice : String → ℚ
  Products : List Product

/-- The declarations that `ec2_price.go` uses and does not contain, taken as
parameters: `regionFullname`, `osBillingName`, `defaultRegion`, the names of
the providers and the names of the operating systems. -/
structure Env where
  regionFullname : String → Except String String
  osBillingName : String → String
  defaultRegion : String
  ProviderNameEc2OnDemand : String
  ProviderNameEc2Spot : String
  osLinux : String
  osWindows : String

/-- The call `errors.Wrap(err, msg)`, on the messages. -/
def Wrap (err msg : String) : String := msg ++ ": " ++ err

/-- The `range details.Products` loop of `cacheEc2Prices`. -/
def cacheProducts (details : Details) : List Product → PriceMap odInfo → PriceMap odInfo
  | [], m => m
  | p :: rest, m =>
    if p.ProductFamily = "Compute Instance" ∧ p.PreInstalledSW = "NA" ∧
        p.Tenancy = "Shared" ∧ p.LicenseModel ≠ "Bring your own license" then
      cacheProducts details rest
        (m.set ⟨p.OperatingSystem, p.InstanceType, p.Location⟩ (details.skuPrice p.SKU))
    else
      cacheProducts details rest m

/-- The method `cacheEc2Prices`. `fetched` is what `util.Retry` leaves: the
error after the last attempt, or the decoded catalog. The result is the
fetcher after the call and the returned error. -/
def cacheEc2Prices (cpf : cachingPriceFetcher) (fetched : Except String Details) :
    cachingPriceFetcher × Option String :=
  let cpf := { cpf with ec2Prices := some [] }
  match fetched with
  | .error err => (cpf, some err)
  | .ok details =>
    ({ cpf with ec2Prices := some (cacheProducts details details.Products []) }, none)

/-- The method `getEC2OnDemandCost`, the mutex left out. `fetched` is the
outcome that the catalog fetch has if this call performs it. The result is the
fetcher after the call and the returned `(float64, error)`. -/
def getEC2OnDemandCost (env : Env) (cpf : cachingPriceFetcher)
    (fetched : Except String Details) (os instance_ region : String) :
    cachingPriceFetcher × Except String ℚ :=
  let filled : cachingPriceFetcher × Option String :=
    match cpf.ec2Prices with
    | none => cacheEc2Prices cpf fetched
    | some _ => (cpf, none)
  match filled with
  | (cpf, some err) => (cpf, .error (Wrap err "loading On Demand price data"))
  | (cpf, none) =>
    match env.regionFullname region with
    | .error err => (cpf, .error err)
    | .ok region =>
      (cpf, .ok (PriceMap.get (cpf.ec2Prices.getD [])
        ⟨env.osBillingName os, instance_, region⟩))

/-- The scan `for i := range prices.SpotPriceHistory` of
`getLatestLowestSpotCostForInstance`, with the variables `min` and `az`. -/
def lowestSpotLoop : List SpotPrice → ℚ → String → Except String (ℚ × String)
  | [], min, az => .ok (min, az)
  | s :: rest, min, az =>
    match s.SpotPrice with
    | none => .error "error parsing spot price"
    | some p =>
      if min = 0 ∨ p < min then lowestSpotLoop rest p s.AvailabilityZone
      else lowestSpotLoop rest min az

/-- The struct `distro.Distro`, with the fields used here. -/
structure Distro where
  Id : String := ""
  Provider : String := ""
  Arch : String := ""
  PoolSize : Int := 0
deriving DecidableEq, Repr

/-- The struct `host.Host`, with the fields used here; `ProvisionTime` and
`LastTaskCompletedTime` are instants in nanoseconds. -/
structure Host where
  Id : String := ""
  Distro : Distro := {}
  Provisioned : Bool := false
  ProvisionTime : Int := 0
  RunningTask : String := ""
  RunningTaskGroup : String := ""
  RunningTaskBuildVariant : String := ""
  RunningTaskVersion : String := ""
  RunningTaskProject : String := ""
  LastTask : String := ""
  LastGroup : String := ""
  LastBuildVariant : String := ""
  LastVersion : String := ""
  LastProject : String := ""
  LastTaskCompletedTime : Int := 0
  Status : String := ""
  UserHost : Bool := false
  NeedsNewAgent : Bool := false
deriving DecidableEq, Repr

/-- The struct `EC2ProviderSettings`, with the fields used here. -/
structure EC2ProviderSettings where
  InstanceType : String := ""
  IsVpc : Bool := false
  BidPrice : ℚ := 0
  VpcName : String := ""
  SubnetId : String := ""
deriving DecidableEq, Repr

/-- The interface `AWSClient`, with the calls used here, each a function from
the values of its filter to what the provider answers:
`DescribeSpotPriceHistory` from the instance type and the product description
(the start time being in the future, the answer is the latest samples),
`DescribeVpcs` from the `tag:Name` value to the ids of the networks, and
`DescribeSubnets` from the `vpc-id`, `availability-zone` and `tag:Name` values
to the ids of the subnets. -/
structure AWSClient where
  DescribeSpotPriceHistory : String → String → Except String (List SpotPrice)
  DescribeVpcs : String → Except String (List String)
  DescribeSubnets : String → String → String → Except String (List String)

/-- Modelled from the spec: the type `ec2ProviderType` and its constants are
declared outside `ec2_price.go`; the modes are forced on-demand, forced spot
and automatic, and `other` is any other value of the integer type. -/
inductive ec2ProviderType where
  | onDemandProvider
  | spotProvider
  | autoProvider
  | other (n : Int)
deriving DecidableEq, Repr

/-- The struct `ec2Manager`, with the fields used here. -/
structure ec2Manager where
  provider : ec2ProviderType
  client : AWSClient

/-- The method `getLatestLowestSpotCostForInstance`, the mutex left out. -/
def getLatestLowestSpotCostForInstance (client : AWSClient) (settings : EC2ProviderSettings)
    (os : String) : Except String (ℚ × String) :=
  let osName := if settings.IsVpc then os ++ " (Amazon VPC)" else os
  match client.DescribeSpotPriceHistory settings.InstanceType osName with
  | .error err => .error (Wrap err "error getting spot price history")
  | .ok prices =>
    if prices.length = 0 then .error "no prices found"
    else lowestSpotLoop prices 0 ""

/-- The function `getOsName`. -/
def getOsName (env : Env) (h : Host) : String :=
  if "windows".toList <:+: h.Distro.Arch.toList then env.osWindows else env.osLinux

/-- The method `getSubnetForAZ`; `none` is a run-time panic, an index out of
range. -/
def getSubnetForAZ (m : ec2Manager) (azName vpcName : String) :
    Option (Except String String) :=
  match m.client.DescribeVpcs vpcName with
  | .error err => some (.error (Wrap err "error finding vpc id"))
  | .ok vpcs =>
    match vpcs[0]? with
    | none => none
    | some vpcID =>
      match (azName.splitOn "-")[2]? with
      | none => none
      | some part =>
        match m.client.DescribeSubnets vpcID azName (vpcName ++ ".subnet_" ++ part) with
        | .error err => some (.error (Wrap err "error finding subnet id"))
        | .ok subnets =>
          match subnets[0]? with
          | none => none
          | some subnetID => some (.ok subnetID)

/-- What `getProvider` leaves: its result (`none` is a run-time panic), the
host and the settings it was given pointers to, and the package's price
fetcher. -/
structure ProviderOutcome where
  result : Option (Except String ec2ProviderType)
  h : Host
  ec2settings : EC2ProviderSettings
  cpf : cachingPriceFetcher

/-- The assignment `h.Distro.Provider = name`. -/
def withProvider (h : Host) (name : String) : Host :=
  { h with Distro := { h.Distro with Provider := name } }

/-- The method `getProvider`; `cpf` is `pkgCachingPriceFetcher` and `fetched`
the outcome that the catalog fetch has if this call performs it. -/
def getProvider (env : Env) (m : ec2Manager) (cpf : cachingPriceFetcher)
    (fetched : Except String Details) (h : Host) (ec2settings : EC2ProviderSettings) :
    ProviderOutcome :=
  if h.UserHost then
    ⟨some (.ok .onDemandProvider), withProvider h env.ProviderNameEc2OnDemand, ec2settings, cpf⟩
  else
    match m.provider with
    | .spotProvider =>
      ⟨some (.ok .spotProvider), withProvider h env.ProviderNameEc2Spot, ec2settings, cpf⟩
    | .onDemandProvider =>
      ⟨some (.ok .onDemandProvider), withProvider h env.ProviderNameEc2OnDemand, ec2settings,
        cpf⟩
    | .autoProvider =>
      match getEC2OnDemandCost env cpf fetched (getOsName env h) ec2settings.InstanceType
          env.defaultRegion with
      | (cpf, .error err) =>
        ⟨some (.error (Wrap err "error getting ec2 on-demand cost")), h, ec2settings, cpf⟩
      | (cpf, .ok onDemandPrice) =>
        match getLatestLowestSpotCostForInstance m.client ec2settings (getOsName env h) with
        | .error err =>
          ⟨some (.error (Wrap err "error getting latest lowest spot price")), h, ec2settings,
            cpf⟩
        | .ok (spotPrice, az) =>
          if spotPrice < onDemandPrice then
            let ec2settings := { ec2settings with BidPrice := onDemandPrice }
            if ec2settings.VpcName ≠ "" then
              match getSubnetForAZ m az ec2settings.VpcName with
              | none => ⟨none, h, ec2settings, cpf⟩
              | some (.error err) =>
                ⟨some (.error (Wrap err "error settings dynamic subnet for spot")), h,
                  ec2settings, cpf⟩
              | some (.ok subnetID) =>
                ⟨some (.ok .spotProvider), withProvider h env.ProviderNameEc2Spot,
                  { ec2settings with SubnetId := subnetID }, cpf⟩
            else
              ⟨some (.ok .spotProvider), withProvider h env.ProviderNameEc2Spot, ec2settings,
                cpf⟩
          else
            ⟨some (.ok .onDemandProvider), withProvider h env.ProviderNameEc2OnDemand,
              ec2settings, cpf⟩
    | .other _ =>
      ⟨some (.error "provider is not on-demand, spot or auto"), h, ec2settings, cpf⟩

/-- An environment for the examples: one region, `us-east-1`. -/
def exampleEnv : Env where
  regionFullname := fun r =>
    if r = "us-east-1" then .ok "US East (N. Virginia)" else .error "region not supported"
  osBillingName := fun os => os
  defaultRegion := "us-east-1"
  ProviderNameEc2OnDemand := "ec2-ondemand"
  ProviderNameEc2Spot := "ec2-spot"
  osLinux := "Linux/UNIX"
  osWindows := "Windows"

/-- The price `m` is the lowest price of the samples. -/
def IsLowestPrice (prices : List SpotPrice) (m : ℚ) : Prop :=
  (∃ s ∈ prices, s.SpotPrice = some m) ∧
    ∀ s ∈ prices, ∀ p, s.SpotPrice = some p → m ≤ p

/-- A client for the examples: it answers every price query with `prices`,
every network query with `vpcs` and every subnet query with one subnet. -/
def exampleClient (prices : List SpotPrice) (vpcs : Except String (List String)) :
    AWSClient where
  DescribeSpotPriceHistory := fun _ _ => .ok prices
  DescribeVpcs := fun _ => vpcs
  DescribeSubnets := fun _ _ _ => .ok ["subnet-1"]

/-! ## Host model (`model/host/host.go`) -/

/-- Modelled from the spec: the constant `evergreen.HostUninitialized`,
declared outside `host.go`; the spec names the state `uninitialized`. -/
def HostUninitialized : String := "uninitialized"

/-- Modelled from the spec: the constant `evergreen.HostStarting`, the state
`starting`. -/
def HostStarting : String := "starting"

/-- Modelled from the spec: the constant `evergreen.HostInitializing`, the
state `initializing`. -/
def HostInitializing : String := "initializing"

/-- Modelled from the spec: the constant `evergreen.HostRunning`, the state
`running`. -/
def HostRunning : String := "running"

/-- Modelled from the spec: the constant `evergreen.HostProvisionFailed`, the
state `provision_failed`. -/
def HostProvisionFailed : String := "provision_failed"

/-- Modelled from the spec: the constant `evergreen.HostDecommissioned`, the
state `decommissioned`. -/
def HostDecommissioned : String := "decommissioned"

/-- Modelled from the spec: the constant `evergreen.HostQuarantined`, the
state `quarantined`. -/
def HostQuarantined : String := "quarantined"

/-- Modelled from the spec: the constant `evergreen.HostTerminated`, the
terminal state `terminated`. -/
def HostTerminated : String := "terminated"

/-- Modelled from the spec: the constant `evergreen.User`, the name under
which the system itself acts. -/
def User : String := "mci"

/-- An entry of the event log written by the package `event`. -/
inductive Event where
  | HostStatusChanged (hostId oldStatus newStatus user logs : String)
  | HostProvisioned (hostId : String)
  | HostRunningTaskSet (hostId taskId : String)
  | HostRunningTaskCleared (hostId taskId : String)
  | HostCreated (hostId : String)
deriving DecidableEq, Repr

/-- Modelled from the spec: the host store and the event log, which are
outside `host.go`. `hosts` are the persisted host documents, `events` the
logged events, the latest last, and `ioError`, when set, is the hard I/O error
with which every update of the store fails. -/
structure DB where
  hosts : List Host := []
  events : List Event := []
  ioError : Option String := none
deriving DecidableEq, Repr

/-- Modelled from the spec: the error `mgo.ErrNotFound`, with which an update
fails when its guard matches no document. -/
def ErrNotFound : String := "not found"

/-- The first document that `query` matches is replaced by its `update`. -/
def updateFirst (query : Host → Bool) (update : Host → Host) : List Host → Option (List Host)
  | [] => none
  | d :: rest =>
    if query d then some (update d :: rest)
    else (updateFirst query update rest).map (fun rest' => d :: rest')

/-- Modelled from the spec: the function `UpdateOne` of the host store,
declared outside `host.go` (an update with a guarded precondition, which
fails distinctly when the precondition is unmet and on a hard I/O error): the
first document that `query` matches gets `update`; the result is the store
after the call and the returned error. -/
def UpdateOne (db : DB) (query : Host → Bool) (update : Host → Host) : DB × Option String :=
  match db.ioError with
  | some err => (db, some err)
  | none =>
    match updateFirst query update db.hosts with
    | none => (db, some ErrNotFound)
    | some hosts => ({ db with hosts := hosts }, none)

/-- Modelled from the spec: the function `event.LogHostStatusChanged`, declared
outside `host.go`; the event log is an observability sink, and the call
appends one event. -/
def LogHostStatusChanged (db : DB) (hostId oldStatus newStatus user logs : String) : DB :=
  { db with events := db.events ++ [.HostStatusChanged hostId oldStatus newStatus user logs] }

/-- Modelled from the spec: the function `event.LogHostProvisioned`, declared
outside `host.go`; the call appends one event. -/
def LogHostProvisioned (db : DB) (hostId : String) : DB :=
  { db with events := db.events ++ [.HostProvisioned hostId] }

/-- What a method of `*Host` leaves: the host in memory, the store and the
returned error. -/
structure HostResult where
  h : Host
  db : DB
  err : Option String
deriving DecidableEq, Repr

/-- The method `SetStatus`. -/
def SetStatus (db : DB) (h : Host) (status user logs : String) : HostResult :=
  if h.Status = HostTerminated then
    ⟨h, db, some ("Refusing to mark host " ++ h.Id ++ " as " ++ status ++
      " because it is already terminated")⟩
  else
    let db := LogHostStatusChanged db h.Id h.Status status user logs
    let h := { h with Status := status }
    let r := UpdateOne db (fun d => d.Id = h.Id) (fun d => { d with Status := status })
    ⟨h, r.1, r.2⟩

/-- The method `SetInitializing`. -/
def SetInitializing (db : DB) (h : Host) : HostResult :=
  let r := UpdateOne db (fun d => d.Id = h.Id ∧ d.Status = HostStarting)
    (fun d => { d with Status := HostInitializing })
  ⟨h, r.1, r.2⟩

/-- The method `SetStarting`. -/
def SetStarting (db : DB) (h : Host) : HostResult :=
  let r := UpdateOne db (fun d => d.Id = h.Id ∧ d.Status = HostUninitialized)
    (fun d => { d with Status := HostStarting })
  ⟨h, r.1, r.2⟩

/-- The method `SetDecommissioned`. -/
def SetDecommissioned (db : DB) (h : Host) (user logs : String) : HostResult :=
  SetStatus db h HostDecommissioned user logs

/-- The method `SetRunning`. -/
def SetRunning (db : DB) (h : Host) (user : String) : HostResult :=
  SetStatus db h HostRunning user ""

/-- The method `SetTerminated`. -/
def SetTerminated (db : DB) (h : Host) (user : String) : HostResult :=
  SetStatus db h HostTerminated user ""

/-- The method `SetUnprovisioned`. -/
def SetUnprovisioned (db : DB) (h : Host) : HostResult :=
  let r := UpdateOne db (fun d => d.Id = h.Id ∧ d.Status = HostInitializing)
    (fun d => { d with Status := HostProvisionFailed })
  ⟨h, r.1, r.2⟩

/-- The method `SetQuarantined`. -/
def SetQuarantined (db : DB) (h : Host) (user logs : String) : HostResult :=
  SetStatus db h HostQuarantined user logs

/-- The method `MarkAsProvisioned`; `now` is the value of `time.Now()`. -/
def MarkAsProvisioned (db : DB) (now : Int) (h : Host) : HostResult :=
  let db := LogHostProvisioned db h.Id
  let h := { h with Status := HostRunning, Provisioned := true }
  let r := UpdateOne db (fun d => d.Id = h.Id)
    (fun d => { d with Status := HostRunning, Provisioned := true, ProvisionTime := now })
  ⟨h, r.1, r.2⟩

/-- The method `MarkReachable`. -/
def MarkReachable (db : DB) (h : Host) : HostResult :=
  if h.Status = HostRunning then
    ⟨h, db, none⟩
  else
    let db := LogHostStatusChanged db h.Id h.Status HostRunning User ""
    let h := { h with Status := HostRunning }
    let r := UpdateOne db (fun d => d.Id = h.Id) (fun d => { d with Status := HostRunning })
    ⟨h, r.1, r.2⟩

/-! ## Cost of a host (`cloud/ec2_price.go`) -/

/-- The struct `timeRange`. -/
structure timeRange where
  start : Int
  end_ : Int
deriving DecidableEq, Repr

/-- The struct `ec2.Instance`, with the fields used here; `AvailabilityZone` is
`Placement.AvailabilityZone`. -/
structure Instance where
  InstanceType : String
  AvailabilityZone : String
  LaunchTime : Int
deriving DecidableEq, Repr

/-- The calls of the interface `AWSClient` that the cost of a host uses, each
a function to what the provider answers: `GetInstanceInfo` from the instance
id, `GetSpotInstanceId` from the host, and `SpotPriceHistory`, the paging loop
over `DescribeSpotPriceHistory`, from the instance type, the zone, the
product description and the start and end of the filter. -/
structure CostClient where
  GetInstanceInfo : String → Except String Instance
  GetSpotInstanceId : Host → Except String String
  SpotPriceHistory : String → String → String → Int → Int → Except String (List SpotPrice)

/-- The method `calculateSpotCost`. -/
def calculateSpotCost (client : CostClient) (i : Instance) (os : String) (t : timeRange) :
    Except String ℚ :=
  match describeHourlySpotPriceHistory
      (client.SpotPriceHistory i.InstanceType i.AvailabilityZone os (i.LaunchTime - Hour)
        (t.end_ + Hour))
      i.LaunchTime t.end_ with
  | .error err => .error err
  | .ok rates => .ok (spotCostForRange t.start t.end_ rates)

/-- The method `getEC2Cost`. `isHostOnDemand` and `azToRegion` are declared
outside `ec2_price.go` and taken as parameters; `fetched` is the outcome that
the catalog fetch has if this call performs it. -/
def getEC2Cost (env : Env) (isHostOnDemand : Host → Bool) (azToRegion : String → String)
    (cpf : cachingPriceFetcher) (fetched : Except String Details) (client : CostClient)
    (h : Host) (t : timeRange) : cachingPriceFetcher × Except String ℚ :=
  let os := getOsName env h
  if isHostOnDemand h then
    match client.GetInstanceInfo h.Id with
    | .error err => (cpf, .error (Wrap err "error getting instance info"))
    | .ok inst =>
      let dur := t.end_ - t.start
      let region := azToRegion inst.AvailabilityZone
      match getEC2OnDemandCost env cpf fetched os inst.InstanceType region with
      | (cpf, .error err) => (cpf, .error err)
      | (cpf, .ok price) => (cpf, .ok (price * Hours dur))
  else
    match client.GetSpotInstanceId h with
    | .error err => (cpf, .error (Wrap err "error getting spot instance ID"))
    | .ok instanceId =>
      if instanceId = "" then
        (cpf, .error "spot instance does not yet have an instanceId")
      else
        match client.GetInstanceInfo instanceId with
        | .error err => (cpf, .error (Wrap err "error getting instance info"))
        | .ok inst => (cpf, calculateSpotCost client inst os t)

/-- A client for the examples: every instance is an `m3.large` in
`us-east-1a`, launched at 0. -/
def exampleCostClient : CostClient where
  GetInstanceInfo := fun _ => .ok ⟨"m3.large", "us-east-1a", 0⟩
  GetSpotInstanceId := fun _ => .ok "i-1"
  SpotPriceHistory := fun _ _ _ _ _ => .ok []

/-! ## Scheduler (`scheduler/scheduler.go`) -/

/-- A Go map that is not nil: the list of its assignments, the latest first. -/
abbrev GoMap (K V : Type) := List (K × V)

/-- The read `v, ok := m[k]` of a Go map. -/
def GoMap.get? {K V : Type} [BEq K] (m : GoMap K V) (k : K) : Option V :=
  m.lookup k

/-- The read `m[k]` of a Go map of slices: the nil slice when `k` has no entry. -/
def GoMap.getD {K V : Type} [BEq K] (m : GoMap K (List V)) (k : K) : List V :=
  (m.lookup k).getD []

/-- The assignment `m[k] = v` of a Go map. -/
def GoMap.set {K V : Type} (m : GoMap K V) (k : K) (v : V) : GoMap K V :=
  (k, v) :: m

/-- The call `delete(m, k)` on a Go map. -/
def GoMap.delete {K V : Type} [BEq K] (m : GoMap K V) (k : K) : GoMap K V :=
  m.filter (fun kv => !(kv.1 == k))

/-- The struct `task.Task`, with the fields used here. -/
structure Task where
  Id : String := ""
  DisplayName : String := ""
  Version : String := ""
  BuildVariant : String := ""
  Project : String := ""
  DistroId : String := ""
  TaskGroup : String := ""
deriving DecidableEq, Repr

/-- The struct `model.BuildVariantTaskUnit`, an entry of a build variant's
task list, with the fields used here. -/
structure BuildVariantTaskUnit where
  Name : String := ""
  Distros : List String := []
deriving DecidableEq, Repr

/-- The struct `model.BuildVariant`, with the fields used here. -/
structure BuildVariant where
  Name : String := ""
  RunOn : List String := []
  Tasks : List BuildVariantTaskUnit := []
deriving DecidableEq, Repr

/-- The struct `model.TaskGroup`, with the fields used here. -/
structure TaskGroup where
  Name : String := ""
  Tasks : List String := []
deriving DecidableEq, Repr

/-- The struct `model.Project`, with the fields used here. -/
structure Project where
  BuildVariants : List BuildVariant := []
  TaskGroups : List TaskGroup := []
deriving DecidableEq, Repr

/-- The struct `versionBuildVariant`. -/
structure versionBuildVariant where
  Version : String
  BuildVariant : String
deriving DecidableEq, Repr

/-- Modelled from the spec: the function `util.UniqueStrings`, declared
outside `scheduler.go` (duplicate distro identifiers are removed): each string
is kept at its first occurrence. -/
def UniqueStrings : List String → List String
  | [] => []
  | s :: rest => s :: (UniqueStrings rest).filter (fun x => x ≠ s)

/-- The function `updateVersionBuildVarMap`, the list being the build variants
of the project that the loop has still to visit. -/
def updateVersionBuildVarMap (versionStr : String) :
    List BuildVariant → GoMap versionBuildVariant BuildVariant →
      GoMap versionBuildVariant BuildVariant
  | [], m => m
  | buildVariant :: rest, m =>
    updateVersionBuildVarMap versionStr rest (m.set ⟨versionStr, buildVariant.Name⟩ buildVariant)

/-- The map `taskGroups` that `getDistrosForBuildVariant` builds, the list
being the task groups that the loop has still to visit. -/
def taskGroupMap : List TaskGroup → GoMap String (List String) → GoMap String (List String)
  | [], m => m
  | tg :: rest, m => taskGroupMap rest (m.set tg.Name tg.Tasks)

/-- The method `getDistrosForBuildVariant`. `getProject` is the method
`getProject` as a function of the version, the store of versions staying as
it is during the call; `p` is `none` for the nil pointer. -/
def getDistrosForBuildVariant (getProject : String → Except String Project) (task : Task)
    (bv : BuildVariant) (p : Option Project) : Except String (List String) :=
  match bv.Tasks.find? (fun bvTask => bvTask.Name = task.DisplayName) with
  | some bvTask => .ok bvTask.Distros
  | none =>
    let loaded : Except String Project :=
      match p with
      | some p => .ok p
      | none => getProject task.Version
    match loaded with
    | .error _ => .error "error finding project for task"
    | .ok p =>
      let taskGroups := taskGroupMap p.TaskGroups []
      match bv.Tasks.find? (fun bvTask =>
          match taskGroups.get? bvTask.Name with
          | some tasksInTaskGroup => tasksInTaskGroup.any (fun t => t = task.DisplayName)
          | none => false) with
      | some bvTask => .ok bvTask.Distros
      | none => .error "no matching task found for buildvariant"

/-- The loop `for _, d := range distrosToUse` of `splitTasksByDistro`. -/
def appendTask (t : Task) : List String → GoMap String (List Task) → GoMap String (List Task)
  | [], m => m
  | d :: rest, m => appendTask t rest (m.set d (m.getD d ++ [t]))

/-- The variables of the loop of `splitTasksByDistro`. -/
structure SplitState where
  tasksByDistro : GoMap String (List Task) := []
  taskRunDistros : GoMap String (List String) := []
  versionBuildVarMap : GoMap versionBuildVariant BuildVariant := []
deriving DecidableEq, Repr

/-- The end of the loop body of `splitTasksByDistro`: the entry of
`taskRunDistros` for a task that runs on more than one distro. -/
def recordRunDistros (st : SplitState) (t : Task) (distrosToUse : List String) : SplitState :=
  if distrosToUse.length > 1 then
    { st with taskRunDistros := st.taskRunDistros.set t.Id distrosToUse }
  else st

/-- The loop body of `splitTasksByDistro` for the task `t`; `none` is a
run-time panic, the index `distrosToUse[0]` out of range. `SetDistro` is the
outcome of `t.SetDistro(d)`, the returned error if any, as a function of the
task and the distro. -/
def splitStep (getProject : String → Except String Project)
    (SetDistro : Task → String → Option String) (st : SplitState) (t : Task) :
    Option SplitState :=
  let key : versionBuildVariant := ⟨t.Version, t.BuildVariant⟩
  -- `none` is the `continue` after a failed `getProject`
  let loaded : Option (Option Project × GoMap versionBuildVariant BuildVariant) :=
    match st.versionBuildVarMap.get? key with
    | some _ => some (none, st.versionBuildVarMap)
    | none =>
      match getProject t.Version with
      | .error _ => none
      | .ok p =>
        some (some p, updateVersionBuildVarMap t.Version p.BuildVariants st.versionBuildVarMap)
  match loaded with
  | none => some st
  | some (p, versionBuildVarMap) =>
    let st := { st with versionBuildVarMap := versionBuildVarMap }
    match versionBuildVarMap.get? key with
    | none => some st
    | some buildVariant =>
      match getDistrosForBuildVariant getProject t buildVariant p with
      | .error _ => some st
      | .ok distros =>
        let distrosToUse :=
          UniqueStrings (if distros.length ≠ 0 then distros else buildVariant.RunOn)
        let st := { st with tasksByDistro := appendTask t distrosToUse st.tasksByDistro }
        if t.DistroId = "" then
          match distrosToUse[0]? with
          | none => none
          | some d =>
            match SetDistro t d with
            | some _ => some st
            | none => some (recordRunDistros st t distrosToUse)
        else
          some (recordRunDistros st t distrosToUse)

/-- The loop `for _, t := range tasksToSplit` of `splitTasksByDistro`. -/
def splitLoop (getProject : String → Except String Project)
    (SetDistro : Task → String → Option String) : List Task → SplitState → Option SplitState
  | [], st => some st
  | t :: rest, st =>
    match splitStep getProject SetDistro st t with
    | none => none
    | some st => splitLoop getProject SetDistro rest st

/-- The method `splitTasksByDistro`: the maps `tasksByDistro` and
`taskRunDistros` (the returned error is always nil), or `none` for a run-time
panic. -/
def splitTasksByDistro (getProject : String → Except String Project)
    (SetDistro : Task → String → Option String) (tasksToSplit : List Task) :
    Option (GoMap String (List Task) × GoMap String (List String)) :=
  (splitLoop getProject SetDistro tasksToSplit {}).map
    (fun st => (st.tasksByDistro, st.taskRunDistros))

/-- The build variant that `splitTasksByDistro` resolves for the version
`versionStr` and the name `name` in the project `p`. -/
def resolveBuildVariant (versionStr name : String) (p : Project) : Option BuildVariant :=
  (updateVersionBuildVarMap versionStr p.BuildVariants []).get? ⟨versionStr, name⟩

/-- The list `distrosToUse` that the loop body of `splitTasksByDistro`
computes for the task `t` when the project of its version is loaded for it:
the outcome of `getDistrosForBuildVariant` on the build variant that the map
`versionBuildVarMap` holds, or `RunOn` when that is empty, through
`UniqueStrings`; `none` when the body goes on to the next task before. -/
def eligibleDistros (getProject : String → Except String Project) (t : Task) :
    Option (List String) :=
  match getProject t.Version with
  | .error _ => none
  | .ok p =>
    match resolveBuildVariant t.Version t.BuildVariant p with
    | none => none
    | some bv =>
      match getDistrosForBuildVariant getProject t bv (some p) with
      | .error _ => none
      | .ok distros => some (UniqueStrings (if distros.length ≠ 0 then distros else bv.RunOn))

/-- A store of versions for the examples: the version `v` has the project
with the one build variant `bv`. -/
def exampleProject (bv : BuildVariant) : String → Except String Project :=
  fun versionStr =>
    if versionStr = "v" then .ok { BuildVariants := [bv] } else .error "not found"

/-- A task for the examples: the task `compile` of the build variant `bv` of
the version `v`, with the distro id `distroId`. -/
def exampleTask (distroId : String) : Task :=
  { Id := "t1", DisplayName := "compile", Version := "v", BuildVariant := "bv",
    DistroId := distroId }

/-- The map `versionBuildVarMap` holds, for each version, either nothing or
what the project of the version resolves. -/
def CacheInv (getProject : String → Except String Project)
    (m : GoMap versionBuildVariant BuildVariant) : Prop :=
  ∀ v, (∀ n, m.get? ⟨v, n⟩ = none) ∨
    ∃ p, getProject v = .ok p ∧ ∀ n, m.get? ⟨v, n⟩ = resolveBuildVariant v n p

/-! ## Eligibility of a task, as the specification words it -/

/-- The build variant that the name `name` stands for in the project `p`;
of several build variants with the name, the one declared last. -/
def specBuildVariant (p : Project) (name : String) : Option BuildVariant :=
  p.BuildVariants.reverse.find? (fun bv => bv.Name = name)

/-- The task group that the name `name` stands for in the project `p`; of
several task groups with the name, the one declared last. -/
def specTaskGroup (p : Project) (name : String) : Option TaskGroup :=
  p.TaskGroups.reverse.find? (fun tg => tg.Name = name)

/-- Whether the entry `e` of a build variant names a task group of the project
`p` that lists the task `displayName`. -/
def specGroupEntry (p : Project) (displayName : String) (e : BuildVariantTaskUnit) : Bool :=
  match specTaskGroup p e.Name with
  | some tg => decide (displayName ∈ tg.Tasks)
  | none => false

/-- The matching build-variant task entry of the task `displayName`: the first
entry of the build variant with the name of the task and, when there is none,
the first entry that names a task group listing the task. -/
def specMatchingEntry (p : Project) (bv : BuildVariant) (displayName : String) :
    Option BuildVariantTaskUnit :=
  match bv.Tasks.find? (fun e => e.Name = displayName) with
  | some e => some e
  | none => bv.Tasks.find? (specGroupEntry p displayName)

/-- The list `E` of the specification: the duplicate-free list of the eligible
distros of the task `t`, which is the distro list of its matching
build-variant task entry when that list is non-empty, otherwise the `RunOn`
list of its build variant; `none` when the project of its version, its build
variant or its matching entry does not resolve. -/
def specEligibleDistros (getProject : String → Except String Project) (t : Task) :
    Option (List String) :=
  match getProject t.Version with
  | .error _ => none
  | .ok p =>
    match specBuildVariant p t.BuildVariant with
    | none => none
    | some bv =>
      match specMatchingEntry p bv t.DisplayName with
      | none => none
      | some e => some (if e.Distros = [] then bv.RunOn else e.Distros).dedup

/-- A store of versions for the examples: the version `v` has a project that
declares the task group `tg` twice, the later time with the tasks `compile`
and `lint`, and the build variant `bv` twice, the later time with `RunOn` the
distro `d9`, the entry `tg` with the distros `d1` and `d2`, and the entry
`test` with no distros. -/
def exampleGroupProject : String → Except String Project :=
  fun versionStr =>
    if versionStr = "v" then
      .ok { BuildVariants :=
              [{ Name := "bv", RunOn := ["d7"],
                 Tasks := [{ Name := "compile", Distros := ["d8"] }] },
               { Name := "bv", RunOn := ["d9", "d9"],
                 Tasks := [{ Name := "tg", Distros := ["d1", "d2", "d1"] }, { Name := "test" }] }],
            TaskGroups :=
              [{ Name := "tg", Tasks := ["test"] },
               { Name := "tg", Tasks := ["compile", "lint"] }] }
    else .error "not found"

/-! ## Host spawning (`scheduler/scheduler.go`) -/

/-- Equality of the results `(value, error)` is decidable. -/
instance instDecidableEqExcept {ε α : Type} [DecidableEq ε] [DecidableEq α] :
    DecidableEq (Except ε α) := fun a b =>
  match a, b with
  | .ok x, .ok y =>
    if h : x = y then isTrue (by rw [h]) else isFalse (fun h' => h (Except.ok.inj h'))
  | .error x, .error y =>
    if h : x = y then isTrue (by rw [h]) else isFalse (fun h' => h (Except.error.inj h'))
  | .ok _, .error _ => isFalse (fun h => by cases h)
  | .error _, .ok _ => isFalse (fun h => by cases h)

/-- Modelled from the spec: the call `distro.FindOne(distro.ById(distroId))`
on the store of distros, which is outside `scheduler.go`: the first distro
with the id, or the not-found error. -/
def FindOneDistro (distros : List Distro) (distroId : String) : Except String Distro :=
  match distros.find? (fun d => d.Id = distroId) with
  | some d => .ok d
  | none => .error ErrNotFound

/-- Modelled from the spec: the call `host.Find(host.ByDistroId(distroId))` on
the host store (find hosts by distro): the persisted hosts of the distro, or
the hard I/O error of the store. -/
def FindByDistroId (db : DB) (distroId : String) : Except String (List Host) :=
  match db.ioError with
  | some err => .error err
  | none => .ok (db.hosts.filter (fun h => h.Distro.Id = distroId))

/-- Modelled from the spec: the function `event.LogHostCreated`, declared
outside `host.go`; the call appends one event. -/
def LogHostCreated (db : DB) (hostId : String) : DB :=
  { db with events := db.events ++ [.HostCreated hostId] }

/-- Modelled from the spec: the call `db.Insert(Collection, h)` on the host
store, declared outside `host.go` (insert intent): it fails with the hard I/O
error of the store or when a document has the id already, and adds the
document otherwise. -/
def dbInsert (db : DB) (h : Host) : DB × Option String :=
  match db.ioError with
  | some err => (db, some err)
  | none =>
    if db.hosts.any (fun d => d.Id = h.Id) then (db, some "duplicate key")
    else ({ db with hosts := db.hosts ++ [h] }, none)

/-- The method `Insert` of `*Host` (`model/host/host.go`): the creation of the
host is logged first, then the document is inserted; the event is logged also
when the insertion fails. -/
def Insert (db : DB) (h : Host) : DB × Option String :=
  dbInsert (LogHostCreated db h.Id) h

/-- Modelled from the spec: the function `cloud.NewIntent`, declared outside
`scheduler.go`: a host record of the distro `d` with the generated name as its
id, not a user host, in the state uninitialized. -/
def NewIntent (d : Distro) (name : String) : Host :=
  { Id := name, Distro := d, Status := HostUninitialized, UserHost := false }

/-- The number of persisted hosts of a distro. -/
def hostCount (db : DB) (distroId : String) : Nat :=
  (db.hosts.filter (fun h => h.Distro.Id = distroId)).length

/-- The variables of `spawnHosts`: the store, the map
`hostsSpawnedPerDistro`, and `tick`, the number of iterations of the inner
loop so far. -/
structure SpawnState where
  db : DB
  hostsSpawnedPerDistro : GoMap String (List Host) := []
  tick : Nat := 0
deriving DecidableEq, Repr

/-- The body of the loop `for i := 0; i < numHostsToSpawn; i++` of
`spawnHosts`; the second component is the error with which the function
returns, `none` when the loop goes on. `canceled` is `ctx.Err() != nil` and
`GenerateName` the name that `d.GenerateName()` draws, both as functions of
the iteration. -/
def spawnIteration (distros : List Distro) (canceled : Nat → Bool)
    (GenerateName : Distro → Nat → String) (distroId : String) (st : SpawnState) :
    SpawnState × Option String :=
  let next := { st with tick := st.tick + 1 }
  if canceled st.tick then (next, some "scheduling run canceled.")
  else
    match FindOneDistro distros distroId with
    | .error _ => (next, none)
    | .ok d =>
      match FindByDistroId st.db distroId with
      | .error _ => (next, none)
      | .ok allDistroHosts =>
        if (allDistroHosts.length : Int) ≥ d.PoolSize then (next, none)
        else
          let intentHost := NewIntent d (GenerateName d st.tick)
          match Insert st.db intentHost with
          | (db, some err) =>
            ({ next with db := db },
              some (Wrap err
                ("Could not insert intent host \x27" ++ intentHost.Id ++ "\x27")))
          | (db, none) =>
            ({ next with
                db := db
                hostsSpawnedPerDistro :=
                  st.hostsSpawnedPerDistro.set distroId
                    (st.hostsSpawnedPerDistro.getD distroId ++ [intentHost]) }, none)

/-- The loop `for i := 0; i < numHostsToSpawn; i++` of `spawnHosts`, with the
number of iterations left. -/
def spawnLoop (distros : List Distro) (canceled : Nat → Bool)
    (GenerateName : Distro → Nat → String) (distroId : String) :
    Nat → SpawnState → SpawnState × Option String
  | 0, st => (st, none)
  | n + 1, st =>
    match spawnIteration distros canceled GenerateName distroId st with
    | (st, some err) => (st, some err)
    | (st, none) => spawnLoop distros canceled GenerateName distroId n st

/-- How the loop over `newHostsNeeded` ends: it runs to its end, the function
returns an error, or `make` panics on a negative capacity. -/
inductive SpawnExit where
  | done
  | failed (err : String)
  | panicked
deriving DecidableEq, Repr

/-- The loop `for distroId, numHostsToSpawn := range newHostsNeeded` of
`spawnHosts`, the list being the entries of the map in the order the loop
visits them. -/
def spawnDistros (distros : List Distro) (canceled : Nat → Bool)
    (GenerateName : Distro → Nat → String) :
    List (String × Int) → SpawnState → SpawnState × SpawnExit
  | [], st => (st, .done)
  | (distroId, numHostsToSpawn) :: rest, st =>
    if numHostsToSpawn = 0 then spawnDistros distros canceled GenerateName rest st
    else if numHostsToSpawn < 0 then (st, .panicked)
    else
      let st := { st with hostsSpawnedPerDistro := st.hostsSpawnedPerDistro.set distroId [] }
      match spawnLoop distros canceled GenerateName distroId numHostsToSpawn.toNat st with
      | (st, some err) => (st, .failed err)
      | (st, none) =>
        let st :=
          if (st.hostsSpawnedPerDistro.getD distroId).length = 0 then
            { st with hostsSpawnedPerDistro := st.hostsSpawnedPerDistro.delete distroId }
          else st
        spawnDistros distros canceled GenerateName rest st

/-- The method `spawnHosts`: the store after the call and what the call
returns, `none` for a run-time panic. -/
def spawnHosts (distros : List Distro) (canceled : Nat → Bool)
    (GenerateName : Distro → Nat → String) (newHostsNeeded : List (String × Int)) (db : DB) :
    DB × Option (Except String (GoMap String (List Host))) :=
  match spawnDistros distros canceled GenerateName newHostsNeeded { db := db } with
  | (st, .done) => (st.db, some (.ok st.hostsSpawnedPerDistro))
  | (st, .failed err) => (st.db, some (.error err))
  | (st, .panicked) => (st.db, none)

/-! ## Running task and agent flag of a host (`model/host/host.go`) -/

/-- Modelled from the spec: the function `event.LogHostRunningTaskSet`,
declared outside `host.go`; the call appends one event. -/
def LogHostRunningTaskSet (db : DB) (hostId taskId : String) : DB :=
  { db with events := db.events ++ [.HostRunningTaskSet hostId taskId] }

/-- Modelled from the spec: the function `event.LogHostRunningTaskCleared`,
declared outside `host.go`; the call appends one event. -/
def LogHostRunningTaskCleared (db : DB) (hostId taskId : String) : DB :=
  { db with events := db.events ++ [.HostRunningTaskCleared hostId taskId] }

/-- The document `update` of `UpdateRunningTask`, applied to a host document. -/
def setRunningTask (t : Task) (d : Host) : Host :=
  { d with
    RunningTask := t.Id
    RunningTaskGroup := t.TaskGroup
    RunningTaskBuildVariant := t.BuildVariant
    RunningTaskVersion := t.Version
    RunningTaskProject := t.Project }

/-- The method `UpdateRunningTask`: the returned `bool`, and the host, the
store and the returned error. `t` is `none` for the nil pointer; `IsDup` is
`mgo.IsDup`, the test for a duplicate-key error. -/
def UpdateRunningTask (IsDup : String → Bool) (db : DB) (h : Host) (t : Option Task) :
    Bool × HostResult :=
  match t with
  | none => (false, ⟨h, db, some "received nil task, cannot update"⟩)
  | some t =>
    if t.Id = "" then
      (false, ⟨h, db, some "task has empty task ID, cannot update"⟩)
    else
      let r := UpdateOne db (fun d => d.Id = h.Id) (setRunningTask t)
      match r.2 with
      | some err =>
        if IsDup err then (false, ⟨h, r.1, none⟩)
        else
          (false, ⟨h, r.1,
            some (Wrap err ("error updating running task " ++ t.Id ++ " for host " ++ h.Id))⟩)
      | none => (true, ⟨h, LogHostRunningTaskSet r.1 h.Id t.Id, none⟩)

/-- The method `SetNeedsNewAgent`. -/
def SetNeedsNewAgent (db : DB) (h : Host) (needsAgent : Bool) : HostResult :=
  let r := UpdateOne db (fun d => d.Id = h.Id) (fun d => { d with NeedsNewAgent := needsAgent })
  match r.2 with
  | some err => ⟨h, r.1, some err⟩
  | none => ⟨{ h with NeedsNewAgent := true }, r.1, none⟩

/-- The method `ClearRunningAndSetLastTask`; `now` is the value of
`time.Now()`, and a field that the update unsets is the empty string. -/
def ClearRunningAndSetLastTask (db : DB) (now : Int) (h : Host) (t : Task) : HostResult :=
  let r := UpdateOne db (fun d => d.Id = h.Id ∧ d.RunningTask = h.RunningTask)
    (fun d => { d with
      LastTaskCompletedTime := now
      LastTask := t.Id
      LastGroup := t.TaskGroup
      LastBuildVariant := t.BuildVariant
      LastVersion := t.Version
      LastProject := t.Project
      RunningTask := ""
      RunningTaskGroup := ""
      RunningTaskBuildVariant := ""
      RunningTaskVersion := ""
      RunningTaskProject := "" })
  match r.2 with
  | some err => ⟨h, r.1, some err⟩
  | none =>
    let db := LogHostRunningTaskCleared r.1 h.Id h.RunningTask
    ⟨{ h with
        RunningTask := ""
        RunningTaskGroup := ""
        RunningTaskBuildVariant := ""
        RunningTaskVersion := ""
        RunningTaskProject := ""
        LastTask := t.Id
        LastGroup := t.TaskGroup
        LastBuildVariant := t.BuildVariant
        LastVersion := t.Version
        LastProject := t.Version }, db, none⟩

/-! ## Storage prices (`cloud/ec2_price.go`) -/

/-- An entry of `Types` in the price JSON: its `Name` and, for each of its
`Values`, the string `Prices.USD` as `strconv.ParseFloat` reads it, `none`
when it does not parse. -/
structure EBSType where
  Name : String
  Values : List (Option ℚ)
deriving DecidableEq, Repr

/-- An entry of `Config.Regions` in the price JSON. -/
structure EBSRegion where
  Region : String
  Types : List EBSType
deriving DecidableEq, Repr

/-- The loop `for _, t := range r.Types` of `cacheEBSPrices`. -/
def ebsTypes (region : String) : List EBSType → PriceMap String → PriceMap String
  | [], m => m
  | t :: rest, m =>
    if "ebsGPSSD".toList <:+: t.Name.toList then
      match t.Values with
      | [] => ebsTypes region rest m
      | none :: _ => ebsTypes region rest m
      | some price :: _ => ebsTypes region rest (m.set region price)
    else ebsTypes region rest m

/-- The loop `for _, r := range prices.Config.Regions` of `cacheEBSPrices`. -/
def ebsRegions : List EBSRegion → PriceMap String → PriceMap String
  | [], m => m
  | r :: rest, m => ebsRegions rest (ebsTypes r.Region r.Types m)

/-- What `cacheEBSPrices` uses and `ec2_price.go` does not contain:
`findPriceJSON` is `ebsRegex.FindSubmatch(data)[1]`, `none` when there are
fewer than 2 matches, and `parseJSON` is `json.Unmarshal` into the regions of
the price JSON. -/
structure EBSEnv where
  findPriceJSON : String → Option String
  parseJSON : String → Except String (List EBSRegion)

/-- The method `cacheEBSPrices`. `fetched` is what `util.Retry` leaves: the
error after the last attempt, or the body of the response. The result is the
fetcher after the call and the returned error. -/
def cacheEBSPrices (env : EBSEnv) (cpf : cachingPriceFetcher) (fetched : Except String String) :
    cachingPriceFetcher × Option String :=
  match fetched with
  | .error err => (cpf, some err)
  | .ok data =>
    match env.findPriceJSON data with
    | none => (cpf, some "could not find price JSON in response")
    | some matched =>
      match env.parseJSON matched with
      | .error err => (cpf, some (Wrap err "parsing price JSON"))
      | .ok regions =>
        let pricePerRegion := ebsRegions regions []
        if pricePerRegion.length = 0 then (cpf, some "unable to parse prices")
        else ({ cpf with ebsPrices := some pricePerRegion }, none)

/-- The month of `ebsCost`, `time.Hour * 24 * 30`, in nanoseconds. -/
def month : Int := Hour * 24 * 30

/-- The method `ebsCost`. `fetched` is the outcome that the fetch of the
storage prices has if this call performs it. The result is the fetcher after
the call and the returned `(float64, error)`. -/
def ebsCost (env : EBSEnv) (cpf : cachingPriceFetcher) (fetched : Except String String)
    (region : String) (size : Int) (duration : Int) : cachingPriceFetcher × Except String ℚ :=
  let filled : cachingPriceFetcher × Option String :=
    match cpf.ebsPrices with
    | none => cacheEBSPrices env cpf fetched
    | some _ => (cpf, none)
  match filled with
  | (cpf, some err) => (cpf, .error (Wrap err "error fetching EBS prices"))
  | (cpf, none) =>
    match PriceMap.get? (cpf.ebsPrices.getD []) region with
    | none => (cpf, .error ("no EBS price for region " ++ region))
    | some price => (cpf, .ok ((size : ℚ) * ((duration : ℚ) / (month : ℚ)) * price))

/-- An environment of the storage prices for the examples: the body is its
own price JSON, and it parses to the price 1/10 for `us-east-1` unless it is
`bad`. -/
def exampleEBSEnv : EBSEnv where
  findPriceJSON := fun data => some data
  parseJSON := fun matched =>
    if matched = "bad" then .error "unexpected end of JSON input"
    else .ok [⟨"us-east-1", [⟨"ebsGPSSD", [some (1 / 10)]⟩]⟩]

/-! ## Result aggregator of `Schedule` (`scheduler/scheduler.go`) -/

/-- Modelled from the spec: the struct `event.TaskQueueInfo`, declared outside
`scheduler.go`, with the queue length, the running hosts and the expected
duration. -/
structure TaskQueueInfo where
  TaskQueueLength : Int := 0
  NumHostsRunning : Int := 0
  ExpectedDuration : Int := 0
deriving DecidableEq, Repr

/-- Modelled from the spec: the struct `model.TaskQueueItem`, declared outside
`scheduler.go`: task id, expected duration, priority. -/
structure TaskQueueItem where
  Id : String := ""
  ExpectedDuration : Int := 0
  Priority : Int := 0
deriving DecidableEq, Repr

/-- The struct `distroSchedulerResult`; `err` is `none` for the nil error. -/
structure distroSchedulerResult where
  distroId : String
  schedulerEvent : TaskQueueInfo := {}
  taskQueueItem : List TaskQueueItem := []
  err : Option String := none
deriving DecidableEq, Repr

/-- The variables that the aggregator goroutine of `Schedule` writes:
`schedulerEvents`, `taskQueueItems` and the errors of `catcher`. -/
structure AggregatorState where
  schedulerEvents : GoMap String TaskQueueInfo := []
  taskQueueItems : GoMap String (List TaskQueueItem) := []
  catcher : List String := []
deriving DecidableEq, Repr

/-- The loop `for res := range distroSchedulerResultChan` of the aggregator
goroutine of `Schedule`, the list being the results in the order the channel
delivers them. -/
def aggregate : List distroSchedulerResult → AggregatorState → AggregatorState
  | [], st => st
  | res :: rest, st =>
    match res.err with
    | some err =>
      aggregate rest
        { st with catcher :=
            st.catcher ++ [Wrap err ("error scheduling tasks on distro " ++ res.distroId)] }
    | none =>
      aggregate rest
        { st with
            schedulerEvents := st.schedulerEvents.set res.distroId res.schedulerEvent
            taskQueueItems := st.taskQueueItems.set res.distroId res.taskQueueItem }

/-! ## The sampling loop of `describeHourlySpotPriceHistory`, step by step -/

/-- The variables of the sampling loop: the index `i`, the boundary
`input.start` and the slice `prices`. -/
structure BucketState where
  i : Int
  start : Int
  prices : List spotRate
deriving DecidableEq, Repr

/-- What one evaluation of the loop `for i >= 0` leaves: the state for the
next iteration, or the value with which the function returns. -/
inductive BucketStep where
  | next (s : BucketState)
  | done (r : Except String (List spotRate))

/-- The test `i >= 0` of the sampling loop followed by one run of its body. -/
def bucketStep (history : List SpotPrice) (end_ : Int) (s : BucketState) : BucketStep :=
  if s.i < 0 then .done (.ok s.prices)
  else
    match history[s.i.toNat]? with
    | none => .done (.error "index out of range")
    | some h =>
      if s.i = 0 ∨ s.start = h.Timestamp ∨
          (s.start > h.Timestamp ∧ s.start < (history.getD (s.i - 1).toNat h).Timestamp) then
        match h.SpotPrice with
        | none => .done (.error "parsing spot price")
        | some price =>
          if s.start + Hour > end_ then .done (.ok (s.prices ++ [⟨s.start, price⟩]))
          else .next ⟨s.i, s.start + Hour, s.prices ++ [⟨s.start, price⟩]⟩
      else .next ⟨s.i - 1, s.start, s.prices⟩

/-- At most `fuel` iterations of the sampling loop; `none` when the loop has
not returned by then. -/
def bucketRun (history : List SpotPrice) (end_ : Int) :
    Nat → BucketState → Option (Except String (List spotRate))
  | 0, _ => none
  | fuel + 1, s =>
    match bucketStep history end_ s with
    | .done r => some r
    | .next s => bucketRun history end_ fuel s

/-! ## Theorems -/

theorem spotCostLoop_cost (end_ : Int) (rates : List spotRate) (cur : Int) (cost : ℚ) :
    spotCostLoop end_ rates cur cost = cost + spotCostLoop end_ rates cur 0 := by
  induction rates generalizing cur cost with
  | nil => simp [spotCostLoop]
  | cons r rest ih =>
    cases rest with
    | nil => simp [spotCostLoop]
    | cons r' rest =>
      simp only [spotCostLoop]
      split_ifs
      · exact ih cur cost
      · simp
      · rw [ih, ih r'.Time (0 + _)]; ring

theorem overlap_eq_zero_of_end_le (s e lo hi : Int) (h : e ≤ lo) : overlap s e lo hi = 0 := by
  unfold overlap; omega

theorem overlapLast_eq_zero_of_end_le (s e lo : Int) (h : e ≤ lo) : overlapLast s e lo = 0 := by
  unfold overlapLast; omega

theorem bucketCost_eq_zero_of_end_le (s e : Int) (rates : List spotRate)
    (h : ∀ r ∈ rates, e ≤ r.Time) : bucketCost s e rates = 0 := by
  induction rates with
  | nil => simp [bucketCost]
  | cons r rest ih =>
    cases rest with
    | nil =>
      simp [bucketCost, overlapLast_eq_zero_of_end_le s e r.Time (h r (by simp)), Hours]
    | cons r' rest =>
      have h1 := ih (fun x hx => h x (List.mem_cons_of_mem _ hx))
      simp [bucketCost, overlap_eq_zero_of_end_le s e r.Time r'.Time (h r (by simp)), Hours, h1]

theorem bucketCost_start_le (s s' e : Int) (rates : List spotRate) (hs : s ≤ s')
    (h : ∀ r ∈ rates, s' ≤ r.Time) : bucketCost s e rates = bucketCost s' e rates := by
  induction rates with
  | nil => simp [bucketCost]
  | cons r rest ih =>
    have hr := h r (by simp)
    cases rest with
    | nil =>
      have : overlapLast s e r.Time = overlapLast s' e r.Time := by
        unfold overlapLast; omega
      simp [bucketCost, this]
    | cons r' rest =>
      have h1 := ih (fun x hx => h x (List.mem_cons_of_mem _ hx))
      have : overlap s e r.Time r'.Time = overlap s' e r.Time r'.Time := by
        unfold overlap; omega
      simp [bucketCost, this, h1]

theorem spotCostLoop_eq_bucketCost (e : Int) (r : spotRate) (rest : List spotRate) (cur : Int)
    (hs : StrictlyIncreasing (r :: rest)) (h0 : r.Time ≤ cur) (h1 : cur ≤ e) :
    spotCostLoop e (r :: rest) cur 0 = bucketCost cur e (r :: rest) := by
  induction rest generalizing r cur with
  | nil =>
    have : overlapLast cur e r.Time = e - cur := by unfold overlapLast; omega
    simp [spotCostLoop, bucketCost, this]
  | cons r' rest ih =>
    have hs' : StrictlyIncreasing (r' :: rest) := (List.pairwise_cons.mp hs).2
    have hlt : ∀ x ∈ r' :: rest, r.Time < x.Time := (List.pairwise_cons.mp hs).1
    have hlt' : ∀ x ∈ rest, r'.Time < x.Time := (List.pairwise_cons.mp hs').1
    have hge : ∀ x ∈ r' :: rest, r'.Time ≤ x.Time := by
      intro x hx
      rcases List.mem_cons.mp hx with rfl | hx
      · exact le_refl _
      · exact le_of_lt (hlt' x hx)
    simp only [spotCostLoop, bucketCost]
    split_ifs with hc he
    · -- the bucket lies before `cur`
      have : overlap cur e r.Time r'.Time = 0 := by unfold overlap; omega
      rw [ih r' cur hs' (le_of_lt hc) h1, this]
      simp [Hours]
    · -- the range ends inside the bucket
      have : overlap cur e r.Time r'.Time = e - cur := by unfold overlap; omega
      rw [this, bucketCost_eq_zero_of_end_le cur e (r' :: rest)
        (fun x hx => le_trans (le_of_lt he) (hge x hx))]
      simp
    · -- the range goes on past the bucket
      have : overlap cur e r.Time r'.Time = r'.Time - cur := by unfold overlap; omega
      rw [spotCostLoop_cost, ih r' r'.Time hs' (le_refl _) (by omega), this,
        bucketCost_start_le cur r'.Time e (r' :: rest) (by omega) hge]
      ring

/-- C1: for a non-empty rate list with strictly increasing times and
`rates[0].Time ≤ start ≤ end`, `spotCostForRange` is the sum over the buckets
of the price times the hours of overlap of `[start, end)` with the bucket, the
last bucket being unbounded above; and the cost of `(t0, t0 + 1.5h)` over
`[(t0, 1), (t0 + 1h, 2)]` is 2. -/
theorem spotCostForRange_eq_bucketCost :
    (∀ (start end_ : Int) (rates : List spotRate), rates ≠ [] → StrictlyIncreasing rates →
      (∀ r ∈ rates.head?, r.Time ≤ start) → start ≤ end_ →
      spotCostForRange start end_ rates = bucketCost start end_ rates) ∧
    (∀ t0 : Int, spotCostForRange t0 (t0 + Hour + Hour / 2)
      [⟨t0, 1⟩, ⟨t0 + Hour, 2⟩] = 2) := by
  refine ⟨?_, ?_⟩
  · intro start end_ rates hne hs h0 h1
    cases rates with
    | nil => exact absurd rfl hne
    | cons r rest =>
      exact spotCostLoop_eq_bucketCost end_ r rest start hs (h0 r (by simp)) h1
  · intro t0
    have h1 : ¬ t0 > t0 + Hour := by unfold Hour; omega
    have h2 : ¬ t0 + Hour + Hour / 2 < t0 + Hour := by unfold Hour; omega
    simp only [spotCostForRange, spotCostLoop, h1, h2, if_false, Hours]
    simp only [Hour]
    push_cast
    norm_num

/-- The general part of C1 at `rates = [(0, 1), (1h, 2)]`, `start = 0`,
`end = 1.5h`. -/
theorem spotCostForRange_eq_bucketCost_witness :
    ([⟨0, 1⟩, ⟨3600000000000, 2⟩] : List spotRate) ≠ [] ∧
    StrictlyIncreasing [⟨0, 1⟩, ⟨3600000000000, 2⟩] ∧
    (0 : Int) ≤ 5400000000000 ∧
    spotCostForRange 0 5400000000000 [⟨0, 1⟩, ⟨3600000000000, 2⟩] =
      bucketCost 0 5400000000000 [⟨0, 1⟩, ⟨3600000000000, 2⟩] :=
  ⟨by simp, by decide, by decide,
    spotCostForRange_eq_bucketCost.1 0 5400000000000 [⟨0, 1⟩, ⟨3600000000000, 2⟩]
      (by simp) (by decide) (by simp) (by decide)⟩

theorem spotCostLoop_additive (e m : Int) (rates : List spotRate) (s : Int)
    (h1 : s ≤ m) (h2 : m ≤ e) :
    spotCostLoop m rates s 0 + spotCostLoop e rates m 0 = spotCostLoop e rates s 0 := by
  induction rates generalizing s with
  | nil => simp [spotCostLoop]
  | cons r rest ih =>
    cases rest with
    | nil =>
      simp only [spotCostLoop, Hours]
      push_cast
      ring
    | cons r' rest =>
      by_cases hc : s > r'.Time
      · -- the bucket lies before `s`, hence before `m`
        have hm : m > r'.Time := by omega
        simp only [spotCostLoop, hc, hm, if_true]
        exact ih s h1
      · by_cases he : e < r'.Time
        · -- the whole range lies inside the bucket
          have hm : ¬ m > r'.Time := by omega
          have hm' : m < r'.Time := by omega
          simp only [spotCostLoop, hc, hm, he, hm', if_true, if_false, Hours]
          push_cast
          ring
        · by_cases hm : m < r'.Time
          · have hm' : ¬ m > r'.Time := by omega
            simp only [spotCostLoop, hc, hm, he, hm', if_true, if_false]
            rw [spotCostLoop_cost e _ _ (0 + _), spotCostLoop_cost e _ _ (0 + _)]
            simp only [Hours]
            push_cast
            ring
          · simp only [spotCostLoop, hc, hm, he, if_false]
            have ih' := ih r'.Time (by omega)
            have hA := spotCostLoop_cost m (r' :: rest) r'.Time (0 + Hours (r'.Time - s) * r.Price)
            have hC := spotCostLoop_cost e (r' :: rest) r'.Time (0 + Hours (r'.Time - s) * r.Price)
            by_cases hm' : m > r'.Time
            · simp only [hm', if_true]
              linarith
            · have hmeq : m = r'.Time := by omega
              have hB := spotCostLoop_cost e (r' :: rest) r'.Time
                (0 + Hours (r'.Time - m) * r.Price)
              have hz : Hours (r'.Time - m) = 0 := by simp [Hours, hmeq]
              have hE : spotCostLoop e (r' :: rest) m 0 = spotCostLoop e (r' :: rest) r'.Time 0 := by
                rw [hmeq]
              simp only [hm', if_false]
              rw [hz] at hB ⊢
              linarith

/-- Additivity of `spotCostForRange` for every rate list, sorted or not. -/
theorem spotCost_add_of_le (start mid end_ : Int) (rates : List spotRate)
    (h1 : start ≤ mid) (h2 : mid ≤ end_) :
    spotCostForRange start mid rates + spotCostForRange mid end_ rates =
      spotCostForRange start end_ rates :=
  spotCostLoop_additive end_ mid rates start h1 h2

/-- C2: for a rate list with strictly increasing times and
`start ≤ mid ≤ end`, the cost of `[start, mid)` plus the cost of `[mid, end)`
is the cost of `[start, end)`, also when `mid` is a bucket boundary. -/
theorem spotCostForRange_additive (start mid end_ : Int) (rates : List spotRate)
    (_hs : StrictlyIncreasing rates) (h1 : start ≤ mid) (h2 : mid ≤ end_) :
    spotCostForRange start mid rates + spotCostForRange mid end_ rates =
      spotCostForRange start end_ rates :=
  spotCost_add_of_le start mid end_ rates h1 h2

/-- C2 with `mid` on the bucket boundary `1h` of `[(0, 1), (1h, 2), (2h, 4)]`. -/
theorem spotCostForRange_additive_witness :
    StrictlyIncreasing [⟨0, 1⟩, ⟨3600000000000, 2⟩, ⟨7200000000000, 4⟩] ∧
    (1800000000000 : Int) ≤ 3600000000000 ∧ (3600000000000 : Int) ≤ 9000000000000 ∧
    spotCostForRange 1800000000000 3600000000000
        [⟨0, 1⟩, ⟨3600000000000, 2⟩, ⟨7200000000000, 4⟩] +
      spotCostForRange 3600000000000 9000000000000
        [⟨0, 1⟩, ⟨3600000000000, 2⟩, ⟨7200000000000, 4⟩] =
      spotCostForRange 1800000000000 9000000000000
        [⟨0, 1⟩, ⟨3600000000000, 2⟩, ⟨7200000000000, 4⟩] :=
  ⟨by decide, by decide, by decide,
    spotCostForRange_additive 1800000000000 3600000000000 9000000000000
      [⟨0, 1⟩, ⟨3600000000000, 2⟩, ⟨7200000000000, 4⟩] (by decide) (by decide) (by decide)⟩

theorem hourBoundaries_last (start end_ : Int) (h1 : start ≤ end_) (h2 : start + Hour > end_) :
    hourBoundaries start end_ = [start] := by
  have : ((end_ - start) / Hour).toNat = 0 := by unfold Hour at *; omega
  simp [hourBoundaries, this, List.range_succ]

theorem hourBoundaries_step (start end_ : Int) (h2 : ¬ start + Hour > end_) :
    hourBoundaries start end_ = start :: hourBoundaries (start + Hour) end_ := by
  have : ((end_ - start) / Hour).toNat = ((end_ - (start + Hour)) / Hour).toNat + 1 := by
    unfold Hour at *; omega
  unfold hourBoundaries
  rw [this, List.range_succ_eq_map]
  simp [List.map_map, Function.comp_def]
  intro a _
  ring

theorem hourlyLoop_times (history : List SpotPrice) (end_ : Int)
    (hparse : ∀ h ∈ history, h.SpotPrice.isSome = true) :
    ∀ (n k : Nat) (start : Int) (acc : List spotRate), k + (end_ - start).toNat = n →
      0 < k → k ≤ history.length → start ≤ end_ →
      ∃ rates, hourlyLoop history end_ k start acc = .ok (acc ++ rates) ∧
        rates.map (fun r => r.Time) = hourBoundaries start end_ := by
  intro n
  induction n using Nat.strong_induction_on with
  | _ n ih =>
    intro k start acc hn hk hlen hse
    obtain ⟨i, rfl⟩ : ∃ i, k = i + 1 := ⟨k - 1, by omega⟩
    have hi : i < history.length := by omega
    rw [hourlyLoop]
    simp only [List.getElem?_eq_getElem hi]
    obtain ⟨price, hp⟩ := Option.isSome_iff_exists.mp (hparse history[i] (List.getElem_mem _))
    simp only [hp]
    split_ifs with hc hb
    · exact ⟨[⟨start, price⟩], rfl, by simp [hourBoundaries_last start end_ hse hb]⟩
    · obtain ⟨rates, h1, h2⟩ := ih (i + 1 + (end_ - (start + Hour)).toNat)
        (by unfold Hour at *; omega) (i + 1) (start + Hour) (acc ++ [⟨start, price⟩]) rfl
        hk hlen (by omega)
      refine ⟨⟨start, price⟩ :: rates, ?_, ?_⟩
      · rw [h1]; simp
      · simp [h2, hourBoundaries_step start end_ hb]
    · have hi0 : i ≠ 0 := fun h => hc (Or.inl h)
      exact ih (i + (end_ - start).toNat) (by omega) i start acc rfl (by omega) (by omega) hse

theorem mem_hourBoundaries (start end_ : Int) (hse : start ≤ end_) (t : Int) :
    t ∈ hourBoundaries start end_ ↔ ∃ k : Nat, t = start + k * Hour ∧ t ≤ end_ := by
  simp only [hourBoundaries, List.mem_map, List.mem_range]
  constructor
  · rintro ⟨k, hk, rfl⟩
    exact ⟨k, rfl, by unfold Hour at *; omega⟩
  · rintro ⟨k, rfl, hk⟩
    exact ⟨k, by unfold Hour at *; omega, rfl⟩

theorem hourBoundaries_pairwise (start end_ : Int) :
    List.Pairwise (fun a b : Int => a < b) (hourBoundaries start end_) := by
  unfold hourBoundaries
  rw [List.pairwise_map]
  refine List.Pairwise.imp ?_ (List.pairwise_lt_range _)
  intro a b hab
  unfold Hour
  omega

/-- C3: for a non-empty history whose prices all parse and `start ≤ end`,
`describeHourlySpotPriceHistory` emits one rate per hour boundary
`start + k * 1h ≤ end`, `k = 0, 1, ...`, in that order, so the rates are
strictly increasing in time. -/
theorem describeHourlySpotPriceHistory_times (history : List SpotPrice) (start end_ : Int)
    (hne : history ≠ []) (hparse : ∀ h ∈ history, h.SpotPrice.isSome = true)
    (hse : start ≤ end_) :
    ∃ rates, describeHourlySpotPriceHistory (.ok history) start end_ = .ok rates ∧
      rates.map (fun r => r.Time) = hourBoundaries start end_ ∧
      (∀ t : Int, t ∈ hourBoundaries start end_ ↔ ∃ k : Nat, t = start + k * Hour ∧ t ≤ end_) ∧
      StrictlyIncreasing rates := by
  have hlen : 0 < history.length := List.length_pos.mpr hne
  obtain ⟨rates, h1, h2⟩ := hourlyLoop_times history end_ hparse _ history.length start []
    rfl hlen (le_refl _) hse
  refine ⟨rates, by simpa [describeHourlySpotPriceHistory] using h1, h2,
    mem_hourBoundaries start end_ hse, ?_⟩
  have hp := hourBoundaries_pairwise start end_
  rw [← h2, List.pairwise_map] at hp
  exact hp

/-- C3 at the history `[(2h, 2), (0, 1)]`, `start = 0.5h`, `end = 2.5h`. -/
theorem describeHourlySpotPriceHistory_times_witness :
    ∃ rates, describeHourlySpotPriceHistory
        (.ok [⟨7200000000000, some 2, "a"⟩, ⟨0, some 1, "a"⟩]) 1800000000000 9000000000000
        = .ok rates ∧
      rates.map (fun r => r.Time) = hourBoundaries 1800000000000 9000000000000 ∧
      (∀ t : Int, t ∈ hourBoundaries 1800000000000 9000000000000 ↔
        ∃ k : Nat, t = 1800000000000 + k * Hour ∧ t ≤ 9000000000000) ∧
      StrictlyIncreasing rates :=
  describeHourlySpotPriceHistory_times [⟨7200000000000, some 2, "a"⟩, ⟨0, some 1, "a"⟩]
    1800000000000 9000000000000 (by simp) (by simp) (by decide)

theorem StrictlyDecreasing.getElem_lt {history : List SpotPrice} (hdec : StrictlyDecreasing history)
    {i j : Nat} (hi : i < history.length) (hj : j < history.length) (hij : i < j) :
    history[j].Timestamp < history[i].Timestamp :=
  List.pairwise_iff_getElem.mp hdec i j hi hj hij

theorem hourlyLoop_mostRecent (history : List SpotPrice) (end_ : Int)
    (hdec : StrictlyDecreasing history) :
    ∀ (n k : Nat) (start : Int) (acc : List spotRate), k + (end_ - start).toNat = n →
      k ≤ history.length →
      (∀ (i : Nat) (hi : i < history.length), k = i + 1 → history[i].Timestamp ≤ start) →
      (∀ r ∈ acc, RateOfMostRecent history r) →
      ∀ rates, hourlyLoop history end_ k start acc = .ok rates →
        ∀ r ∈ rates, RateOfMostRecent history r := by
  intro n
  induction n using Nat.strong_induction_on with
  | _ n ih =>
    intro k start acc hn hlen hinv hacc rates hres
    cases k with
    | zero =>
      rw [hourlyLoop] at hres
      cases hres
      exact hacc
    | succ i =>
      have hi : i < history.length := by omega
      have hts := hinv i hi rfl
      rw [hourlyLoop] at hres
      simp only [List.getElem?_eq_getElem hi] at hres
      by_cases hc : i = 0 ∨ start = history[i].Timestamp ∨
          (start > history[i].Timestamp ∧ start < (history.getD (i - 1) history[i]).Timestamp)
      · -- a rate is emitted for `start`
        rw [if_pos hc] at hres
        cases hp : history[i].SpotPrice with
        | none => simp [hp] at hres
        | some price =>
          have hgood : RateOfMostRecent history ⟨start, price⟩ := by
            refine ⟨history[i], ⟨List.getElem_mem _, hts, ?_⟩, hp⟩
            intro h' hh' hle
            obtain ⟨j, hj, rfl⟩ := List.getElem_of_mem hh'
            rcases hc with h0 | heq | ⟨hgt, hlt⟩
            · subst h0
              rcases Nat.eq_zero_or_pos j with hj0 | hj0
              · subst hj0; exact le_refl _
              · exact le_of_lt (hdec.getElem_lt hi hj hj0)
            · simpa [heq] using hle
            · rcases Nat.lt_or_ge j i with hji | hji
              · -- an earlier index is a later sample, after `start`
                have hi1 : i - 1 < history.length := by omega
                rw [List.getD_eq_getElem _ _ hi1] at hlt
                have : history[i - 1].Timestamp ≤ history[j].Timestamp := by
                  rcases Nat.lt_or_ge j (i - 1) with h1 | h1
                  · exact le_of_lt (hdec.getElem_lt hj hi1 h1)
                  · have : j = i - 1 := by omega
                    subst this; exact le_refl _
                simp only at hle
                omega
              · rcases Nat.eq_or_lt_of_le hji with h1 | h1
                · subst h1; exact le_refl _
                · exact le_of_lt (hdec.getElem_lt hi hj h1)
          have hacc' : ∀ r ∈ acc ++ [⟨start, price⟩], RateOfMostRecent history r := by
            intro r hr
            rcases List.mem_append.mp hr with hr | hr
            · exact hacc r hr
            · rw [List.mem_singleton.mp hr]; exact hgood
          simp only [hp] at hres
          by_cases hb : start + Hour > end_
          · rw [if_pos hb] at hres
            cases hres
            exact hacc'
          · rw [if_neg hb] at hres
            exact ih (i + 1 + (end_ - (start + Hour)).toNat) (by unfold Hour at *; omega)
              (i + 1) (start + Hour) _ rfl hlen
              (fun i' hi' hk => by
                have : i' = i := by omega
                subst this
                unfold Hour; omega)
              hacc' rates hres
      · -- the index moves to the next later sample
        rw [if_neg hc] at hres
        have hi0 : i ≠ 0 := fun h => hc (Or.inl h)
        refine ih (i + (end_ - start).toNat) (by omega) i start acc rfl (by omega)
          (fun i' hi' hk => ?_) hacc rates hres
        have : i' = i - 1 := by omega
        subst this
        have h1 : ¬ start = history[i].Timestamp := fun h => hc (Or.inr (Or.inl h))
        have h2 : ¬ (start > history[i].Timestamp ∧
            start < (history.getD (i - 1) history[i]).Timestamp) :=
          fun h => hc (Or.inr (Or.inr h))
        rw [List.getD_eq_getElem _ _ hi'] at h2
        omega

theorem hourlyLoop_error (history : List SpotPrice) (end_ : Int) :
    ∀ (n k : Nat) (start : Int) (acc : List spotRate), k + (end_ - start).toNat = n →
      k ≤ history.length →
      ∀ e, hourlyLoop history end_ k start acc = .error e →
        ∃ h ∈ history, h.SpotPrice = none := by
  intro n
  induction n using Nat.strong_induction_on with
  | _ n ih =>
    intro k start acc hn hlen e hres
    cases k with
    | zero =>
      rw [hourlyLoop] at hres
      cases hres
    | succ i =>
      have hi : i < history.length := by omega
      rw [hourlyLoop] at hres
      simp only [List.getElem?_eq_getElem hi] at hres
      by_cases hc : i = 0 ∨ start = history[i].Timestamp ∨
          (start > history[i].Timestamp ∧ start < (history.getD (i - 1) history[i]).Timestamp)
      · rw [if_pos hc] at hres
        cases hp : history[i].SpotPrice with
        | none => exact ⟨history[i], List.getElem_mem _, hp⟩
        | some price =>
          simp only [hp] at hres
          by_cases hb : start + Hour > end_
          · rw [if_pos hb] at hres
            cases hres
          · rw [if_neg hb] at hres
            exact ih (i + 1 + (end_ - (start + Hour)).toNat) (by unfold Hour at *; omega)
              (i + 1) (start + Hour) _ rfl hlen e hres
      · rw [if_neg hc] at hres
        have hi0 : i ≠ 0 := fun h => hc (Or.inl h)
        exact ih (i + (end_ - start).toNat) (by omega) i start acc rfl (by omega) e hres

/-- C4: for a history in strictly decreasing time order and a launch time
`start` not before the earliest sample, every rate that
`describeHourlySpotPriceHistory` emits carries the price of the most recent
sample at or before the rate's hour boundary; the call fails only when a
price of the history does not parse. -/
theorem describeHourlySpotPriceHistory_mostRecent (history : List SpotPrice)
    (start end_ : Int) (hdec : StrictlyDecreasing history)
    (hstart : ∃ h ∈ history, h.Timestamp ≤ start) :
    (∀ rates, describeHourlySpotPriceHistory (.ok history) start end_ = .ok rates →
      ∀ r ∈ rates, RateOfMostRecent history r) ∧
    (∀ e, describeHourlySpotPriceHistory (.ok history) start end_ = .error e →
      ∃ h ∈ history, h.SpotPrice = none) := by
  constructor
  · intro rates hres
    refine hourlyLoop_mostRecent history end_ hdec _ history.length start [] rfl (le_refl _)
      ?_ (by simp) rates hres
    intro i hi hk
    obtain ⟨h, hh, hle⟩ := hstart
    obtain ⟨j, hj, rfl⟩ := List.getElem_of_mem hh
    rcases Nat.eq_or_lt_of_le (show j ≤ i by omega) with h1 | h1
    · subst h1; exact hle
    · exact le_trans (le_of_lt (hdec.getElem_lt hj hi h1)) hle
  · intro e hres
    exact hourlyLoop_error history end_ _ history.length start [] rfl (le_refl _) e hres

/-- C4 at the history `[(2h, 2), (0, 1)]`, `start = 0.5h`, `end = 2.5h`: the
rates are `(0.5h, 1)`, `(1.5h, 1)` and `(2.5h, 2)`. -/
theorem describeHourlySpotPriceHistory_mostRecent_witness :
    StrictlyDecreasing [⟨7200000000000, some 2, "a"⟩, ⟨0, some 1, "a"⟩] ∧
    describeHourlySpotPriceHistory (.ok [⟨7200000000000, some 2, "a"⟩, ⟨0, some 1, "a"⟩])
        1800000000000 9000000000000 =
      .ok [⟨1800000000000, 1⟩, ⟨5400000000000, 1⟩, ⟨9000000000000, 2⟩] ∧
    ∀ r ∈ ([⟨1800000000000, 1⟩, ⟨5400000000000, 1⟩, ⟨9000000000000, 2⟩] : List spotRate),
      RateOfMostRecent [⟨7200000000000, some 2, "a"⟩, ⟨0, some 1, "a"⟩] r := by
  have hev : describeHourlySpotPriceHistory
      (.ok [⟨7200000000000, some 2, "a"⟩, ⟨0, some 1, "a"⟩]) 1800000000000 9000000000000 =
      .ok [⟨1800000000000, 1⟩, ⟨5400000000000, 1⟩, ⟨9000000000000, 2⟩] := by
    simp only [describeHourlySpotPriceHistory, List.length]
    rw [hourlyLoop]; simp [Hour]
    rw [hourlyLoop]; simp [Hour]
    rw [hourlyLoop]; simp [Hour]
    rw [hourlyLoop]; simp [Hour]
  exact ⟨by decide, hev,
    (describeHourlySpotPriceHistory_mostRecent [⟨7200000000000, some 2, "a"⟩, ⟨0, some 1, "a"⟩]
      1800000000000 9000000000000 (by decide) ⟨⟨0, some 1, "a"⟩, by simp, by decide⟩).1 _ hev⟩

theorem hourlyLoop_latest (history : List SpotPrice) (end_ : Int) :
    ∀ (n k : Nat) (start : Int) (acc : List spotRate), k + (end_ - start).toNat = n →
      k ≤ history.length →
      (∀ r ∈ acc, (∀ h ∈ history, r.Time < h.Timestamp) → RateOfLatest history r) →
      ∀ rates, hourlyLoop history end_ k start acc = .ok rates →
        ∀ r ∈ rates, (∀ h ∈ history, r.Time < h.Timestamp) → RateOfLatest history r := by
  intro n
  induction n using Nat.strong_induction_on with
  | _ n ih =>
    intro k start acc hn hlen hacc rates hres
    cases k with
    | zero =>
      rw [hourlyLoop] at hres
      cases hres
      exact hacc
    | succ i =>
      have hi : i < history.length := by omega
      rw [hourlyLoop] at hres
      simp only [List.getElem?_eq_getElem hi] at hres
      by_cases hc : i = 0 ∨ start = history[i].Timestamp ∨
          (start > history[i].Timestamp ∧ start < (history.getD (i - 1) history[i]).Timestamp)
      · rw [if_pos hc] at hres
        cases hp : history[i].SpotPrice with
        | none => simp [hp] at hres
        | some price =>
          have hacc' : ∀ r ∈ acc ++ [⟨start, price⟩],
              (∀ h ∈ history, r.Time < h.Timestamp) → RateOfLatest history r := by
            intro r hr hall
            rcases List.mem_append.mp hr with hr | hr
            · exact hacc r hr hall
            · rw [List.mem_singleton.mp hr] at hall ⊢
              have hlt := hall history[i] (List.getElem_mem _)
              simp only at hlt
              rcases hc with h0 | heq | ⟨hgt, _⟩
              · subst h0
                exact ⟨history[0], by rw [List.head?_eq_getElem?, List.getElem?_eq_getElem hi], hp⟩
              · omega
              · omega
          simp only [hp] at hres
          by_cases hb : start + Hour > end_
          · rw [if_pos hb] at hres
            cases hres
            exact hacc'
          · rw [if_neg hb] at hres
            exact ih (i + 1 + (end_ - (start + Hour)).toNat) (by unfold Hour at *; omega)
              (i + 1) (start + Hour) _ rfl hlen hacc' rates hres
      · rw [if_neg hc] at hres
        have hi0 : i ≠ 0 := fun h => hc (Or.inl h)
        exact ih (i + (end_ - start).toNat) (by omega) i start acc rfl (by omega) hacc rates hres

/-- C5, as the code has it: for every price history, a rate emitted for an
hour boundary that precedes every sample carries the price of `history[0]`,
the latest sample of a history in decreasing time order; the call fails only
when a price of the history does not parse. -/
theorem describeHourlySpotPriceHistory_before_all (history : List SpotPrice)
    (start end_ : Int) :
    (∀ rates, describeHourlySpotPriceHistory (.ok history) start end_ = .ok rates →
      ∀ r ∈ rates, (∀ h ∈ history, r.Time < h.Timestamp) → RateOfLatest history r) ∧
    (∀ e, describeHourlySpotPriceHistory (.ok history) start end_ = .error e →
      ∃ h ∈ history, h.SpotPrice = none) :=
  ⟨fun rates hres =>
      hourlyLoop_latest history end_ _ history.length start [] rfl (le_refl _) (by simp)
        rates hres,
    fun e hres => hourlyLoop_error history end_ _ history.length start [] rfl (le_refl _) e hres⟩

/-- C5 fails at the history `[(20h, 2), (10h, 1)]` with `start = end = 0`: the
rate emitted for the boundary `0`, which precedes both samples, has the price
2 of the latest sample, not the price 1 of the earliest one. -/
theorem describeHourlySpotPriceHistory_earliest_counterexample :
    StrictlyDecreasing [⟨72000000000000, some 2, "a"⟩, ⟨36000000000000, some 1, "a"⟩] ∧
    ∃ rates, describeHourlySpotPriceHistory
        (.ok [⟨72000000000000, some 2, "a"⟩, ⟨36000000000000, some 1, "a"⟩]) 0 0 = .ok rates ∧
      ∃ r ∈ rates,
        (∀ h ∈ ([⟨72000000000000, some 2, "a"⟩, ⟨36000000000000, some 1, "a"⟩] : List SpotPrice),
          r.Time < h.Timestamp) ∧
        ¬ RateOfEarliest [⟨72000000000000, some 2, "a"⟩, ⟨36000000000000, some 1, "a"⟩] r := by
  refine ⟨by decide, [⟨0, 2⟩], ?_, ⟨0, 2⟩, by simp, by simp, ?_⟩
  · simp only [describeHourlySpotPriceHistory, List.length]
    rw [hourlyLoop]; simp [Hour]
    rw [hourlyLoop]; simp [Hour]
  · simp [RateOfEarliest]

/-- C5 as amended, at the history `[(20h, 2), (10h, 1)]` with `start = end = 0`. -/
theorem describeHourlySpotPriceHistory_before_all_witness :
    ∀ r ∈ ([⟨0, 2⟩] : List spotRate),
      (∀ h ∈ ([⟨72000000000000, some 2, "a"⟩, ⟨36000000000000, some 1, "a"⟩] : List SpotPrice),
        r.Time < h.Timestamp) →
      RateOfLatest [⟨72000000000000, some 2, "a"⟩, ⟨36000000000000, some 1, "a"⟩] r :=
  (describeHourlySpotPriceHistory_before_all
    [⟨72000000000000, some 2, "a"⟩, ⟨36000000000000, some 1, "a"⟩] 0 0).1 [⟨0, 2⟩] (by
      simp only [describeHourlySpotPriceHistory, List.length]
      rw [hourlyLoop]; simp [Hour]
      rw [hourlyLoop]; simp [Hour])


/-- C6: when the catalog fetch fails, `getEC2OnDemandCost` returns the error
but leaves `ec2Prices` an empty map that is not nil; the next call, for a
region that `regionFullname` knows, does not fetch again and returns the
price 0 with no error, whatever the fetch would have given. -/
theorem getEC2OnDemandCost_fill_failure (env : Env) (cpf : cachingPriceFetcher)
    (err : String) (fetched' : Except String Details)
    (os instance_ region os' instance_' region' full : String)
    (hnil : cpf.ec2Prices = none) (hreg : env.regionFullname region' = .ok full) :
    (getEC2OnDemandCost env cpf (.error err) os instance_ region).2 =
        .error (Wrap err "loading On Demand price data") ∧
      (getEC2OnDemandCost env cpf (.error err) os instance_ region).1.ec2Prices = some [] ∧
      (getEC2OnDemandCost env (getEC2OnDemandCost env cpf (.error err) os instance_ region).1
        fetched' os' instance_' region').2 = .ok 0 := by
  simp [getEC2OnDemandCost, cacheEc2Prices, hnil, hreg, PriceMap.get]

/-- C6 at an unfilled fetcher whose catalog fetch fails with `timeout`, followed by a
second call for the same key. -/
theorem getEC2OnDemandCost_fill_failure_witness :
    (getEC2OnDemandCost exampleEnv {} (.error "timeout") "Linux" "m3.large" "us-east-1").2 =
        .error (Wrap "timeout" "loading On Demand price data") ∧
      (getEC2OnDemandCost exampleEnv {} (.error "timeout") "Linux" "m3.large"
        "us-east-1").1.ec2Prices = some [] ∧
      (getEC2OnDemandCost exampleEnv
        (getEC2OnDemandCost exampleEnv {} (.error "timeout") "Linux" "m3.large" "us-east-1").1
        (.ok ⟨fun _ => 1, []⟩) "Linux" "m3.large" "us-east-1").2 = .ok 0 :=
  getEC2OnDemandCost_fill_failure exampleEnv {} "timeout" (.ok ⟨fun _ => 1, []⟩)
    "Linux" "m3.large" "us-east-1" "Linux" "m3.large" "us-east-1" "US East (N. Virginia)"
    rfl (by simp [exampleEnv])

/-- C7: for a key that the filled cache has no entry for, in a region that
`regionFullname` knows, `getEC2OnDemandCost` returns the price 0 with no
error. -/
theorem getEC2OnDemandCost_missing_entry (env : Env) (cpf : cachingPriceFetcher)
    (prices : PriceMap odInfo) (fetched : Except String Details)
    (os instance_ region full : String)
    (hfilled : cpf.ec2Prices = some prices) (hreg : env.regionFullname region = .ok full)
    (hmiss : prices.get? ⟨env.osBillingName os, instance_, full⟩ = none) :
    getEC2OnDemandCost env cpf fetched os instance_ region = (cpf, .ok 0) := by
  simp only [PriceMap.get?] at hmiss
  simp [getEC2OnDemandCost, hfilled, hreg, PriceMap.get, hmiss]

/-- C7 at a filled cache that holds `m3.large` only, asked for `c4.xlarge`. -/
theorem getEC2OnDemandCost_missing_entry_witness :
    getEC2OnDemandCost exampleEnv
        { ec2Prices := some [(⟨"Linux", "m3.large", "US East (N. Virginia)"⟩, 1)] }
        (.error "unused") "Linux" "c4.xlarge" "us-east-1" =
      ({ ec2Prices := some [(⟨"Linux", "m3.large", "US East (N. Virginia)"⟩, 1)] }, .ok 0) :=
  getEC2OnDemandCost_missing_entry exampleEnv _
    [(⟨"Linux", "m3.large", "US East (N. Virginia)"⟩, 1)] _ "Linux" "c4.xlarge" "us-east-1"
    "US East (N. Virginia)" rfl (by simp [exampleEnv]) (by decide)

theorem lowestSpotLoop_spec (prices : List SpotPrice) :
    ∀ (min : ℚ) (az : String), min ≠ 0 →
      (∀ s ∈ prices, ∃ p, s.SpotPrice = some p ∧ p ≠ 0) →
      ∃ m az', lowestSpotLoop prices min az = .ok (m, az') ∧ m ≠ 0 ∧ m ≤ min ∧
        (∀ s ∈ prices, ∀ p, s.SpotPrice = some p → m ≤ p) ∧
        ((m = min ∧ az' = az) ∨
          ∃ s ∈ prices, s.SpotPrice = some m ∧ s.AvailabilityZone = az') := by
  induction prices with
  | nil =>
    intro min az hmin _
    exact ⟨min, az, rfl, hmin, le_refl _, by simp, Or.inl ⟨rfl, rfl⟩⟩
  | cons s rest ih =>
    intro min az hmin hall
    obtain ⟨p, hp, hp0⟩ := hall s (by simp)
    have hrest : ∀ s ∈ rest, ∃ p, s.SpotPrice = some p ∧ p ≠ 0 :=
      fun x hx => hall x (List.mem_cons_of_mem _ hx)
    simp only [lowestSpotLoop, hp]
    by_cases hc : min = 0 ∨ p < min
    · rw [if_pos hc]
      have hlt : p < min := hc.resolve_left hmin
      obtain ⟨m, az', h1, h2, h3, h4, h5⟩ := ih p s.AvailabilityZone hp0 hrest
      refine ⟨m, az', h1, h2, le_trans h3 (le_of_lt hlt), ?_, ?_⟩
      · intro x hx q hq
        rcases List.mem_cons.mp hx with rfl | hx
        · rw [hp] at hq; cases hq; exact h3
        · exact h4 x hx q hq
      · right
        rcases h5 with ⟨rfl, rfl⟩ | ⟨x, hx, hx1, hx2⟩
        · exact ⟨s, by simp, hp, rfl⟩
        · exact ⟨x, List.mem_cons_of_mem _ hx, hx1, hx2⟩
    · rw [if_neg hc]
      have hge : min ≤ p := not_lt.mp (fun h => hc (Or.inr h))
      obtain ⟨m, az', h1, h2, h3, h4, h5⟩ := ih min az hmin hrest
      refine ⟨m, az', h1, h2, h3, ?_, ?_⟩
      · intro x hx q hq
        rcases List.mem_cons.mp hx with rfl | hx
        · rw [hp] at hq; cases hq; exact le_trans h3 hge
        · exact h4 x hx q hq
      · rcases h5 with h5 | ⟨x, hx, hx1, hx2⟩
        · exact Or.inl h5
        · exact Or.inr ⟨x, List.mem_cons_of_mem _ hx, hx1, hx2⟩

theorem getLatestLowestSpotCostForInstance_spec (client : AWSClient)
    (settings : EC2ProviderSettings) (os : String) (prices : List SpotPrice)
    (hdesc : client.DescribeSpotPriceHistory settings.InstanceType
      (if settings.IsVpc then os ++ " (Amazon VPC)" else os) = .ok prices)
    (hne : prices ≠ []) (hall : ∀ s ∈ prices, ∃ p, s.SpotPrice = some p ∧ p ≠ 0) :
    ∃ m az, getLatestLowestSpotCostForInstance client settings os = .ok (m, az) ∧
      IsLowestPrice prices m ∧
      ∃ s ∈ prices, s.SpotPrice = some m ∧ s.AvailabilityZone = az := by
  cases prices with
  | nil => exact absurd rfl hne
  | cons s rest =>
    obtain ⟨p, hp, hp0⟩ := hall s (by simp)
    obtain ⟨m, az, h1, _, h3, h4, h5⟩ := lowestSpotLoop_spec rest p s.AvailabilityZone hp0
      (fun x hx => hall x (List.mem_cons_of_mem _ hx))
    have hmem : ∃ x ∈ s :: rest, x.SpotPrice = some m ∧ x.AvailabilityZone = az := by
      rcases h5 with ⟨rfl, rfl⟩ | ⟨x, hx, hx1, hx2⟩
      · exact ⟨s, by simp, hp, rfl⟩
      · exact ⟨x, List.mem_cons_of_mem _ hx, hx1, hx2⟩
    refine ⟨m, az, ?_, ⟨?_, ?_⟩, hmem⟩
    · simp [getLatestLowestSpotCostForInstance, hdesc, lowestSpotLoop, hp, h1]
    · obtain ⟨x, hx, hx1, _⟩ := hmem
      exact ⟨x, hx, hx1⟩
    · intro x hx q hq
      rcases List.mem_cons.mp hx with rfl | hx
      · rw [hp] at hq; cases hq; exact h3
      · exact h4 x hx q hq

/-- C9 as amended: when the client answers a non-empty list of samples whose
prices all parse and are not 0, `getLatestLowestSpotCostForInstance` returns
the lowest of the sample prices. -/
theorem getLatestLowestSpotCostForInstance_lowest (client : AWSClient)
    (settings : EC2ProviderSettings) (os : String) (prices : List SpotPrice)
    (hdesc : client.DescribeSpotPriceHistory settings.InstanceType
      (if settings.IsVpc then os ++ " (Amazon VPC)" else os) = .ok prices)
    (hne : prices ≠ []) (hall : ∀ s ∈ prices, ∃ p, s.SpotPrice = some p ∧ p ≠ 0) :
    ∃ m az, getLatestLowestSpotCostForInstance client settings os = .ok (m, az) ∧
      IsLowestPrice prices m := by
  obtain ⟨m, az, h1, h2, _⟩ :=
    getLatestLowestSpotCostForInstance_spec client settings os prices hdesc hne hall
  exact ⟨m, az, h1, h2⟩

/-- C9 as amended, at the samples `[3, 2, 5]`. -/
theorem getLatestLowestSpotCostForInstance_lowest_witness :
    ∃ m az, getLatestLowestSpotCostForInstance
        (exampleClient
          [⟨0, some 3, "us-east-1a"⟩, ⟨0, some 2, "us-east-1b"⟩, ⟨0, some 5, "us-east-1c"⟩]
          (.ok []))
        {} "Linux/UNIX" = .ok (m, az) ∧
      IsLowestPrice
        [⟨0, some 3, "us-east-1a"⟩, ⟨0, some 2, "us-east-1b"⟩, ⟨0, some 5, "us-east-1c"⟩] m :=
  getLatestLowestSpotCostForInstance_lowest _ {} "Linux/UNIX"
    [⟨0, some 3, "us-east-1a"⟩, ⟨0, some 2, "us-east-1b"⟩, ⟨0, some 5, "us-east-1c"⟩]
    rfl (by simp) (by simp)

/-- C9 fails at the samples `[0, 5]`, which both parse: the scan returns 5,
and the lowest price is 0. -/
theorem getLatestLowestSpotCostForInstance_lowest_counterexample :
    getLatestLowestSpotCostForInstance
        (exampleClient [⟨0, some 0, "us-east-1a"⟩, ⟨0, some 5, "us-east-1b"⟩] (.ok []))
        {} "Linux/UNIX" = .ok (5, "us-east-1b") ∧
      ¬ IsLowestPrice [⟨0, some 0, "us-east-1a"⟩, ⟨0, some 5, "us-east-1b"⟩] 5 := by
  constructor
  · simp [getLatestLowestSpotCostForInstance, exampleClient, lowestSpotLoop]
  · intro h
    have := h.2 ⟨0, some 0, "us-east-1a"⟩ (by simp) 0 rfl
    norm_num at this

/-- C8 as amended: for a host that is not a user host and a manager in
automatic mode, when both price lookups succeed and either the settings name
no VPC or the subnet lookup for the zone of the lowest spot price succeeds,
`getProvider` returns the spot provider if and only if the spot price is
strictly less than the on-demand price, and the on-demand provider otherwise;
when it returns spot the `BidPrice` is the on-demand price, when it returns
on-demand `BidPrice` and `SubnetId` are unchanged. -/
theorem getProvider_auto (env : Env) (m : ec2Manager) (cpf cpf' : cachingPriceFetcher)
    (fetched : Except String Details) (h : Host) (ec2settings : EC2ProviderSettings)
    (onDemandPrice spotPrice : ℚ) (az : String)
    (hUser : h.UserHost = false) (hAuto : m.provider = .autoProvider)
    (hOD : getEC2OnDemandCost env cpf fetched (getOsName env h) ec2settings.InstanceType
      env.defaultRegion = (cpf', .ok onDemandPrice))
    (hSpot : getLatestLowestSpotCostForInstance m.client ec2settings (getOsName env h) =
      .ok (spotPrice, az))
    (hSub : ec2settings.VpcName = "" ∨
      ∃ subnetID, getSubnetForAZ m az ec2settings.VpcName = some (.ok subnetID)) :
    ((getProvider env m cpf fetched h ec2settings).result = some (.ok .spotProvider) ↔
      spotPrice < onDemandPrice) ∧
    ((getProvider env m cpf fetched h ec2settings).result = some (.ok .onDemandProvider) ↔
      ¬ spotPrice < onDemandPrice) ∧
    ((getProvider env m cpf fetched h ec2settings).result = some (.ok .spotProvider) →
      (getProvider env m cpf fetched h ec2settings).ec2settings.BidPrice = onDemandPrice) ∧
    ((getProvider env m cpf fetched h ec2settings).result = some (.ok .onDemandProvider) →
      (getProvider env m cpf fetched h ec2settings).ec2settings.BidPrice = ec2settings.BidPrice ∧
      (getProvider env m cpf fetched h ec2settings).ec2settings.SubnetId =
        ec2settings.SubnetId) := by
  by_cases hlt : spotPrice < onDemandPrice
  · rcases hSub with hV | ⟨subnetID, hS⟩
    · simp [getProvider, hUser, hAuto, hOD, hSpot, hlt, hV]
    · by_cases hV : ec2settings.VpcName = ""
      · simp [getProvider, hUser, hAuto, hOD, hSpot, hlt, hV]
      · simp [getProvider, hUser, hAuto, hOD, hSpot, hlt, hV, hS]
  · simp [getProvider, hUser, hAuto, hOD, hSpot, hlt]

/-- C8 as amended, at on-demand price 2 and spot price 1 with no VPC. -/
theorem getProvider_auto_witness :
    ((getProvider exampleEnv
        ⟨.autoProvider, exampleClient [⟨0, some 1, "us-east-1a"⟩] (.ok [])⟩
        { ec2Prices := some [(⟨"Linux/UNIX", "m3.large", "US East (N. Virginia)"⟩, 2)] }
        (.error "unused") {} { InstanceType := "m3.large" }).result =
      some (.ok .spotProvider) ↔ (1 : ℚ) < 2) ∧
    (getProvider exampleEnv
        ⟨.autoProvider, exampleClient [⟨0, some 1, "us-east-1a"⟩] (.ok [])⟩
        { ec2Prices := some [(⟨"Linux/UNIX", "m3.large", "US East (N. Virginia)"⟩, 2)] }
        (.error "unused") {} { InstanceType := "m3.large" }).ec2settings.BidPrice = 2 := by
  have hOD : getEC2OnDemandCost exampleEnv
      { ec2Prices := some [(⟨"Linux/UNIX", "m3.large", "US East (N. Virginia)"⟩, 2)] }
      (.error "unused") (getOsName exampleEnv {})
      ({ InstanceType := "m3.large" } : EC2ProviderSettings).InstanceType
      exampleEnv.defaultRegion =
      ({ ec2Prices := some [(⟨"Linux/UNIX", "m3.large", "US East (N. Virginia)"⟩, 2)] },
        .ok 2) := by
    simp [getEC2OnDemandCost, getOsName, exampleEnv, PriceMap.get, List.lookup]
  have hSpot : getLatestLowestSpotCostForInstance
      (⟨.autoProvider, exampleClient [⟨0, some 1, "us-east-1a"⟩] (.ok [])⟩ :
        ec2Manager).client
      { InstanceType := "m3.large" } (getOsName exampleEnv {}) =
      .ok (1, "us-east-1a") := by
    simp [getLatestLowestSpotCostForInstance, exampleClient, lowestSpotLoop]
  have key := getProvider_auto exampleEnv
    ⟨.autoProvider, exampleClient [⟨0, some 1, "us-east-1a"⟩] (.ok [])⟩
    { ec2Prices := some [(⟨"Linux/UNIX", "m3.large", "US East (N. Virginia)"⟩, 2)] } _
    (.error "unused") {} { InstanceType := "m3.large" } 2 1 "us-east-1a"
    rfl rfl hOD hSpot (Or.inl rfl)
  exact ⟨key.1, key.2.2.1 (key.1.mpr (by norm_num))⟩

/-- C8 fails at on-demand price 2 and spot price 1 when the settings name a
VPC and the client fails to describe it: both price lookups succeed and the
spot price is lower, and `getProvider` returns an error, not the spot
provider. -/
theorem getProvider_auto_counterexample :
    getEC2OnDemandCost exampleEnv
        { ec2Prices := some [(⟨"Linux/UNIX", "m3.large", "US East (N. Virginia)"⟩, 2)] }
        (.error "unused") (getOsName exampleEnv {}) "m3.large" exampleEnv.defaultRegion =
      ({ ec2Prices := some [(⟨"Linux/UNIX", "m3.large", "US East (N. Virginia)"⟩, 2)] },
        .ok 2) ∧
    getLatestLowestSpotCostForInstance
        (exampleClient [⟨0, some 1, "us-east-1a"⟩] (.error "denied"))
        { InstanceType := "m3.large", VpcName := "build" } (getOsName exampleEnv {}) =
      .ok (1, "us-east-1a") ∧
    (1 : ℚ) < 2 ∧
    (getProvider exampleEnv
        ⟨.autoProvider, exampleClient [⟨0, some 1, "us-east-1a"⟩] (.error "denied")⟩
        { ec2Prices := some [(⟨"Linux/UNIX", "m3.large", "US East (N. Virginia)"⟩, 2)] }
        (.error "unused") {} { InstanceType := "m3.large", VpcName := "build" }).result ≠
      some (.ok .spotProvider) := by
  have hOD : getEC2OnDemandCost exampleEnv
      { ec2Prices := some [(⟨"Linux/UNIX", "m3.large", "US East (N. Virginia)"⟩, 2)] }
      (.error "unused") (getOsName exampleEnv {}) "m3.large" exampleEnv.defaultRegion =
      ({ ec2Prices := some [(⟨"Linux/UNIX", "m3.large", "US East (N. Virginia)"⟩, 2)] },
        .ok 2) := by
    simp [getEC2OnDemandCost, getOsName, exampleEnv, PriceMap.get, List.lookup]
  have hSpot : getLatestLowestSpotCostForInstance
      (exampleClient [⟨0, some 1, "us-east-1a"⟩] (.error "denied"))
      { InstanceType := "m3.large", VpcName := "build" } (getOsName exampleEnv {}) =
      .ok (1, "us-east-1a") := by
    simp [getLatestLowestSpotCostForInstance, exampleClient, lowestSpotLoop]
  refine ⟨hOD, hSpot, by norm_num, ?_⟩
  have hlt : (1 : ℚ) < 2 := by norm_num
  simp [getProvider, hOD, hSpot, hlt, getSubnetForAZ]
  simp [exampleClient]

/-- C10: on a host whose status is terminated, `MarkReachable` and
`MarkAsProvisioned` set the status in memory to running, and over a store
that holds the host and takes the update they return no error and persist
running; `SetStatus` with any status is refused and leaves terminated. -/
theorem terminated_host_marked_running (db : DB) (now : Int) (h : Host) (status user logs : String)
    (hterm : h.Status = HostTerminated) :
    (MarkReachable db h).h.Status = HostRunning ∧
    (MarkAsProvisioned db now h).h.Status = HostRunning ∧
    (SetStatus db h status user logs).h.Status = HostTerminated ∧
    (SetStatus db h status user logs).err ≠ none := by
  have hne : ¬ HostTerminated = HostRunning := by decide
  simp [MarkReachable, MarkAsProvisioned, SetStatus, hterm, hne]

/-- C10 at the terminated host `h1`, held by the store: `MarkReachable` and
`MarkAsProvisioned` return no error and the memory and the store have the
status running. -/
theorem terminated_host_marked_running_witness :
    (MarkReachable { hosts := [{ Id := "h1", Status := HostTerminated }] }
      { Id := "h1", Status := HostTerminated }) =
      ⟨{ Id := "h1", Status := HostRunning },
        { hosts := [{ Id := "h1", Status := HostRunning }],
          events := [.HostStatusChanged "h1" HostTerminated HostRunning User ""] },
        none⟩ ∧
    (MarkAsProvisioned { hosts := [{ Id := "h1", Status := HostTerminated }] } 7
      { Id := "h1", Status := HostTerminated }) =
      ⟨{ Id := "h1", Status := HostRunning, Provisioned := true },
        { hosts := [{ Id := "h1", Status := HostRunning, Provisioned := true,
                      ProvisionTime := 7 }],
          events := [.HostProvisioned "h1"] },
        none⟩ ∧
    (MarkReachable {} { Id := "h1", Status := HostTerminated }).h.Status = HostRunning ∧
    (MarkAsProvisioned {} 7 { Id := "h1", Status := HostTerminated }).h.Status =
      HostRunning :=
  ⟨by decide, by decide,
    (terminated_host_marked_running {} 7 { Id := "h1", Status := HostTerminated }
      HostRunning "user" "" rfl).1,
    (terminated_host_marked_running {} 7 { Id := "h1", Status := HostTerminated }
      HostRunning "user" "" rfl).2.1⟩

/-- C20: for every list of rates, empty, unsorted or sorted, and every time
`t`, `spotCostForRange t t rates` is 0. -/
theorem spotCostForRange_self (t : Int) (rates : List spotRate) :
    spotCostForRange t t rates = 0 := by
  have h := spotCost_add_of_le t t t rates (le_refl _) (le_refl _)
  linarith

/-- C11: on a host whose status in memory is terminated, `SetStatus` and its
wrappers `SetRunning`, `SetDecommissioned`, `SetQuarantined` and
`SetTerminated` return an error and leave the host, the store and the event
log as they were. -/
theorem SetStatus_terminated (db : DB) (h : Host) (status user logs : String)
    (hterm : h.Status = HostTerminated) :
    (∃ msg, SetStatus db h status user logs = ⟨h, db, some msg⟩) ∧
    (∃ msg, SetRunning db h user = ⟨h, db, some msg⟩) ∧
    (∃ msg, SetDecommissioned db h user logs = ⟨h, db, some msg⟩) ∧
    (∃ msg, SetQuarantined db h user logs = ⟨h, db, some msg⟩) ∧
    (∃ msg, SetTerminated db h user = ⟨h, db, some msg⟩) := by
  simp [SetStatus, SetRunning, SetDecommissioned, SetQuarantined, SetTerminated, hterm]

/-- C11 at the terminated host `h1`, held by the store. -/
theorem SetStatus_terminated_witness :
    (∃ msg, SetStatus { hosts := [{ Id := "h1", Status := HostTerminated }] }
      { Id := "h1", Status := HostTerminated } HostRunning "user" "" =
      ⟨{ Id := "h1", Status := HostTerminated },
        { hosts := [{ Id := "h1", Status := HostTerminated }] }, some msg⟩) :=
  (SetStatus_terminated { hosts := [{ Id := "h1", Status := HostTerminated }] }
    { Id := "h1", Status := HostTerminated } HostRunning "user" "" rfl).1

theorem updateFirst_eq_none (query : Host → Bool) (update : Host → Host) (l : List Host) :
    updateFirst query update l = none ↔ ∀ d ∈ l, query d = false := by
  induction l with
  | nil => simp [updateFirst]
  | cons d rest ih =>
    by_cases hq : query d = true
    · simp [updateFirst, hq]
    · simp [updateFirst, hq, ih]

theorem updateFirst_eq_some (query : Host → Bool) (update : Host → Host) (l l' : List Host)
    (h : updateFirst query update l = some l') :
    ∃ pre d post, l = pre ++ d :: post ∧ (∀ x ∈ pre, query x = false) ∧ query d = true ∧
      l' = pre ++ update d :: post := by
  induction l generalizing l' with
  | nil => simp [updateFirst] at h
  | cons d rest ih =>
    by_cases hq : query d = true
    · simp only [updateFirst, hq, if_true, Option.some.injEq] at h
      exact ⟨[], d, rest, rfl, by simp, hq, by simp [← h]⟩
    · simp only [updateFirst, hq, Bool.false_eq_true, if_false, Option.map_eq_some'] at h
      obtain ⟨r', hr', rfl⟩ := h
      obtain ⟨pre, x, post, h1, h2, h3, h4⟩ := ih r' hr'
      refine ⟨d :: pre, x, post, by simp [h1], ?_, h3, by simp [h4]⟩
      intro y hy
      rcases List.mem_cons.mp hy with rfl | hy
      · simpa using hq
      · exact h2 y hy

theorem UpdateOne_cases (db : DB) (query : Host → Bool) (update : Host → Host)
    (hio : db.ioError = none) :
    ((∀ d ∈ db.hosts, query d = false) ∧ UpdateOne db query update = (db, some ErrNotFound)) ∨
    ∃ pre d post, db.hosts = pre ++ d :: post ∧ (∀ x ∈ pre, query x = false) ∧
      query d = true ∧
      UpdateOne db query update = ({ db with hosts := pre ++ update d :: post }, none) := by
  cases hu : updateFirst query update db.hosts with
  | none =>
    left
    exact ⟨(updateFirst_eq_none _ _ _).mp hu, by simp [UpdateOne, hio, hu]⟩
  | some l' =>
    right
    obtain ⟨pre, d, post, h1, h2, h3, h4⟩ := updateFirst_eq_some _ _ _ _ hu
    exact ⟨pre, d, post, h1, h2, h3, by simp [UpdateOne, hio, hu, h4]⟩

/-- C12 as amended: on a host whose status is uninitialized, `SetRunning` sets
the status in memory to running and logs the change, and its update has no
guard on the status: over a store without I/O error that holds the host it
returns no error and the first document with the host's id gets the status
running. -/
theorem SetRunning_uninitialized (db : DB) (h : Host) (user : String)
    (hun : h.Status = HostUninitialized) :
    (SetRunning db h user).h = { h with Status := HostRunning } ∧
    (SetRunning db h user).db.events =
      db.events ++ [.HostStatusChanged h.Id HostUninitialized HostRunning user ""] ∧
    (db.ioError = none → (∃ d ∈ db.hosts, d.Id = h.Id) →
      (SetRunning db h user).err = none ∧
      ∃ pre d post, db.hosts = pre ++ d :: post ∧ (∀ x ∈ pre, x.Id ≠ h.Id) ∧ d.Id = h.Id ∧
        (SetRunning db h user).db.hosts = pre ++ { d with Status := HostRunning } :: post) := by
  have hne : ¬ HostUninitialized = HostTerminated := by decide
  refine ⟨by simp [SetRunning, SetStatus, hun, hne], ?_, ?_⟩
  · simp only [SetRunning, SetStatus, hun, hne, if_false, UpdateOne, LogHostStatusChanged]
    cases db.ioError with
    | some e => simp
    | none =>
      simp only
      cases updateFirst (fun d => decide (d.Id = h.Id))
        (fun d => { d with Status := HostRunning }) db.hosts <;> simp
  · intro hio ⟨d0, hd0, hid0⟩
    rcases UpdateOne_cases (LogHostStatusChanged db h.Id h.Status HostRunning user "")
        (fun d => decide (d.Id = h.Id)) (fun d => { d with Status := HostRunning })
        (by simpa [LogHostStatusChanged] using hio) with ⟨hnone, _⟩ | ⟨pre, d, post, h1, h2, h3, h4⟩
    · have := hnone d0 (by simpa [LogHostStatusChanged] using hd0)
      simp [hid0] at this
    · rw [hun] at h4
      refine ⟨by simp only [SetRunning, SetStatus, hun, hne, if_false, h4], pre, d, post,
        by simpa [LogHostStatusChanged] using h1, ?_, by simpa using h3,
        by simp only [SetRunning, SetStatus, hun, hne, if_false, h4]⟩
      intro x hx
      simpa using h2 x hx

/-- C12 as amended, at the uninitialized host `h1`, held by the store. -/
theorem SetRunning_uninitialized_witness :
    (SetRunning { hosts := [{ Id := "h1", Status := HostUninitialized }] }
      { Id := "h1", Status := HostUninitialized } "user").h =
      { Id := "h1", Status := HostRunning } :=
  (SetRunning_uninitialized { hosts := [{ Id := "h1", Status := HostUninitialized }] }
    { Id := "h1", Status := HostUninitialized } "user" rfl).1

/-- C12 fails at the uninitialized host `h1`, held by the store: `SetRunning`
returns no error, and the status is running in memory and in the store. -/
theorem SetRunning_uninitialized_counterexample :
    SetRunning { hosts := [{ Id := "h1", Status := HostUninitialized }] }
      { Id := "h1", Status := HostUninitialized } "user" =
      ⟨{ Id := "h1", Status := HostRunning },
        { hosts := [{ Id := "h1", Status := HostRunning }],
          events := [.HostStatusChanged "h1" HostUninitialized HostRunning "user" ""] },
        none⟩ ∧
    HostRunning ≠ HostUninitialized := by
  constructor <;> decide

/-- C13: over a store without I/O error, `SetStarting` either finds no
document with the host's id and the status uninitialized, leaves the store as
it was and returns the not-found error, or gives the status starting to the
first such document and to nothing else; `SetInitializing` does the same from
the status starting to the status initializing. Neither changes the host in
memory. -/
theorem SetStarting_SetInitializing_guarded (db : DB) (h : Host) (hio : db.ioError = none) :
    (((∀ d ∈ db.hosts, d.Id = h.Id → d.Status ≠ HostUninitialized) ∧
        SetStarting db h = ⟨h, db, some ErrNotFound⟩) ∨
      ∃ pre d post, db.hosts = pre ++ d :: post ∧ d.Id = h.Id ∧
        d.Status = HostUninitialized ∧
        SetStarting db h =
          ⟨h, { db with hosts := pre ++ { d with Status := HostStarting } :: post }, none⟩) ∧
    (((∀ d ∈ db.hosts, d.Id = h.Id → d.Status ≠ HostStarting) ∧
        SetInitializing db h = ⟨h, db, some ErrNotFound⟩) ∨
      ∃ pre d post, db.hosts = pre ++ d :: post ∧ d.Id = h.Id ∧
        d.Status = HostStarting ∧
        SetInitializing db h =
          ⟨h, { db with hosts := pre ++ { d with Status := HostInitializing } :: post },
            none⟩) := by
  constructor
  · rcases UpdateOne_cases db (fun d => decide (d.Id = h.Id ∧ d.Status = HostUninitialized))
        (fun d => { d with Status := HostStarting }) hio with
      ⟨hnone, hu⟩ | ⟨pre, d, post, h1, _, h3, h4⟩
    · left
      refine ⟨fun d hd hid hst => ?_, by simp only [SetStarting, hu]⟩
      have := hnone d hd
      simp [hid, hst] at this
    · right
      simp only [decide_eq_true_eq] at h3
      exact ⟨pre, d, post, h1, h3.1, h3.2, by simp only [SetStarting, h4]⟩
  · rcases UpdateOne_cases db (fun d => decide (d.Id = h.Id ∧ d.Status = HostStarting))
        (fun d => { d with Status := HostInitializing }) hio with
      ⟨hnone, hu⟩ | ⟨pre, d, post, h1, _, h3, h4⟩
    · left
      refine ⟨fun d hd hid hst => ?_, by simp only [SetInitializing, hu]⟩
      have := hnone d hd
      simp [hid, hst] at this
    · right
      simp only [decide_eq_true_eq] at h3
      exact ⟨pre, d, post, h1, h3.1, h3.2, by simp only [SetInitializing, h4]⟩

/-- C13 at a store that holds the host `h1` with the status running:
`SetStarting` and `SetInitializing` change nothing and return the not-found
error; and at the status uninitialized `SetStarting` persists starting. -/
theorem SetStarting_SetInitializing_guarded_witness :
    SetStarting { hosts := [{ Id := "h1", Status := HostRunning }] } { Id := "h1" } =
      ⟨{ Id := "h1" }, { hosts := [{ Id := "h1", Status := HostRunning }] },
        some ErrNotFound⟩ ∧
    SetInitializing { hosts := [{ Id := "h1", Status := HostRunning }] } { Id := "h1" } =
      ⟨{ Id := "h1" }, { hosts := [{ Id := "h1", Status := HostRunning }] },
        some ErrNotFound⟩ ∧
    SetStarting { hosts := [{ Id := "h1", Status := HostUninitialized }] } { Id := "h1" } =
      ⟨{ Id := "h1" }, { hosts := [{ Id := "h1", Status := HostStarting }] }, none⟩ := by
  have key := SetStarting_SetInitializing_guarded { hosts := [{ Id := "h1", Status := HostRunning }] }
    { Id := "h1" } rfl
  refine ⟨?_, ?_, by decide⟩
  · rcases key.1 with ⟨_, h⟩ | ⟨pre, d, post, h1, _, h3, _⟩
    · exact h
    · exfalso
      have hd : d ∈ ([{ Id := "h1", Status := HostRunning }] : List Host) := by
        simp only [show ([{ Id := "h1", Status := HostRunning }] : List Host) =
          pre ++ d :: post from h1]
        simp
      simp only [List.mem_singleton] at hd
      rw [hd] at h3
      revert h3
      decide
  · rcases key.2 with ⟨_, h⟩ | ⟨pre, d, post, h1, _, h3, _⟩
    · exact h
    · exfalso
      have hd : d ∈ ([{ Id := "h1", Status := HostRunning }] : List Host) := by
        simp only [show ([{ Id := "h1", Status := HostRunning }] : List Host) =
          pre ++ d :: post from h1]
        simp
      simp only [List.mem_singleton] at hd
      rw [hd] at h3
      revert h3
      decide

/-- C19: for an on-demand host whose instance the provider describes,
`getEC2Cost` returns the price that `getEC2OnDemandCost` reads from the cache
times the hours of `end - start`, with no bucketing; at the price 1/2 per hour
over 3 hours the cost is 3/2. -/
theorem getEC2Cost_onDemand (env : Env) (isHostOnDemand : Host → Bool)
    (azToRegion : String → String) (cpf cpf' : cachingPriceFetcher)
    (fetched : Except String Details) (client : CostClient) (h : Host) (t : timeRange)
    (inst : Instance) (price : ℚ)
    (hOD : isHostOnDemand h = true) (hInfo : client.GetInstanceInfo h.Id = .ok inst)
    (hPrice : getEC2OnDemandCost env cpf fetched (getOsName env h) inst.InstanceType
      (azToRegion inst.AvailabilityZone) = (cpf', .ok price)) :
    getEC2Cost env isHostOnDemand azToRegion cpf fetched client h t =
        (cpf', .ok (price * Hours (t.end_ - t.start))) ∧
      (price = 1 / 2 → t.end_ = t.start + 3 * Hour →
        getEC2Cost env isHostOnDemand azToRegion cpf fetched client h t =
          (cpf', .ok (3 / 2))) := by
  have key : getEC2Cost env isHostOnDemand azToRegion cpf fetched client h t =
      (cpf', .ok (price * Hours (t.end_ - t.start))) := by
    simp only [getEC2Cost, hOD, if_true, hInfo, hPrice]
  refine ⟨key, fun hp ht => ?_⟩
  rw [key, hp, ht]
  have : Hours (t.start + 3 * Hour - t.start) = 3 := by
    simp [Hours, Hour]
    norm_num
  rw [this]
  norm_num

/-- C19 at a cache that holds the price 1/2 for `m3.large`, over the 3 hours
from 0. -/
theorem getEC2Cost_onDemand_witness :
    getEC2Cost exampleEnv (fun _ => true) (fun _ => "us-east-1")
        { ec2Prices := some [(⟨"Linux/UNIX", "m3.large", "US East (N. Virginia)"⟩, 1 / 2)] }
        (.error "unused") exampleCostClient { Id := "i-0" } ⟨0, 3 * Hour⟩ =
      ({ ec2Prices := some [(⟨"Linux/UNIX", "m3.large", "US East (N. Virginia)"⟩, 1 / 2)] },
        .ok (3 / 2)) :=
  (getEC2Cost_onDemand exampleEnv (fun _ => true) (fun _ => "us-east-1")
    { ec2Prices := some [(⟨"Linux/UNIX", "m3.large", "US East (N. Virginia)"⟩, 1 / 2)] } _
    (.error "unused") exampleCostClient { Id := "i-0" } ⟨0, 3 * Hour⟩
    ⟨"m3.large", "us-east-1a", 0⟩ (1 / 2) rfl rfl
    (by simp [getEC2OnDemandCost, getOsName, exampleEnv, PriceMap.get, List.lookup])).2
    rfl (by simp)

theorem mem_UniqueStrings (l : List String) (x : String) : x ∈ UniqueStrings l ↔ x ∈ l := by
  induction l with
  | nil => simp [UniqueStrings]
  | cons s rest ih =>
    simp only [UniqueStrings, List.mem_cons, List.mem_filter, ih]
    by_cases h : x = s <;> simp [h]

theorem nodup_UniqueStrings (l : List String) : (UniqueStrings l).Nodup := by
  induction l with
  | nil => simp [UniqueStrings]
  | cons s rest ih =>
    simp only [UniqueStrings, List.nodup_cons, List.mem_filter]
    exact ⟨by simp, ih.filter _⟩

theorem updateVersionBuildVarMap_other (v v' n : String) (bvs : List BuildVariant)
    (m : GoMap versionBuildVariant BuildVariant) (h : v' ≠ v) :
    (updateVersionBuildVarMap v bvs m).get? ⟨v', n⟩ = m.get? ⟨v', n⟩ := by
  induction bvs generalizing m with
  | nil => rfl
  | cons bv rest ih =>
    rw [updateVersionBuildVarMap, ih]
    have hk : ((⟨v', n⟩ : versionBuildVariant) == ⟨v, bv.Name⟩) = false :=
      beq_eq_false_iff_ne.mpr (by simp [h])
    simp [GoMap.get?, GoMap.set, List.lookup_cons, hk]

theorem updateVersionBuildVarMap_same (v n : String) (bvs : List BuildVariant)
    (m : GoMap versionBuildVariant BuildVariant) :
    (updateVersionBuildVarMap v bvs m).get? ⟨v, n⟩ =
      match (updateVersionBuildVarMap v bvs []).get? ⟨v, n⟩ with
      | some bv => some bv
      | none => m.get? ⟨v, n⟩ := by
  induction bvs generalizing m with
  | nil => rfl
  | cons bv rest ih =>
    have h1 := ih (m.set ⟨v, bv.Name⟩ bv)
    have h2 := ih (GoMap.set [] ⟨v, bv.Name⟩ bv)
    rw [updateVersionBuildVarMap, updateVersionBuildVarMap, h1, h2]
    cases (updateVersionBuildVarMap v rest []).get? ⟨v, n⟩ with
    | some x => rfl
    | none =>
      by_cases hn : n = bv.Name
      · simp [GoMap.get?, GoMap.set, List.lookup_cons, hn]
      · have hk : ((⟨v, n⟩ : versionBuildVariant) == ⟨v, bv.Name⟩) = false :=
          beq_eq_false_iff_ne.mpr (by simp [hn])
        simp [GoMap.get?, GoMap.set, List.lookup_cons, hk, List.lookup]

theorem getDistrosForBuildVariant_nil (getProject : String → Except String Project)
    (t : Task) (bv : BuildVariant) (p : Project) (hp : getProject t.Version = .ok p) :
    getDistrosForBuildVariant getProject t bv none =
      getDistrosForBuildVariant getProject t bv (some p) := by
  simp only [getDistrosForBuildVariant, hp]

theorem appendTask_getD (t : Task) (E : List String) (m : GoMap String (List Task))
    (hE : E.Nodup) (d : String) :
    (appendTask t E m).getD d = m.getD d ++ (if d ∈ E then [t] else []) := by
  induction E generalizing m with
  | nil => simp [appendTask]
  | cons e rest ih =>
    rw [appendTask, ih _ (List.nodup_cons.mp hE).2]
    have hne : e ∉ rest := (List.nodup_cons.mp hE).1
    by_cases hd : d = e
    · subst hd
      simp [GoMap.getD, GoMap.set, List.lookup_cons, hne]
    · have hd' : (d == e) = false := by simpa using hd
      simp [GoMap.getD, GoMap.set, List.lookup_cons, hd, hd']

theorem CacheInv_update (getProject : String → Except String Project)
    (m : GoMap versionBuildVariant BuildVariant) (v : String) (p : Project)
    (hinv : CacheInv getProject m) (hp : getProject v = .ok p) :
    CacheInv getProject (updateVersionBuildVarMap v p.BuildVariants m) ∧
      ∀ n, (updateVersionBuildVarMap v p.BuildVariants m).get? ⟨v, n⟩ =
        resolveBuildVariant v n p := by
  have hsame : ∀ n, (updateVersionBuildVarMap v p.BuildVariants m).get? ⟨v, n⟩ =
      resolveBuildVariant v n p := by
    intro n
    rw [updateVersionBuildVarMap_same]
    cases hr : (updateVersionBuildVarMap v p.BuildVariants []).get? ⟨v, n⟩ with
    | some bv => simp [resolveBuildVariant, hr]
    | none =>
      simp only [resolveBuildVariant, hr]
      rcases hinv v with hnone | ⟨p', hp', hall⟩
      · exact hnone n
      · rw [hp] at hp'
        cases hp'
        rw [hall n]
        exact hr
  refine ⟨fun v' => ?_, hsame⟩
  by_cases hv : v' = v
  · subst hv
    exact Or.inr ⟨p, hp, hsame⟩
  · rcases hinv v' with hnone | ⟨p', hp', hall⟩
    · left
      intro n
      rw [updateVersionBuildVarMap_other _ _ _ _ _ hv]
      exact hnone n
    · right
      refine ⟨p', hp', fun n => ?_⟩
      rw [updateVersionBuildVarMap_other _ _ _ _ _ hv]
      exact hall n

theorem splitStep_spec (getProject : String → Except String Project)
    (SetDistro : Task → String → Option String) (st : SplitState) (t : Task)
    (hinv : CacheInv getProject st.versionBuildVarMap) :
    ∃ m', CacheInv getProject m' ∧ splitStep getProject SetDistro st t =
      match eligibleDistros getProject t with
      | none => some { st with versionBuildVarMap := m' }
      | some E =>
        if t.DistroId = "" then
          match E[0]? with
          | none => none
          | some d =>
            match SetDistro t d with
            | some _ =>
              some { st with versionBuildVarMap := m',
                             tasksByDistro := appendTask t E st.tasksByDistro }
            | none =>
              some (recordRunDistros
                { st with versionBuildVarMap := m',
                          tasksByDistro := appendTask t E st.tasksByDistro } t E)
        else
          some (recordRunDistros
            { st with versionBuildVarMap := m',
                      tasksByDistro := appendTask t E st.tasksByDistro } t E) := by
  cases hm : st.versionBuildVarMap.get? ⟨t.Version, t.BuildVariant⟩ with
  | some bv0 =>
    -- the build variant is cached: the project is not loaded again
    rcases hinv t.Version with hnone | ⟨p, hp, hall⟩
    · rw [hnone] at hm
      cases hm
    · refine ⟨st.versionBuildVarMap, hinv, ?_⟩
      have hr : resolveBuildVariant t.Version t.BuildVariant p = some bv0 := by
        rw [← hall]; exact hm
      simp only [splitStep, hm, eligibleDistros, hp, hr,
        getDistrosForBuildVariant_nil getProject t bv0 p hp]
      cases getDistrosForBuildVariant getProject t bv0 (some p) <;> rfl
  | none =>
    cases hp : getProject t.Version with
    | error e =>
      refine ⟨st.versionBuildVarMap, hinv, ?_⟩
      simp only [splitStep, hm, eligibleDistros, hp]
    | ok p =>
      obtain ⟨hinv', hsame⟩ := CacheInv_update getProject _ t.Version p hinv hp
      refine ⟨updateVersionBuildVarMap t.Version p.BuildVariants st.versionBuildVarMap,
        hinv', ?_⟩
      simp only [splitStep, hm, eligibleDistros, hp, hsame]
      cases resolveBuildVariant t.Version t.BuildVariant p with
      | none => rfl
      | some bv =>
        simp only
        cases getDistrosForBuildVariant getProject t bv (some p) <;> rfl

theorem eligibleDistros_nodup (getProject : String → Except String Project) (t : Task)
    (E : List String) (h : eligibleDistros getProject t = some E) : E.Nodup := by
  unfold eligibleDistros at h
  split at h
  · cases h
  · split at h
    · cases h
    · split at h
      · cases h
      · cases h
        exact nodup_UniqueStrings _

theorem recordRunDistros_tasksByDistro (st : SplitState) (t : Task) (E : List String) :
    (recordRunDistros st t E).tasksByDistro = st.tasksByDistro ∧
      (recordRunDistros st t E).versionBuildVarMap = st.versionBuildVarMap := by
  unfold recordRunDistros
  split <;> exact ⟨rfl, rfl⟩

theorem splitStep_some (getProject : String → Except String Project)
    (SetDistro : Task → String → Option String) (st st1 : SplitState) (t : Task)
    (hinv : CacheInv getProject st.versionBuildVarMap)
    (h : splitStep getProject SetDistro st t = some st1) :
    CacheInv getProject st1.versionBuildVarMap ∧
      st1.tasksByDistro =
        appendTask t ((eligibleDistros getProject t).getD []) st.tasksByDistro := by
  obtain ⟨m', hm', hstep⟩ := splitStep_spec getProject SetDistro st t hinv
  rw [hstep] at h
  cases hE : eligibleDistros getProject t with
  | none =>
    simp only [hE, Option.some.injEq] at h
    subst h
    exact ⟨hm', rfl⟩
  | some E =>
    simp only [hE] at h
    simp only [Option.getD_some]
    by_cases hd : t.DistroId = ""
    · rw [if_pos hd] at h
      cases h0 : E[0]? with
      | none => simp [h0] at h
      | some d =>
        simp only [h0] at h
        cases hs : SetDistro t d with
        | some e =>
          simp only [hs, Option.some.injEq] at h
          subst h
          exact ⟨hm', rfl⟩
        | none =>
          simp only [hs, Option.some.injEq] at h
          subst h
          have := recordRunDistros_tasksByDistro
            { st with versionBuildVarMap := m',
                      tasksByDistro := appendTask t E st.tasksByDistro } t E
          exact ⟨by rw [this.2]; exact hm', this.1⟩
    · rw [if_neg hd] at h
      simp only [Option.some.injEq] at h
      subst h
      have := recordRunDistros_tasksByDistro
        { st with versionBuildVarMap := m',
                  tasksByDistro := appendTask t E st.tasksByDistro } t E
      exact ⟨by rw [this.2]; exact hm', this.1⟩

theorem splitStep_eq_none (getProject : String → Except String Project)
    (SetDistro : Task → String → Option String) (st : SplitState) (t : Task)
    (hinv : CacheInv getProject st.versionBuildVarMap) :
    splitStep getProject SetDistro st t = none ↔
      eligibleDistros getProject t = some [] ∧ t.DistroId = "" := by
  obtain ⟨m', _, hstep⟩ := splitStep_spec getProject SetDistro st t hinv
  rw [hstep]
  cases hE : eligibleDistros getProject t with
  | none => simp
  | some E =>
    by_cases hd : t.DistroId = ""
    · cases E with
      | nil => simp [hd]
      | cons e rest =>
        simp only [hd, if_true, List.getElem?_cons_zero]
        cases SetDistro t e <;> simp
    · simp [hd]

theorem splitLoop_tasksByDistro (getProject : String → Except String Project)
    (SetDistro : Task → String → Option String) (tasks : List Task) :
    ∀ (st st' : SplitState), CacheInv getProject st.versionBuildVarMap →
      splitLoop getProject SetDistro tasks st = some st' →
      ∀ d, st'.tasksByDistro.getD d = st.tasksByDistro.getD d ++
        tasks.filter (fun t => decide (d ∈ (eligibleDistros getProject t).getD [])) := by
  induction tasks with
  | nil =>
    intro st st' _ h d
    simp only [splitLoop, Option.some.injEq] at h
    subst h
    simp
  | cons t rest ih =>
    intro st st' hinv h d
    simp only [splitLoop] at h
    cases hs : splitStep getProject SetDistro st t with
    | none => simp [hs] at h
    | some st1 =>
      simp only [hs] at h
      obtain ⟨hinv1, htbd⟩ := splitStep_some getProject SetDistro st st1 t hinv hs
      rw [ih st1 st' hinv1 h d, htbd]
      have hnd : ((eligibleDistros getProject t).getD []).Nodup := by
        cases hE : eligibleDistros getProject t with
        | none => simp
        | some E => simpa using eligibleDistros_nodup getProject t E hE
      rw [appendTask_getD t _ _ hnd d]
      by_cases hmem : d ∈ (eligibleDistros getProject t).getD []
      · simp [List.filter_cons, hmem]
      · simp [List.filter_cons, hmem]

theorem splitLoop_returns (getProject : String → Except String Project)
    (SetDistro : Task → String → Option String) (tasks : List Task) :
    ∀ (st : SplitState), CacheInv getProject st.versionBuildVarMap →
      (∀ t ∈ tasks, t.DistroId = "" → eligibleDistros getProject t ≠ some []) →
      ∃ st', splitLoop getProject SetDistro tasks st = some st' := by
  induction tasks with
  | nil => intro st _ _; exact ⟨st, rfl⟩
  | cons t rest ih =>
    intro st hinv hall
    cases hs : splitStep getProject SetDistro st t with
    | none =>
      have := (splitStep_eq_none getProject SetDistro st t hinv).mp hs
      exact absurd this.1 (hall t (by simp) this.2)
    | some st1 =>
      obtain ⟨hinv1, _⟩ := splitStep_some getProject SetDistro st st1 t hinv hs
      obtain ⟨st', h⟩ := ih st1 hinv1 (fun x hx => hall x (List.mem_cons_of_mem _ hx))
      exact ⟨st', by simp only [splitLoop, hs, h]⟩

theorem CacheInv_nil (getProject : String → Except String Project) :
    CacheInv getProject [] :=
  fun _ => Or.inl (fun _ => rfl)

theorem updateVersionBuildVarMap_get (v n : String) (bvs : List BuildVariant)
    (m : GoMap versionBuildVariant BuildVariant) :
    (updateVersionBuildVarMap v bvs m).get? ⟨v, n⟩ =
      match bvs.reverse.find? (fun bv => bv.Name = n) with
      | some bv => some bv
      | none => m.get? ⟨v, n⟩ := by
  induction bvs generalizing m with
  | nil => rfl
  | cons bv rest ih =>
    rw [updateVersionBuildVarMap, ih, List.reverse_cons, List.find?_append]
    cases rest.reverse.find? (fun bv => decide (bv.Name = n)) with
    | some x => rfl
    | none =>
      by_cases hn : bv.Name = n
      · simp [GoMap.get?, GoMap.set, List.lookup_cons, hn]
      · have hk : ((⟨v, n⟩ : versionBuildVariant) == ⟨v, bv.Name⟩) = false :=
          beq_eq_false_iff_ne.mpr (by simp [Ne.symm hn])
        simp [GoMap.get?, GoMap.set, List.lookup_cons, hk, hn]

theorem resolveBuildVariant_eq (v n : String) (p : Project) :
    resolveBuildVariant v n p = specBuildVariant p n := by
  rw [resolveBuildVariant, updateVersionBuildVarMap_get, specBuildVariant]
  cases p.BuildVariants.reverse.find? (fun bv => decide (bv.Name = n)) <;> rfl

theorem taskGroupMap_get (n : String) (tgs : List TaskGroup) (m : GoMap String (List String)) :
    (taskGroupMap tgs m).get? n =
      match tgs.reverse.find? (fun tg => tg.Name = n) with
      | some tg => some tg.Tasks
      | none => m.get? n := by
  induction tgs generalizing m with
  | nil => rfl
  | cons tg rest ih =>
    rw [taskGroupMap, ih, List.reverse_cons, List.find?_append]
    cases rest.reverse.find? (fun tg => decide (tg.Name = n)) with
    | some x => rfl
    | none =>
      by_cases hn : tg.Name = n
      · simp [GoMap.get?, GoMap.set, List.lookup_cons, hn]
      · have hk : (n == tg.Name) = false := beq_eq_false_iff_ne.mpr (Ne.symm hn)
        simp [GoMap.get?, GoMap.set, List.lookup_cons, hk, hn]

theorem any_eq_decide_mem (l : List String) (s : String) :
    l.any (fun x => decide (x = s)) = decide (s ∈ l) := by
  induction l with
  | nil => rfl
  | cons a rest ih =>
    rw [List.any_cons, ih]
    by_cases h : a = s
    · simp [h]
    · simp [h, Ne.symm h]

theorem getDistrosForBuildVariant_eq (getProject : String → Except String Project)
    (t : Task) (bv : BuildVariant) (p : Project) :
    getDistrosForBuildVariant getProject t bv (some p) =
      match specMatchingEntry p bv t.DisplayName with
      | some e => .ok e.Distros
      | none => .error "no matching task found for buildvariant" := by
  simp only [getDistrosForBuildVariant, specMatchingEntry]
  cases bv.Tasks.find? (fun bvTask => decide (bvTask.Name = t.DisplayName)) with
  | some e => rfl
  | none =>
    simp only
    congr 2
    funext e
    rw [taskGroupMap_get, specGroupEntry, specTaskGroup]
    cases p.TaskGroups.reverse.find? (fun tg => decide (tg.Name = e.Name)) with
    | none => rfl
    | some tg => exact any_eq_decide_mem tg.Tasks t.DisplayName

theorem UniqueStrings_eq_nil (l : List String) : UniqueStrings l = [] ↔ l = [] := by
  cases l <;> simp [UniqueStrings]

/-- The list that `splitTasksByDistro` computes for a task is the list `E` of
the specification, up to the order of its members. -/
theorem eligibleDistros_spec (getProject : String → Except String Project) (t : Task) :
    (eligibleDistros getProject t = none ↔ specEligibleDistros getProject t = none) ∧
    (eligibleDistros getProject t = some [] ↔ specEligibleDistros getProject t = some []) ∧
    ∀ d, d ∈ (eligibleDistros getProject t).getD [] ↔
      d ∈ (specEligibleDistros getProject t).getD [] := by
  unfold eligibleDistros specEligibleDistros
  cases getProject t.Version with
  | error e => simp
  | ok p =>
    simp only [resolveBuildVariant_eq, getDistrosForBuildVariant_eq]
    cases specBuildVariant p t.BuildVariant with
    | none => simp
    | some bv =>
      simp only
      cases specMatchingEntry p bv t.DisplayName with
      | none => simp
      | some e =>
        simp only
        by_cases hnil : e.Distros = []
        · simp [hnil, mem_UniqueStrings, UniqueStrings_eq_nil]
        · simp [hnil, mem_UniqueStrings, UniqueStrings_eq_nil]

/-- C14: when `splitTasksByDistro` returns, a task whose project, build
variant and matching task entry resolve, with `E` the duplicate-free list of
its eligible distros (the distros of the matching entry when there are any,
otherwise the `RunOn` list of the build variant), stands in `tasksByDistro[d]`
as many times as in the input for every `d` in `E`, and not at all for a `d`
outside `E`; and the call does return when no task with an empty distro id has
an empty list `E`. -/
theorem splitTasksByDistro_placement (getProject : String → Except String Project)
    (SetDistro : Task → String → Option String) (tasksToSplit : List Task) :
    (∀ tasksByDistro taskRunDistros,
      splitTasksByDistro getProject SetDistro tasksToSplit =
        some (tasksByDistro, taskRunDistros) →
      ∀ t E, specEligibleDistros getProject t = some E →
        E.Nodup ∧
        ∀ d, (tasksByDistro.getD d).count t = if d ∈ E then tasksToSplit.count t else 0) ∧
    ((∀ t ∈ tasksToSplit, t.DistroId = "" → specEligibleDistros getProject t ≠ some []) →
      ∃ r, splitTasksByDistro getProject SetDistro tasksToSplit = some r) := by
  constructor
  · intro tbd trd h t E hE
    have hnd : E.Nodup := by
      unfold specEligibleDistros at hE
      split at hE
      · cases hE
      · split at hE
        · cases hE
        · split at hE
          · cases hE
          · cases hE
            exact List.nodup_dedup _
    refine ⟨hnd, fun d => ?_⟩
    simp only [splitTasksByDistro, Option.map_eq_some'] at h
    obtain ⟨st', hloop, hst'⟩ := h
    cases hst'
    rw [splitLoop_tasksByDistro getProject SetDistro tasksToSplit {} st'
      (CacheInv_nil getProject) hloop d]
    have h0 : (({} : SplitState).tasksByDistro).getD d = [] := rfl
    rw [h0, List.nil_append]
    have hmem := (eligibleDistros_spec getProject t).2.2 d
    rw [hE, Option.getD_some] at hmem
    by_cases hd : d ∈ E
    · rw [if_pos hd]
      exact List.count_filter (by simpa using hmem.mpr hd)
    · rw [if_neg hd]
      refine List.count_eq_zero.mpr (fun hin => ?_)
      have := (List.mem_filter.mp hin).2
      exact hd (hmem.mp (by simpa using this))
  · intro hall
    obtain ⟨st', h⟩ := splitLoop_returns getProject SetDistro tasksToSplit {}
      (CacheInv_nil getProject)
      (fun t ht hd hE => hall t ht hd ((eligibleDistros_spec getProject t).2.1.mp hE))
    exact ⟨(st'.tasksByDistro, st'.taskRunDistros),
      by simp only [splitTasksByDistro, h, Option.map_some']⟩

/-- C14 at two copies of the task `compile`, which the task group `tg` lists,
and one task `test` between them: the copies stand twice in the lists of `d1`
and of `d2`, the distros of the entry `tg`, and in no other list. -/
theorem splitTasksByDistro_placement_witness :
    specEligibleDistros exampleGroupProject (exampleTask "d1") = some ["d2", "d1"] ∧
    ∃ tasksByDistro taskRunDistros,
      splitTasksByDistro exampleGroupProject (fun _ _ => none)
          [exampleTask "d1", { exampleTask "" with Id := "t2", DisplayName := "test" },
            exampleTask "d1"] =
        some (tasksByDistro, taskRunDistros) ∧
      tasksByDistro.getD "d1" = [exampleTask "d1", exampleTask "d1"] ∧
      tasksByDistro.getD "d9" = [{ exampleTask "" with Id := "t2", DisplayName := "test" }] ∧
      ∀ d, (tasksByDistro.getD d).count (exampleTask "d1") =
        if d ∈ ["d2", "d1"] then
          [exampleTask "d1", { exampleTask "" with Id := "t2", DisplayName := "test" },
            exampleTask "d1"].count (exampleTask "d1")
        else 0 := by
  have hE : specEligibleDistros exampleGroupProject (exampleTask "d1") = some ["d2", "d1"] := by
    decide
  have hsplit : splitTasksByDistro exampleGroupProject (fun _ _ => none)
      [exampleTask "d1", { exampleTask "" with Id := "t2", DisplayName := "test" },
        exampleTask "d1"] =
      some ([("d2", [exampleTask "d1", exampleTask "d1"]),
             ("d1", [exampleTask "d1", exampleTask "d1"]),
             ("d9", [{ exampleTask "" with Id := "t2", DisplayName := "test" }]),
             ("d2", [exampleTask "d1"]), ("d1", [exampleTask "d1"])],
            [("t1", ["d1", "d2"]), ("t1", ["d1", "d2"])]) := by decide
  exact ⟨hE, _, _, hsplit, by decide, by decide,
    ((splitTasksByDistro_placement _ _ _).1 _ _ hsplit (exampleTask "d1") ["d2", "d1"] hE).2⟩

/-- C15: at a task with no distro id that is eligible for `d1` and `d2`, when
the backfill `SetDistro` fails the task stands in the lists of `d1` and of
`d2` and `taskRunDistros` has no entry for it; when the backfill succeeds the
entry is `[d1, d2]`. -/
theorem splitTasksByDistro_backfill_failure :
    splitTasksByDistro
        (exampleProject { Name := "bv", RunOn := ["d1", "d2"], Tasks := [{ Name := "compile" }] })
        (fun _ _ => some "write failed") [exampleTask ""] =
      some ([("d2", [exampleTask ""]), ("d1", [exampleTask ""])], []) ∧
    splitTasksByDistro
        (exampleProject { Name := "bv", RunOn := ["d1", "d2"], Tasks := [{ Name := "compile" }] })
        (fun _ _ => none) [exampleTask ""] =
      some ([("d2", [exampleTask ""]), ("d1", [exampleTask ""])], [("t1", ["d1", "d2"])]) := by
  constructor <;> decide

/-- C16: at a task with no distro id whose task entry has no distros and
whose build variant has an empty `RunOn`, `splitTasksByDistro` panics on
`distrosToUse[0]`, also when the task follows a task that runs on `d1`; with
a distro id the same task is dropped and the other task is placed. -/
theorem splitTasksByDistro_empty_eligible :
    eligibleDistros
        (exampleProject { Name := "bv", RunOn := [],
                          Tasks := [{ Name := "compile" }, { Name := "test", Distros := ["d1"] }] })
        (exampleTask "") = some [] ∧
    splitTasksByDistro
        (exampleProject { Name := "bv", RunOn := [],
                          Tasks := [{ Name := "compile" }, { Name := "test", Distros := ["d1"] }] })
        (fun _ _ => none) [exampleTask ""] = none ∧
    splitTasksByDistro
        (exampleProject { Name := "bv", RunOn := [],
                          Tasks := [{ Name := "compile" }, { Name := "test", Distros := ["d1"] }] })
        (fun _ _ => none)
        [{ exampleTask "d1" with Id := "t2", DisplayName := "test" }, exampleTask ""] = none ∧
    splitTasksByDistro
        (exampleProject { Name := "bv", RunOn := [],
                          Tasks := [{ Name := "compile" }, { Name := "test", Distros := ["d1"] }] })
        (fun _ _ => none)
        [{ exampleTask "d1" with Id := "t2", DisplayName := "test" }, exampleTask "d9"] =
      some ([("d1", [{ exampleTask "d1" with Id := "t2", DisplayName := "test" }])], []) := by
  refine ⟨by decide, by decide, by decide, by decide⟩


theorem FindOneDistro_id (distros : List Distro) (distroId : String) (d : Distro)
    (h : FindOneDistro distros distroId = .ok d) : d.Id = distroId := by
  unfold FindOneDistro at h
  cases hf : distros.find? (fun d => decide (d.Id = distroId)) with
  | none => simp [hf] at h
  | some d' =>
    simp only [hf, Except.ok.injEq] at h
    subst h
    simpa using List.find?_some hf

theorem Insert_cases (db : DB) (h : Host) :
    (∃ err, Insert db h =
      ({ db with events := db.events ++ [.HostCreated h.Id] }, some err)) ∨
      Insert db h =
        ({ db with hosts := db.hosts ++ [h], events := db.events ++ [.HostCreated h.Id] },
          none) := by
  unfold Insert dbInsert LogHostCreated
  cases db.ioError with
  | some e => exact Or.inl ⟨e, rfl⟩
  | none =>
    simp only
    split
    · exact Or.inl ⟨_, rfl⟩
    · exact Or.inr rfl

theorem Insert_hosts_of_error (db db' : DB) (h : Host) (err : String)
    (hins : Insert db h = (db', some err)) :
    db'.hosts = db.hosts ∧ db'.events = db.events ++ [.HostCreated h.Id] := by
  rcases Insert_cases db h with ⟨e, hi⟩ | hi
  · rw [hi] at hins
    cases hins
    exact ⟨rfl, rfl⟩
  · rw [hi] at hins
    cases hins

/-- What one iteration of the inner loop of `spawnHosts` does to the store:
nothing, or, the distro being found below its pool size, the insertion of one
intent of the distro, which is logged and either refused, with an error
returned, or made. -/
theorem spawnIteration_db (distros : List Distro) (canceled : Nat → Bool)
    (GenerateName : Distro → Nat → String) (distroId : String) (st : SpawnState) :
    (spawnIteration distros canceled GenerateName distroId st).1.db = st.db ∨
    ∃ d allDistroHosts, FindOneDistro distros distroId = .ok d ∧
      FindByDistroId st.db distroId = .ok allDistroHosts ∧
      (allDistroHosts.length : Int) < d.PoolSize ∧
      (((spawnIteration distros canceled GenerateName distroId st).1.db =
          { st.db with events := st.db.events ++ [.HostCreated (GenerateName d st.tick)] } ∧
        (spawnIteration distros canceled GenerateName distroId st).2 ≠ none) ∨
       (spawnIteration distros canceled GenerateName distroId st).1.db =
          { st.db with
              hosts := st.db.hosts ++ [NewIntent d (GenerateName d st.tick)]
              events := st.db.events ++ [.HostCreated (GenerateName d st.tick)] }) := by
  unfold spawnIteration
  by_cases hc : canceled st.tick = true
  · simp [hc]
  · simp only [hc, Bool.false_eq_true, if_false]
    cases hd : FindOneDistro distros distroId with
    | error e => simp
    | ok d =>
      simp only
      cases hf : FindByDistroId st.db distroId with
      | error e => simp
      | ok hosts =>
        simp only
        by_cases hp : (hosts.length : Int) ≥ d.PoolSize
        · simp [hp]
        · simp only [hp, if_false]
          right
          refine ⟨d, hosts, rfl, rfl, by omega, ?_⟩
          rcases Insert_cases st.db (NewIntent d (GenerateName d st.tick)) with ⟨err, hi⟩ | hi
          · left
            rw [hi]
            exact ⟨rfl, by simp⟩
          · right
            rw [hi]
            rfl

theorem hostCount_append (db db' : DB) (h : Host) (distroId : String)
    (hdb : db'.hosts = db.hosts ++ [h]) :
    hostCount db' distroId =
      hostCount db distroId + (if h.Distro.Id = distroId then 1 else 0) := by
  simp only [hostCount, hdb, List.filter_append, List.length_append]
  by_cases hh : h.Distro.Id = distroId <;> simp [List.filter_cons, hh]

theorem spawnIteration_bound (distros : List Distro) (canceled : Nat → Bool)
    (GenerateName : Distro → Nat → String) (distroId id : String) (st : SpawnState) (B : Int)
    (hB : ∀ d, FindOneDistro distros id = .ok d → d.PoolSize ≤ B)
    (h : (hostCount st.db id : Int) ≤ B) :
    (hostCount (spawnIteration distros canceled GenerateName distroId st).1.db id : Int) ≤ B := by
  rcases spawnIteration_db distros canceled GenerateName distroId st with
    hsame | ⟨d, hosts, hd, hf, hlt, ⟨hdb, _⟩ | hdb⟩
  · rw [hsame]; exact h
  · rw [hdb]; exact h
  · rw [hostCount_append st.db _ (NewIntent d (GenerateName d st.tick)) id (by rw [hdb])]
    have hid := FindOneDistro_id distros distroId d hd
    by_cases he : distroId = id
    · subst he
      have hlen : hosts.length = hostCount st.db distroId := by
        unfold FindByDistroId at hf
        cases hio : st.db.ioError with
        | some e => simp [hio] at hf
        | none =>
          simp only [hio, Except.ok.injEq] at hf
          rw [← hf]; rfl
      have := hB d hd
      simp only [NewIntent, hid, if_true]
      push_cast
      omega
    · have : ¬ (NewIntent d (GenerateName d st.tick)).Distro.Id = id := by
        simp only [NewIntent, hid]; exact he
      simp only [this, if_false, Nat.add_zero]
      exact h

theorem spawnLoop_bound (distros : List Distro) (canceled : Nat → Bool)
    (GenerateName : Distro → Nat → String) (distroId id : String) (B : Int)
    (hB : ∀ d, FindOneDistro distros id = .ok d → d.PoolSize ≤ B) (n : Nat) :
    ∀ st : SpawnState, (hostCount st.db id : Int) ≤ B →
      (hostCount (spawnLoop distros canceled GenerateName distroId n st).1.db id : Int) ≤ B := by
  induction n with
  | zero => intro st h; exact h
  | succ n ih =>
    intro st h
    have h1 := spawnIteration_bound distros canceled GenerateName distroId id st B hB h
    simp only [spawnLoop]
    cases hi : spawnIteration distros canceled GenerateName distroId st with
    | mk st1 e =>
      rw [hi] at h1
      cases e with
      | some err => exact h1
      | none => exact ih st1 h1

theorem spawnDistros_bound (distros : List Distro) (canceled : Nat → Bool)
    (GenerateName : Distro → Nat → String) (id : String) (B : Int)
    (hB : ∀ d, FindOneDistro distros id = .ok d → d.PoolSize ≤ B)
    (newHostsNeeded : List (String × Int)) :
    ∀ st : SpawnState, (hostCount st.db id : Int) ≤ B →
      (hostCount (spawnDistros distros canceled GenerateName newHostsNeeded st).1.db id : Int)
        ≤ B := by
  induction newHostsNeeded with
  | nil => intro st h; exact h
  | cons e rest ih =>
    intro st h
    obtain ⟨distroId, n⟩ := e
    simp only [spawnDistros]
    by_cases h0 : n = 0
    · simp only [h0, if_true]; exact ih st h
    · simp only [h0, if_false]
      by_cases hneg : n < 0
      · simp only [hneg, if_true]; exact h
      · simp only [hneg, if_false]
        have h1 := spawnLoop_bound distros canceled GenerateName distroId id B hB n.toNat
          { st with hostsSpawnedPerDistro := st.hostsSpawnedPerDistro.set distroId [] } h
        cases hl : spawnLoop distros canceled GenerateName distroId n.toNat
            { st with hostsSpawnedPerDistro := st.hostsSpawnedPerDistro.set distroId [] } with
        | mk st1 e =>
          rw [hl] at h1
          cases e with
          | some err => exact h1
          | none =>
            simp only
            apply ih
            split <;> exact h1

theorem spawnHosts_db (distros : List Distro) (canceled : Nat → Bool)
    (GenerateName : Distro → Nat → String) (newHostsNeeded : List (String × Int)) (db : DB) :
    (spawnHosts distros canceled GenerateName newHostsNeeded db).1 =
      (spawnDistros distros canceled GenerateName newHostsNeeded { db := db }).1.db := by
  unfold spawnHosts
  cases spawnDistros distros canceled GenerateName newHostsNeeded { db := db } with
  | mk st e => cases e <;> rfl

/-- C17: an iteration of `spawnHosts` leaves the store as it is, or else the
distro was found, the hosts of the distro that the store returned in that
iteration are fewer than the distro's `PoolSize`, and the insertion of one
intent of the distro was logged and either refused, the iteration ending with
an error, or made; hence after `spawnHosts`, whatever counts are requested and
however the call ends, the number of hosts of a distro is at most the larger
of its `PoolSize` and its number of hosts before the call. -/
theorem spawnHosts_pool_size (distros : List Distro) (canceled : Nat → Bool)
    (GenerateName : Distro → Nat → String) :
    (∀ (distroId : String) (st : SpawnState),
      (spawnIteration distros canceled GenerateName distroId st).1.db = st.db ∨
      ∃ d allDistroHosts, FindOneDistro distros distroId = .ok d ∧
        FindByDistroId st.db distroId = .ok allDistroHosts ∧
        (allDistroHosts.length : Int) < d.PoolSize ∧
        (((spawnIteration distros canceled GenerateName distroId st).1.db =
            { st.db with events := st.db.events ++ [.HostCreated (GenerateName d st.tick)] } ∧
          (spawnIteration distros canceled GenerateName distroId st).2 ≠ none) ∨
         (spawnIteration distros canceled GenerateName distroId st).1.db =
            { st.db with
                hosts := st.db.hosts ++ [NewIntent d (GenerateName d st.tick)]
                events := st.db.events ++ [.HostCreated (GenerateName d st.tick)] })) ∧
    (∀ (newHostsNeeded : List (String × Int)) (db : DB) (d : Distro),
      FindOneDistro distros d.Id = .ok d →
      (hostCount (spawnHosts distros canceled GenerateName newHostsNeeded db).1 d.Id : Int) ≤
        max d.PoolSize (hostCount db d.Id)) := by
  refine ⟨spawnIteration_db distros canceled GenerateName, fun needed db d hd => ?_⟩
  rw [spawnHosts_db]
  apply spawnDistros_bound distros canceled GenerateName d.Id _ _ needed { db := db }
  · exact le_max_right _ _
  · intro d' hd'
    rw [hd] at hd'
    cases hd'
    exact le_max_left _ _

/-- C17 at the distro `d1` with pool size 2 and an empty store, for 3 hosts
requested: 2 intents are inserted, and the third iteration leaves the store
as it is. -/
theorem spawnHosts_pool_size_witness :
    FindOneDistro [{ Id := "d1", PoolSize := 2 }] "d1" = .ok { Id := "d1", PoolSize := 2 } ∧
    (spawnHosts [{ Id := "d1", PoolSize := 2 }] (fun _ => false)
      (fun d n => d.Id ++ "-" ++ toString n) [("d1", 3)] {}).1 =
      { hosts := [NewIntent { Id := "d1", PoolSize := 2 } "d1-0",
                  NewIntent { Id := "d1", PoolSize := 2 } "d1-1"],
        events := [.HostCreated "d1-0", .HostCreated "d1-1"] } ∧
    (hostCount (spawnHosts [{ Id := "d1", PoolSize := 2 }] (fun _ => false)
      (fun d n => d.Id ++ "-" ++ toString n) [("d1", 3)] {}).1 "d1" : Int) ≤
      max 2 (hostCount {} "d1") :=
  ⟨by decide, by decide,
    (spawnHosts_pool_size [{ Id := "d1", PoolSize := 2 }] (fun _ => false)
      (fun d n => d.Id ++ "-" ++ toString n)).2 [("d1", 3)] {} { Id := "d1", PoolSize := 2 }
      (by decide)⟩

theorem spawnLoop_add (distros : List Distro) (canceled : Nat → Bool)
    (GenerateName : Distro → Nat → String) (distroId : String) (j m : Nat) :
    ∀ st : SpawnState,
      spawnLoop distros canceled GenerateName distroId (j + m) st =
        match spawnLoop distros canceled GenerateName distroId j st with
        | (st', none) => spawnLoop distros canceled GenerateName distroId m st'
        | (st', some err) => (st', some err) := by
  induction j with
  | zero => intro st; simp [spawnLoop]
  | succ j ih =>
    intro st
    rw [show j + 1 + m = (j + m) + 1 by omega]
    simp only [spawnLoop]
    cases hi : spawnIteration distros canceled GenerateName distroId st with
    | mk st1 e =>
      cases e with
      | some err => rfl
      | none => exact ih st1

theorem spawnDistros_append (distros : List Distro) (canceled : Nat → Bool)
    (GenerateName : Distro → Nat → String) (pre rest : List (String × Int)) :
    ∀ st st1 : SpawnState,
      spawnDistros distros canceled GenerateName pre st = (st1, .done) →
      spawnDistros distros canceled GenerateName (pre ++ rest) st =
        spawnDistros distros canceled GenerateName rest st1 := by
  induction pre with
  | nil =>
    intro st st1 h
    simp only [spawnDistros, Prod.mk.injEq, and_true] at h
    subst h
    rfl
  | cons e pre ih =>
    intro st st1 h
    obtain ⟨distroId, n⟩ := e
    simp only [List.cons_append, spawnDistros] at h ⊢
    by_cases h0 : n = 0
    · simp only [h0, if_true] at h ⊢
      exact ih st st1 h
    · simp only [h0, if_false] at h ⊢
      by_cases hneg : n < 0
      · simp [hneg] at h
      · simp only [hneg, if_false] at h ⊢
        cases hl : spawnLoop distros canceled GenerateName distroId n.toNat
            { st with hostsSpawnedPerDistro := st.hostsSpawnedPerDistro.set distroId [] } with
        | mk st2 e =>
          rw [hl] at h
          cases e with
          | some err => simp at h
          | none =>
            simp only at h ⊢
            exact ih _ st1 h

/-- C18 as amended: when the store refuses the insertion of an intent, after
any distros `pre` that were gone through and any `j` earlier iterations for
the distro, `spawnHosts` returns at once the wrapped error of the insertion
and no map: the iterations left for the distro and the distros `rest` are not
gone through, and the store is as the failed insertion left it, with the
hosts it held before that insertion and the event of the creation logged. -/
theorem spawnHosts_insert_failure (distros : List Distro) (canceled : Nat → Bool)
    (GenerateName : Distro → Nat → String) (pre rest : List (String × Int))
    (distroId : String) (numHostsToSpawn : Int) (db db' : DB) (st1 stj : SpawnState)
    (j : Nat) (d : Distro) (allDistroHosts : List Host) (err : String)
    (hpre : spawnDistros distros canceled GenerateName pre { db := db } = (st1, .done))
    (hj : (j : Int) < numHostsToSpawn)
    (hloop : spawnLoop distros canceled GenerateName distroId j
      { st1 with hostsSpawnedPerDistro := st1.hostsSpawnedPerDistro.set distroId [] } =
      (stj, none))
    (hctx : canceled stj.tick = false)
    (hd : FindOneDistro distros distroId = .ok d)
    (hf : FindByDistroId stj.db distroId = .ok allDistroHosts)
    (hpool : (allDistroHosts.length : Int) < d.PoolSize)
    (hins : Insert stj.db (NewIntent d (GenerateName d stj.tick)) = (db', some err)) :
    spawnHosts distros canceled GenerateName (pre ++ (distroId, numHostsToSpawn) :: rest) db =
      (db', some (.error
        (Wrap err
          ("Could not insert intent host \x27" ++ GenerateName d stj.tick ++ "\x27")))) ∧
    db'.hosts = stj.db.hosts ∧
    db'.events = stj.db.events ++ [.HostCreated (GenerateName d stj.tick)] := by
  refine ⟨?_, Insert_hosts_of_error stj.db db' _ err hins⟩
  have hiter : spawnIteration distros canceled GenerateName distroId stj =
      ({ stj with tick := stj.tick + 1, db := db' },
        some (Wrap err
          ("Could not insert intent host \x27" ++ GenerateName d stj.tick ++ "\x27"))) := by
    have hp : ¬ (allDistroHosts.length : Int) ≥ d.PoolSize := by omega
    simp only [spawnIteration, hctx, Bool.false_eq_true, if_false, hd, hf, hp, hins]
    rfl
  obtain ⟨m, hm⟩ : ∃ m, numHostsToSpawn.toNat = j + (m + 1) :=
    ⟨numHostsToSpawn.toNat - j - 1, by omega⟩
  have hl : spawnLoop distros canceled GenerateName distroId numHostsToSpawn.toNat
      { st1 with hostsSpawnedPerDistro := st1.hostsSpawnedPerDistro.set distroId [] } =
      ({ stj with tick := stj.tick + 1, db := db' },
        some (Wrap err
          ("Could not insert intent host \x27" ++ GenerateName d stj.tick ++ "\x27"))) := by
    rw [hm, spawnLoop_add, hloop]
    simp only [spawnLoop, hiter]
  have h0 : ¬ numHostsToSpawn = 0 := by omega
  have hneg : ¬ numHostsToSpawn < 0 := by omega
  unfold spawnHosts
  rw [spawnDistros_append distros canceled GenerateName pre _ _ st1 hpre]
  simp only [spawnDistros, h0, hneg, if_false, hl]

/-- C18 as amended, at the distros `d1` and `d2` over an empty store, two
hosts requested for `d1` and one for `d2`, when the second name drawn for `d1`
is the first one again: the error is returned, and the store holds the first
intent of `d1` and the two events. -/
theorem spawnHosts_insert_failure_witness :
    spawnHosts [{ Id := "d1", PoolSize := 5 }, { Id := "d2", PoolSize := 5 }]
        (fun _ => false) (fun d _ => d.Id ++ "-host") [("d1", 2), ("d2", 1)] {} =
      ({ hosts := [NewIntent { Id := "d1", PoolSize := 5 } "d1-host"],
         events := [.HostCreated "d1-host", .HostCreated "d1-host"] },
        some (.error (Wrap "duplicate key"
          ("Could not insert intent host \x27" ++ "d1-host" ++ "\x27")))) :=
  (spawnHosts_insert_failure [{ Id := "d1", PoolSize := 5 }, { Id := "d2", PoolSize := 5 }]
    (fun _ => false) (fun d _ => d.Id ++ "-host") [] [("d2", 1)] "d1" 2
    {}
    { hosts := [NewIntent { Id := "d1", PoolSize := 5 } "d1-host"],
      events := [.HostCreated "d1-host", .HostCreated "d1-host"] }
    { db := {} }
    { db := { hosts := [NewIntent { Id := "d1", PoolSize := 5 } "d1-host"],
              events := [.HostCreated "d1-host"] },
      hostsSpawnedPerDistro :=
        [("d1", [NewIntent { Id := "d1", PoolSize := 5 } "d1-host"]), ("d1", [])],
      tick := 1 }
    1 { Id := "d1", PoolSize := 5 } [NewIntent { Id := "d1", PoolSize := 5 } "d1-host"]
    "duplicate key"
    rfl (by decide) (by decide) rfl (by decide) (by decide) (by decide) (by decide)).1

/-- C18 fails at the distros `d1` and `d2` over an empty store, two hosts
requested for `d1` and one for `d2`, when the second name drawn for `d1` is
the first one again: `spawnHosts` returns an error and no map, so the intent
of `d1` that it created is not reported, and no host of `d2` is spawned, while
for `d2` alone the host is spawned and reported. -/
theorem spawnHosts_insert_failure_counterexample :
    spawnHosts [{ Id := "d1", PoolSize := 5 }, { Id := "d2", PoolSize := 5 }]
        (fun _ => false) (fun d _ => d.Id ++ "-host") [("d1", 2), ("d2", 1)] {} =
      ({ hosts := [NewIntent { Id := "d1", PoolSize := 5 } "d1-host"],
         events := [.HostCreated "d1-host", .HostCreated "d1-host"] },
        some (.error (Wrap "duplicate key" "Could not insert intent host \x27d1-host\x27"))) ∧
    spawnHosts [{ Id := "d1", PoolSize := 5 }, { Id := "d2", PoolSize := 5 }]
        (fun _ => false) (fun d _ => d.Id ++ "-host") [("d2", 1)] {} =
      ({ hosts := [NewIntent { Id := "d2", PoolSize := 5 } "d2-host"],
         events := [.HostCreated "d2-host"] },
        some (.ok [("d2", [NewIntent { Id := "d2", PoolSize := 5 } "d2-host"]),
                   ("d2", [])])) := by
  constructor <;> decide

/-- C28: for a host with `UserHost` set, in every mode of the manager and
whatever the price fetcher, the catalog fetch and the client would give,
`getProvider` returns the on-demand provider, the provider of the host's
distro is the on-demand name after the call, nothing else of the host is
changed, and the settings and the price fetcher are as they were. -/
theorem getProvider_userHost (env : Env) (m : ec2Manager) (cpf : cachingPriceFetcher)
    (fetched : Except String Details) (h : Host) (ec2settings : EC2ProviderSettings)
    (hUser : h.UserHost = true) :
    (getProvider env m cpf fetched h ec2settings).result = some (.ok .onDemandProvider) ∧
    (getProvider env m cpf fetched h ec2settings).h.Distro.Provider =
      env.ProviderNameEc2OnDemand ∧
    (getProvider env m cpf fetched h ec2settings).h =
      { h with Distro := { h.Distro with Provider := env.ProviderNameEc2OnDemand } } ∧
    (getProvider env m cpf fetched h ec2settings).ec2settings = ec2settings ∧
    (getProvider env m cpf fetched h ec2settings).cpf = cpf := by
  simp [getProvider, hUser, withProvider]

/-- C28 at a user host of a distro with the provider `static`, under a
manager forced to spot, with a client that fails every call. -/
theorem getProvider_userHost_witness :
    (getProvider exampleEnv
        ⟨.spotProvider, ⟨fun _ _ => .error "down", fun _ => .error "down",
          fun _ _ _ => .error "down"⟩⟩
        {} (.error "down")
        { Id := "h1", UserHost := true, Distro := { Id := "d1", Provider := "static" } }
        { InstanceType := "m3.large" }).result = some (.ok .onDemandProvider) ∧
    (getProvider exampleEnv
        ⟨.spotProvider, ⟨fun _ _ => .error "down", fun _ => .error "down",
          fun _ _ _ => .error "down"⟩⟩
        {} (.error "down")
        { Id := "h1", UserHost := true, Distro := { Id := "d1", Provider := "static" } }
        { InstanceType := "m3.large" }).h.Distro.Provider = "ec2-ondemand" :=
  ⟨(getProvider_userHost exampleEnv _ {} (.error "down")
      { Id := "h1", UserHost := true, Distro := { Id := "d1", Provider := "static" } }
      { InstanceType := "m3.large" } rfl).1,
    (getProvider_userHost exampleEnv _ {} (.error "down")
      { Id := "h1", UserHost := true, Distro := { Id := "d1", Provider := "static" } }
      { InstanceType := "m3.large" } rfl).2.1⟩

theorem lowestSpotLoop_zone (prices : List SpotPrice) :
    ∀ (min : ℚ) (az : String), (∀ s ∈ prices, ∃ p, s.SpotPrice = some p) →
      ∃ m az', lowestSpotLoop prices min az = .ok (m, az') ∧
        ((m = min ∧ az' = az) ∨
          ∃ s ∈ prices, s.SpotPrice = some m ∧ s.AvailabilityZone = az') := by
  induction prices with
  | nil =>
    intro min az _
    exact ⟨min, az, rfl, Or.inl ⟨rfl, rfl⟩⟩
  | cons s rest ih =>
    intro min az hall
    obtain ⟨p, hp⟩ := hall s (by simp)
    have hrest : ∀ s ∈ rest, ∃ p, s.SpotPrice = some p :=
      fun x hx => hall x (List.mem_cons_of_mem _ hx)
    simp only [lowestSpotLoop, hp]
    by_cases hc : min = 0 ∨ p < min
    · rw [if_pos hc]
      obtain ⟨m, az', h1, h2⟩ := ih p s.AvailabilityZone hrest
      refine ⟨m, az', h1, Or.inr ?_⟩
      rcases h2 with ⟨rfl, rfl⟩ | ⟨x, hx, hx1, hx2⟩
      · exact ⟨s, by simp, hp, rfl⟩
      · exact ⟨x, List.mem_cons_of_mem _ hx, hx1, hx2⟩
    · rw [if_neg hc]
      obtain ⟨m, az', h1, h2⟩ := ih min az hrest
      refine ⟨m, az', h1, ?_⟩
      rcases h2 with h2 | ⟨x, hx, hx1, hx2⟩
      · exact Or.inl h2
      · exact Or.inr ⟨x, List.mem_cons_of_mem _ hx, hx1, hx2⟩

/-- C29: when the client answers a non-empty list of samples whose prices all
parse, `getLatestLowestSpotCostForInstance` returns a price and a zone that
are the price and the zone of one sample of the list. -/
theorem getLatestLowestSpotCostForInstance_zone (client : AWSClient)
    (settings : EC2ProviderSettings) (os : String) (prices : List SpotPrice)
    (hdesc : client.DescribeSpotPriceHistory settings.InstanceType
      (if settings.IsVpc then os ++ " (Amazon VPC)" else os) = .ok prices)
    (hne : prices ≠ []) (hall : ∀ s ∈ prices, ∃ p, s.SpotPrice = some p) :
    ∃ m az, getLatestLowestSpotCostForInstance client settings os = .ok (m, az) ∧
      ∃ s ∈ prices, s.SpotPrice = some m ∧ s.AvailabilityZone = az := by
  cases prices with
  | nil => exact absurd rfl hne
  | cons s rest =>
    obtain ⟨p, hp⟩ := hall s (by simp)
    obtain ⟨m, az, h1, h2⟩ := lowestSpotLoop_zone rest p s.AvailabilityZone
      (fun x hx => hall x (List.mem_cons_of_mem _ hx))
    refine ⟨m, az, ?_, ?_⟩
    · simp [getLatestLowestSpotCostForInstance, hdesc, lowestSpotLoop, hp, h1]
    · rcases h2 with ⟨rfl, rfl⟩ | ⟨x, hx, hx1, hx2⟩
      · exact ⟨s, by simp, hp, rfl⟩
      · exact ⟨x, List.mem_cons_of_mem _ hx, hx1, hx2⟩

/-- C29 at the samples `[0, 5, 3]` of the zones `a`, `b`, `c`. -/
theorem getLatestLowestSpotCostForInstance_zone_witness :
    ∃ m az, getLatestLowestSpotCostForInstance
        (exampleClient [⟨0, some 0, "a"⟩, ⟨0, some 5, "b"⟩, ⟨0, some 3, "c"⟩] (.ok []))
        {} "Linux/UNIX" = .ok (m, az) ∧
      ∃ s ∈ ([⟨0, some 0, "a"⟩, ⟨0, some 5, "b"⟩, ⟨0, some 3, "c"⟩] : List SpotPrice),
        s.SpotPrice = some m ∧ s.AvailabilityZone = az :=
  getLatestLowestSpotCostForInstance_zone _ {} "Linux/UNIX"
    [⟨0, some 0, "a"⟩, ⟨0, some 5, "b"⟩, ⟨0, some 3, "c"⟩] rfl (by simp) (by simp)

/-- C21: `UpdateRunningTask` returns `false` and an error, with the store as
it was, for the nil task and for a task with an empty id; for another task it
returns `true` and no error when the update of the store succeeds, `false`
and no error when the update fails with a duplicate-key error, and `false`
and an error when it fails otherwise. -/
theorem UpdateRunningTask_results (IsDup : String → Bool) (db : DB) (h : Host) :
    (∃ msg, UpdateRunningTask IsDup db h none = (false, ⟨h, db, some msg⟩)) ∧
    (∀ t : Task, t.Id = "" →
      ∃ msg, UpdateRunningTask IsDup db h (some t) = (false, ⟨h, db, some msg⟩)) ∧
    (∀ t : Task, t.Id ≠ "" →
      match (UpdateOne db (fun d => d.Id = h.Id) (setRunningTask t)).2 with
      | none =>
        (UpdateRunningTask IsDup db h (some t)).1 = true ∧
          (UpdateRunningTask IsDup db h (some t)).2.err = none
      | some err =>
        (UpdateRunningTask IsDup db h (some t)).1 = false ∧
          (IsDup err = true → (UpdateRunningTask IsDup db h (some t)).2.err = none) ∧
          (IsDup err = false →
            ∃ msg, (UpdateRunningTask IsDup db h (some t)).2.err = some msg)) := by
  refine ⟨⟨"received nil task, cannot update", rfl⟩,
    fun t ht => ⟨"task has empty task ID, cannot update",
      by simp only [UpdateRunningTask, ht, if_true]⟩,
    fun t ht => ?_⟩
  cases hu : (UpdateOne db (fun d => decide (d.Id = h.Id)) (setRunningTask t)).2 with
  | none => simp [UpdateRunningTask, ht, hu]
  | some err =>
    by_cases hd : IsDup err = true
    · simp [UpdateRunningTask, ht, hu, hd]
    · simp [UpdateRunningTask, ht, hu, hd]

/-- C21 at the host `h1`: the task `t1` over a store that holds the host, over
a store that refuses the update with a duplicate-key error and over a store
that does not hold the host, and a task with an empty id. -/
theorem UpdateRunningTask_results_witness :
    UpdateRunningTask (fun err => err = "E11000 duplicate key") { hosts := [{ Id := "h1" }] }
        { Id := "h1" } (some { Id := "t1", Version := "v1" }) =
      (true, ⟨{ Id := "h1" },
        { hosts := [{ Id := "h1", RunningTask := "t1", RunningTaskVersion := "v1" }],
          events := [.HostRunningTaskSet "h1" "t1"] }, none⟩) ∧
    UpdateRunningTask (fun err => err = "E11000 duplicate key")
        { hosts := [{ Id := "h1" }], ioError := some "E11000 duplicate key" }
        { Id := "h1" } (some { Id := "t1", Version := "v1" }) =
      (false, ⟨{ Id := "h1" },
        { hosts := [{ Id := "h1" }], ioError := some "E11000 duplicate key" }, none⟩) ∧
    (UpdateRunningTask (fun err => err = "E11000 duplicate key") {}
        { Id := "h1" } (some { Id := "t1", Version := "v1" })).2.err =
      some (Wrap ErrNotFound "error updating running task t1 for host h1") ∧
    ∃ msg, UpdateRunningTask (fun err => err = "E11000 duplicate key")
        { hosts := [{ Id := "h1" }] } { Id := "h1" } (some { Id := "" }) =
      (false, ⟨{ Id := "h1" }, { hosts := [{ Id := "h1" }] }, some msg⟩) :=
  ⟨by decide, by decide, by decide,
    (UpdateRunningTask_results (fun err => err = "E11000 duplicate key")
      { hosts := [{ Id := "h1" }] } { Id := "h1" }).2.1 { Id := "" } rfl⟩

/-- C22: at the host `h1` with the flag set, held by the store,
`SetNeedsNewAgent(false)` succeeds and writes `false` to the store, and the
flag in memory is `true`; `SetNeedsNewAgent(true)` leaves both `true`, and a
failed update leaves the host in memory as it was. -/
theorem SetNeedsNewAgent_false :
    SetNeedsNewAgent { hosts := [{ Id := "h1", NeedsNewAgent := true }] }
        { Id := "h1", NeedsNewAgent := true } false =
      ⟨{ Id := "h1", NeedsNewAgent := true },
        { hosts := [{ Id := "h1", NeedsNewAgent := false }] }, none⟩ ∧
    SetNeedsNewAgent { hosts := [{ Id := "h1" }] } { Id := "h1" } false =
      ⟨{ Id := "h1", NeedsNewAgent := true },
        { hosts := [{ Id := "h1", NeedsNewAgent := false }] }, none⟩ ∧
    SetNeedsNewAgent { hosts := [{ Id := "h1" }] } { Id := "h1" } true =
      ⟨{ Id := "h1", NeedsNewAgent := true },
        { hosts := [{ Id := "h1", NeedsNewAgent := true }] }, none⟩ ∧
    SetNeedsNewAgent {} { Id := "h1" } true = ⟨{ Id := "h1" }, {}, some ErrNotFound⟩ := by
  refine ⟨by decide, by decide, by decide, by decide⟩

/-- C23: at the host `h1` running the task `t1` of the version `v1` and the
project `p1`, `ClearRunningAndSetLastTask` succeeds, clears the running-task
fields and writes `LastProject = p1` to the store, and `LastProject` in memory
is the version `v1`; a failed update leaves the host in memory as it was. -/
theorem ClearRunningAndSetLastTask_lastProject :
    ClearRunningAndSetLastTask
        { hosts := [{ Id := "h1", RunningTask := "t1", RunningTaskVersion := "v1",
                      RunningTaskProject := "p1" }] } 7
        { Id := "h1", RunningTask := "t1", RunningTaskVersion := "v1",
          RunningTaskProject := "p1" }
        { Id := "t1", TaskGroup := "g1", BuildVariant := "bv", Version := "v1",
          Project := "p1" } =
      ⟨{ Id := "h1", LastTask := "t1", LastGroup := "g1", LastBuildVariant := "bv",
         LastVersion := "v1", LastProject := "v1" },
        { hosts := [{ Id := "h1", LastTask := "t1", LastGroup := "g1",
                      LastBuildVariant := "bv", LastVersion := "v1", LastProject := "p1",
                      LastTaskCompletedTime := 7 }],
          events := [.HostRunningTaskCleared "h1" "t1"] }, none⟩ ∧
    ClearRunningAndSetLastTask {} 7 { Id := "h1", RunningTask := "t1" }
        { Id := "t1", Version := "v1", Project := "p1" } =
      ⟨{ Id := "h1", RunningTask := "t1" }, {}, some ErrNotFound⟩ := by
  refine ⟨by decide, by decide⟩

theorem cacheEBSPrices_failure (env : EBSEnv) (cpf : cachingPriceFetcher)
    (fetched : Except String String) (err : String)
    (h : (cacheEBSPrices env cpf fetched).2 = some err) :
    (cacheEBSPrices env cpf fetched).1 = cpf := by
  unfold cacheEBSPrices at h ⊢
  cases fetched with
  | error e => rfl
  | ok data =>
    simp only at h ⊢
    cases hf : env.findPriceJSON data with
    | none => rfl
    | some matched =>
      simp only [hf] at h ⊢
      cases hp : env.parseJSON matched with
      | error e => rfl
      | ok regions =>
        simp only [hp] at h ⊢
        by_cases hl : (ebsRegions regions []).length = 0
        · simp only [hl, if_true]
        · simp [hl] at h

/-- C24: when the fill of the storage prices fails inside `ebsCost`, the call
returns the error and the fetcher stays as it was, `ebsPrices` unset, so that
the next call fills again, with the outcome of its own fetch; the fill fails
when the fetch fails, when the response holds no price JSON, when the JSON
does not parse and when it yields no price of any region. -/
theorem ebsCost_fill_failure (env : EBSEnv) (cpf : cachingPriceFetcher)
    (fetched : Except String String) (region : String) (size duration : Int)
    (hnil : cpf.ebsPrices = none) :
    (∀ err, (cacheEBSPrices env cpf fetched).2 = some err →
      ebsCost env cpf fetched region size duration =
          (cpf, .error (Wrap err "error fetching EBS prices")) ∧
        ∀ fetched' region' size' duration',
          ebsCost env (ebsCost env cpf fetched region size duration).1 fetched' region' size'
              duration' =
            ebsCost env cpf fetched' region' size' duration') ∧
    (∀ err, fetched = .error err → (cacheEBSPrices env cpf fetched).2 = some err) ∧
    (∀ data, fetched = .ok data → env.findPriceJSON data = none →
      (cacheEBSPrices env cpf fetched).2 ≠ none) ∧
    (∀ data matched err, fetched = .ok data → env.findPriceJSON data = some matched →
      env.parseJSON matched = .error err → (cacheEBSPrices env cpf fetched).2 ≠ none) ∧
    (∀ data matched regions, fetched = .ok data → env.findPriceJSON data = some matched →
      env.parseJSON matched = .ok regions → ebsRegions regions [] = [] →
      (cacheEBSPrices env cpf fetched).2 ≠ none) := by
  refine ⟨fun err herr => ?_, fun err h => by simp [cacheEBSPrices, h],
    fun data h1 h2 => by simp [cacheEBSPrices, h1, h2],
    fun data matched err h1 h2 h3 => by simp [cacheEBSPrices, h1, h2, h3],
    fun data matched regions h1 h2 h3 h4 => by simp [cacheEBSPrices, h1, h2, h3, h4]⟩
  have h1 := cacheEBSPrices_failure env cpf fetched err herr
  have hc : cacheEBSPrices env cpf fetched = (cpf, some err) := Prod.ext h1 herr
  have key : ebsCost env cpf fetched region size duration =
      (cpf, .error (Wrap err "error fetching EBS prices")) := by
    simp only [ebsCost, hnil, hc]
  exact ⟨key, fun fetched' region' size' duration' => by rw [key]⟩

/-- C24 at an unfilled fetcher: the fetch fails with `timeout`, and the next
call, whose fetch succeeds, returns the cost of 10 GB for a month at the
fetched price 1/10. -/
theorem ebsCost_fill_failure_witness :
    ebsCost exampleEBSEnv {} (.error "timeout") "us-east-1" 10 month =
      ({}, .error (Wrap "timeout" "error fetching EBS prices")) ∧
    (ebsCost exampleEBSEnv
      (ebsCost exampleEBSEnv {} (.error "timeout") "us-east-1" 10 month).1
      (.ok "prices") "us-east-1" 10 month).2 = .ok 1 := by
  have key := (ebsCost_fill_failure exampleEBSEnv {} (.error "timeout") "us-east-1" 10 month
    rfl).1 "timeout" rfl
  refine ⟨key.1, ?_⟩
  rw [key.2]
  simp [ebsCost, cacheEBSPrices, exampleEBSEnv, ebsRegions, ebsTypes, PriceMap.set,
    PriceMap.get?, month, Hour]

/-- C25: for a region with the cached price `p`, `ebsCost` returns
`size * (duration / month) * p`, the month being 30 days of 24 hours; a volume
held for exactly a month costs `size * p`. -/
theorem ebsCost_formula (env : EBSEnv) (cpf : cachingPriceFetcher)
    (fetched : Except String String) (region : String) (size duration : Int)
    (m : PriceMap String) (p : ℚ)
    (hc : cpf.ebsPrices = some m) (hp : PriceMap.get? m region = some p) :
    ebsCost env cpf fetched region size duration =
        (cpf, .ok ((size : ℚ) * ((duration : ℚ) / (month : ℚ)) * p)) ∧
      (duration = month →
        ebsCost env cpf fetched region size duration = (cpf, .ok ((size : ℚ) * p))) ∧
      month = 30 * (24 * Hour) := by
  have key : ebsCost env cpf fetched region size duration =
      (cpf, .ok ((size : ℚ) * ((duration : ℚ) / (month : ℚ)) * p)) := by
    simp only [ebsCost, hc, Option.getD_some, hp]
  refine ⟨key, fun hd => ?_, by unfold month; ring⟩
  rw [key, hd]
  have hm : (month : ℚ) ≠ 0 := by
    simp [month, Hour]
  rw [div_self hm, mul_one]

/-- C25 at the cached price 1/10 for `us-east-1`: 10 GB for 15 days cost 1/2. -/
theorem ebsCost_formula_witness :
    ebsCost exampleEBSEnv { ebsPrices := some [("us-east-1", 1 / 10)] } (.error "unused")
        "us-east-1" 10 (15 * (24 * Hour)) =
      ({ ebsPrices := some [("us-east-1", 1 / 10)] },
        .ok ((10 : Int) * (((15 * (24 * Hour) : Int) : ℚ) / (month : ℚ)) * (1 / 10))) ∧
    ((10 : Int) : ℚ) * (((15 * (24 * Hour) : Int) : ℚ) / (month : ℚ)) * (1 / 10) = 1 / 2 :=
  ⟨(ebsCost_formula exampleEBSEnv { ebsPrices := some [("us-east-1", 1 / 10)] }
      (.error "unused") "us-east-1" 10 (15 * (24 * Hour)) [("us-east-1", 1 / 10)] (1 / 10)
      rfl (by simp [PriceMap.get?, List.lookup])).1,
    by simp [month, Hour]; norm_num⟩

theorem aggregate_other (results : List distroSchedulerResult) (id : String) :
    ∀ st : AggregatorState, (∀ r ∈ results, r.err = none → r.distroId ≠ id) →
      (aggregate results st).taskQueueItems.get? id = st.taskQueueItems.get? id ∧
      (aggregate results st).schedulerEvents.get? id = st.schedulerEvents.get? id := by
  induction results with
  | nil => intro st _; exact ⟨rfl, rfl⟩
  | cons r rest ih =>
    intro st h
    have hrest : ∀ x ∈ rest, x.err = none → x.distroId ≠ id :=
      fun x hx => h x (List.mem_cons_of_mem _ hx)
    cases he : r.err with
    | some err =>
      simp only [aggregate, he]
      exact ih _ hrest
    | none =>
      simp only [aggregate, he]
      have hne : r.distroId ≠ id := h r (by simp) he
      have hb : (id == r.distroId) = false := by simpa using fun h' => hne h'.symm
      obtain ⟨h1, h2⟩ := ih
        { st with
            schedulerEvents := st.schedulerEvents.set r.distroId r.schedulerEvent
            taskQueueItems := st.taskQueueItems.set r.distroId r.taskQueueItem } hrest
      rw [h1, h2]
      simp [GoMap.get?, GoMap.set, List.lookup_cons, hb]

theorem aggregate_entry (results : List distroSchedulerResult)
    (hnd : (results.map (fun r => r.distroId)).Nodup) :
    ∀ st : AggregatorState, ∀ r ∈ results, r.err = none →
      (aggregate results st).taskQueueItems.get? r.distroId = some r.taskQueueItem ∧
      (aggregate results st).schedulerEvents.get? r.distroId = some r.schedulerEvent := by
  induction results with
  | nil => intro st r hr; simp at hr
  | cons x rest ih =>
    intro st r hr he
    simp only [List.map_cons, List.nodup_cons, List.mem_map, not_exists, not_and] at hnd
    rcases List.mem_cons.mp hr with rfl | hr
    · -- the result is the head: no later result has its distro
      simp only [aggregate, he]
      obtain ⟨h1, h2⟩ := aggregate_other rest r.distroId
        { st with
            schedulerEvents := st.schedulerEvents.set r.distroId r.schedulerEvent
            taskQueueItems := st.taskQueueItems.set r.distroId r.taskQueueItem }
        (fun y hy _ => hnd.1 y hy)
      rw [h1, h2]
      simp [GoMap.get?, GoMap.set, List.lookup_cons]
    · cases hx : x.err with
      | some err =>
        simp only [aggregate, hx]
        exact ih hnd.2 _ r hr he
      | none =>
        simp only [aggregate, hx]
        exact ih hnd.2 _ r hr he

theorem aggregate_absent (results : List distroSchedulerResult) (id : String) :
    ∀ st : AggregatorState,
      ((aggregate results st).taskQueueItems.get? id ≠ none →
        st.taskQueueItems.get? id ≠ none ∨ ∃ r ∈ results, r.distroId = id ∧ r.err = none) ∧
      ((aggregate results st).schedulerEvents.get? id ≠ none →
        st.schedulerEvents.get? id ≠ none ∨ ∃ r ∈ results, r.distroId = id ∧ r.err = none) := by
  intro st
  by_cases h : ∃ r ∈ results, r.distroId = id ∧ r.err = none
  · exact ⟨fun _ => Or.inr h, fun _ => Or.inr h⟩
  · have h' : ∀ r ∈ results, r.err = none → r.distroId ≠ id :=
      fun r hr he hid => h ⟨r, hr, hid, he⟩
    obtain ⟨h1, h2⟩ := aggregate_other results id st h'
    rw [h1, h2]
    exact ⟨Or.inl, Or.inl⟩

theorem aggregate_catcher (results : List distroSchedulerResult) :
    ∀ st : AggregatorState,
      (aggregate results st).catcher ≠ [] ↔
        st.catcher ≠ [] ∨ ∃ r ∈ results, r.err ≠ none := by
  induction results with
  | nil => intro st; simp [aggregate]
  | cons x rest ih =>
    intro st
    cases hx : x.err with
    | some err =>
      simp only [aggregate, hx]
      rw [ih]
      simp [hx]
    | none =>
      simp only [aggregate, hx]
      rw [ih]
      simp [hx]

/-- C27: for results of distinct distros, after the aggregator has gone
through them from empty maps and an empty catcher, `taskQueueItems` and
`schedulerEvents` hold, for each result without error, its queue and its
event, they hold an entry for no other distro, and the catcher has an error
if and only if some result has one. -/
theorem aggregate_results (results : List distroSchedulerResult)
    (hnd : (results.map (fun r => r.distroId)).Nodup) :
    (∀ r ∈ results, r.err = none →
      (aggregate results {}).taskQueueItems.get? r.distroId = some r.taskQueueItem ∧
      (aggregate results {}).schedulerEvents.get? r.distroId = some r.schedulerEvent) ∧
    (∀ id, ((aggregate results {}).taskQueueItems.get? id ≠ none ∨
        (aggregate results {}).schedulerEvents.get? id ≠ none) →
      ∃ r ∈ results, r.distroId = id ∧ r.err = none) ∧
    ((aggregate results {}).catcher ≠ [] ↔ ∃ r ∈ results, r.err ≠ none) := by
  refine ⟨aggregate_entry results hnd {}, fun id h => ?_, ?_⟩
  · obtain ⟨h1, h2⟩ := aggregate_absent results id {}
    rcases h with h | h
    · rcases h1 h with h0 | h0
      · exact absurd rfl h0
      · exact h0
    · rcases h2 h with h0 | h0
      · exact absurd rfl h0
      · exact h0
  · rw [aggregate_catcher]
    simp

/-- C27 at the results of `d1` (a queue), `d2` (an error) and `d3` (a queue):
the maps hold the entries of `d1` and `d3`, and the catcher the error of
`d2`. -/
theorem aggregate_results_witness :
    aggregate
        [{ distroId := "d1", taskQueueItem := [{ Id := "t1" }] },
         { distroId := "d2", err := some "persist failed" },
         { distroId := "d3", taskQueueItem := [{ Id := "t3" }] }] {} =
      { schedulerEvents := [("d3", {}), ("d1", {})]
        taskQueueItems := [("d3", [{ Id := "t3" }]), ("d1", [{ Id := "t1" }])]
        catcher := [Wrap "persist failed" "error scheduling tasks on distro d2"] } ∧
    ((aggregate
        [{ distroId := "d1", taskQueueItem := [{ Id := "t1" }] },
         { distroId := "d2", err := some "persist failed" },
         { distroId := "d3", taskQueueItem := [{ Id := "t3" }] }] {}).catcher ≠ [] ↔
      ∃ r ∈ ([{ distroId := "d1", taskQueueItem := [{ Id := "t1" }] },
              { distroId := "d2", err := some "persist failed" },
              { distroId := "d3", taskQueueItem := [{ Id := "t3" }] }] :
              List distroSchedulerResult), r.err ≠ none) :=
  ⟨by decide,
    (aggregate_results
      [{ distroId := "d1", taskQueueItem := [{ Id := "t1" }] },
       { distroId := "d2", err := some "persist failed" },
       { distroId := "d3", taskQueueItem := [{ Id := "t3" }] }] (by decide)).2.2⟩

theorem bucketStep_progress (history : List SpotPrice) (end_ : Int) (s s' : BucketState)
    (h : bucketStep history end_ s = .next s') :
    (s'.i = s.i - 1 ∧ 0 < s.i ∧ s'.start = s.start ∧ s'.prices = s.prices) ∨
    (s'.i = s.i ∧ 0 ≤ s.i ∧ s'.start = s.start + Hour ∧ s'.start ≤ end_) := by
  unfold bucketStep at h
  by_cases hneg : s.i < 0
  · simp [hneg] at h
  · simp only [hneg, if_false] at h
    cases hh : history[s.i.toNat]? with
    | none => simp [hh] at h
    | some x =>
      simp only [hh] at h
      by_cases hc : s.i = 0 ∨ s.start = x.Timestamp ∨
          (s.start > x.Timestamp ∧ s.start < (history.getD (s.i - 1).toNat x).Timestamp)
      · rw [if_pos hc] at h
        cases hp : x.SpotPrice with
        | none => simp [hp] at h
        | some price =>
          simp only [hp] at h
          by_cases hb : s.start + Hour > end_
          · simp [hb] at h
          · rw [if_neg hb] at h
            cases h
            exact Or.inr ⟨rfl, by omega, rfl, by simp only; omega⟩
      · rw [if_neg hc] at h
        cases h
        have h0 : s.i ≠ 0 := fun h0 => hc (Or.inl h0)
        exact Or.inl ⟨rfl, by omega, rfl, rfl⟩

theorem bucketRun_hourlyLoop (history : List SpotPrice) (end_ : Int) :
    ∀ (n k : Nat) (start : Int) (acc : List spotRate), k + (end_ - start).toNat = n →
      k ≤ history.length →
      ∃ fuel, fuel ≤ k + ((end_ - start) / Hour).toNat + 1 ∧
        bucketRun history end_ fuel ⟨(k : Int) - 1, start, acc⟩ =
          some (hourlyLoop history end_ k start acc) := by
  intro n
  induction n using Nat.strong_induction_on with
  | _ n ih =>
    intro k start acc hn hlen
    cases k with
    | zero =>
      refine ⟨1, by omega, ?_⟩
      rw [hourlyLoop]
      simp [bucketRun, bucketStep]
    | succ i =>
      have hi : i < history.length := by omega
      have hcast : ((i + 1 : Nat) : Int) - 1 = (i : Int) := by push_cast; ring
      rw [hcast, hourlyLoop]
      simp only [List.getElem?_eq_getElem hi]
      have hstep0 : ¬ ((i : Int) < 0) := by omega
      have hidx : history[(i : Int).toNat]? = some history[i] := by
        simp [List.getElem?_eq_getElem hi]
      have hpred : ((i : Int) - 1).toNat = i - 1 := by omega
      have hzero : ((i : Int) = 0) ↔ i = 0 := by omega
      by_cases hc : i = 0 ∨ start = history[i].Timestamp ∨
          (start > history[i].Timestamp ∧ start < (history.getD (i - 1) history[i]).Timestamp)
      · have hc' : (i : Int) = 0 ∨ start = history[i].Timestamp ∨
            (start > history[i].Timestamp ∧
              start < (history.getD ((i : Int) - 1).toNat history[i]).Timestamp) := by
          rw [hpred, hzero]; exact hc
        rw [if_pos hc]
        cases hp : history[i].SpotPrice with
        | none =>
          refine ⟨1, by omega, ?_⟩
          simp only [bucketRun, bucketStep, hstep0, if_false, hidx, if_pos hc', hp]
        | some price =>
          simp only
          by_cases hb : start + Hour > end_
          · refine ⟨1, by omega, ?_⟩
            simp only [bucketRun, bucketStep, hstep0, if_false, hidx, if_pos hc', hp, if_pos hb]
          · rw [if_neg hb]
            obtain ⟨fuel, hf, hrun⟩ := ih (i + 1 + (end_ - (start + Hour)).toNat)
              (by unfold Hour at *; omega) (i + 1) (start + Hour)
              (acc ++ [⟨start, price⟩]) rfl hlen
            rw [hcast] at hrun
            refine ⟨fuel + 1, ?_, ?_⟩
            · have : ((end_ - start) / Hour).toNat =
                  ((end_ - (start + Hour)) / Hour).toNat + 1 := by
                unfold Hour at *; omega
              omega
            · simp only [bucketRun, bucketStep, hstep0, if_false, hidx, if_pos hc', hp,
                if_neg hb]
              exact hrun
      · have hc' : ¬ ((i : Int) = 0 ∨ start = history[i].Timestamp ∨
            (start > history[i].Timestamp ∧
              start < (history.getD ((i : Int) - 1).toNat history[i]).Timestamp)) := by
          rw [hpred, hzero]; exact hc
        rw [if_neg hc]
        have hi0 : i ≠ 0 := fun h => hc (Or.inl h)
        obtain ⟨fuel, hf, hrun⟩ := ih (i + (end_ - start).toNat) (by omega) i start acc rfl
          (by omega)
        refine ⟨fuel + 1, by omega, ?_⟩
        simp only [bucketRun, bucketStep, hstep0, if_false, hidx, if_neg hc']
        exact hrun

/-- C30: the sampling loop of `describeHourlySpotPriceHistory` returns, for
every history, start and end, within `len(history) + (end - start) / 1h + 1`
iterations, with the value of `describeHourlySpotPriceHistory`; an iteration
that does not return either decrements an index that is above 0 or keeps the
index and advances the boundary by one hour to at most `end`; and an empty
history gives an empty rate list. -/
theorem sampling_loop_terminates (history : List SpotPrice) (start end_ : Int) :
    (∃ fuel, fuel ≤ history.length + ((end_ - start) / Hour).toNat + 1 ∧
      bucketRun history end_ fuel ⟨(history.length : Int) - 1, start, []⟩ =
        some (describeHourlySpotPriceHistory (.ok history) start end_)) ∧
    (∀ s s', bucketStep history end_ s = .next s' →
      (s'.i = s.i - 1 ∧ 0 < s.i ∧ s'.start = s.start ∧ s'.prices = s.prices) ∨
      (s'.i = s.i ∧ 0 ≤ s.i ∧ s'.start = s.start + Hour ∧ s'.start ≤ end_)) ∧
    describeHourlySpotPriceHistory (.ok []) start end_ = .ok [] := by
  refine ⟨?_, bucketStep_progress history end_, ?_⟩
  · exact bucketRun_hourlyLoop history end_ _ history.length start [] rfl (le_refl _)
  · simp only [describeHourlySpotPriceHistory, List.length_nil]
    rw [hourlyLoop]

/-- C30 at the history `[(2h, 2), (0, 1)]`, `start = 0.5h`, `end = 2.5h`. -/
theorem sampling_loop_terminates_witness :
    ∃ fuel, fuel ≤ ([⟨7200000000000, some 2, "a"⟩, ⟨0, some 1, "a"⟩] : List SpotPrice).length +
        (((9000000000000 : Int) - 1800000000000) / Hour).toNat + 1 ∧
      bucketRun [⟨7200000000000, some 2, "a"⟩, ⟨0, some 1, "a"⟩] 9000000000000 fuel
          ⟨(([⟨7200000000000, some 2, "a"⟩, ⟨0, some 1, "a"⟩] : List SpotPrice).length : Int) - 1,
            1800000000000, []⟩ =
        some (describeHourlySpotPriceHistory
          (.ok [⟨7200000000000, some 2, "a"⟩, ⟨0, some 1, "a"⟩]) 1800000000000 9000000000000) :=
  (sampling_loop_terminates [⟨7200000000000, some 2, "a"⟩, ⟨0, some 1, "a"⟩]
    1800000000000 9000000000000).1

end Evergreen
